import Mathlib

/-!
# Dots and Boxes rules engine (`src/web-app/DotsAndBoxes.js`)

A shallow embedding of the rules engine.  JavaScript numbers that the engine
uses as indices, dimensions, cell values and scores are integers here (`Int`).
Every result is an `Except Fault _`: a `Fault` records an access that leaves a
grid or an array length that `Array(n)` refuses, so that a result `Except.ok _`
certifies that every array access made on the way was inside the grid.

Scores are the one place where the value of a JavaScript number can differ from
the integer: `+=` is a double-precision addition, exact only up to `2^53`.
`makeMove` adds the scores as integers; `makeMoveDouble` is the same function
with the addition rounded as JavaScript rounds it (`jsAdd`), and
`makeMoveDouble_eq_makeMove` shows that the two agree while the scores stay
below `2^53 - 1`.
-/

namespace DotsAndBoxes

/-! ## Data model -/

/-- Ways in which an array operation of the engine can leave the grid.
`missingRow`: `grid[row]` is `undefined`, so `grid[row][col]` throws a
`TypeError` in JavaScript.  `missingCell`: the row exists but `col` is not one
of its indices (JavaScript reads `undefined`, or writes outside the row).
`invalidLength`: `Array(n)` with `n` negative or above `2^32 - 1`, the largest
array length (a `RangeError`). -/
inductive Fault where
  | missingRow
  | missingCell
  | invalidLength
  deriving DecidableEq, Repr

/-- A two-dimensional array of numbers, row by row. -/
abbrev Grid := List (List Int)

/-- The enumeration `DotsAndBoxes.LineType`.  The engine only ever tests
`lineType === LineType.HORIZONTAL`; everything else takes the vertical
branch. -/
inductive LineType where
  | HORIZONTAL
  | VERTICAL
  deriving DecidableEq, Repr

/-- The record `GameState` of the engine. -/
structure GameState where
  width : Int
  height : Int
  horizontalLines : Grid
  verticalLines : Grid
  boxes : Grid
  currentPlayer : Int
  player1Score : Int
  player2Score : Int
  extraTurn : Bool
  deriving DecidableEq, Repr

deriving instance DecidableEq for Except

/-! ## Array primitives -/

/-- The expression `grid[row][col]` used as a value. -/
def readCell (grid : Grid) (row col : Int) : Except Fault Int :=
  if row < 0 then .error .missingRow
  else
    match grid.get? row.toNat with
    | none => .error .missingRow
    | some line =>
      if col < 0 then .error .missingCell
      else
        match line.get? col.toNat with
        | none => .error .missingCell
        | some v => .ok v

/-- The assignment `grid[row][col] = v`. -/
def writeCell (grid : Grid) (row col : Int) (v : Int) : Except Fault Grid :=
  if row < 0 then .error .missingRow
  else
    match grid.get? row.toNat with
    | none => .error .missingRow
    | some line =>
      if col < 0 then .error .missingCell
      else
        match line.get? col.toNat with
        | none => .error .missingCell
        | some _ => .ok (grid.set row.toNat (line.set col.toNat v))

/-- The expression `Array(n).fill(v)`: `Array(n)` throws a `RangeError` unless
`0 ≤ n ≤ 2^32 - 1 = 4294967295`. -/
def newArray {α : Type} (n : Int) (v : α) : Except Fault (List α) :=
  if n < 0 ∨ 4294967296 ≤ n then .error .invalidLength
  else .ok (List.replicate n.toNat v)

/-- The test `grid[row][col] === 1`. -/
def isOne (grid : Grid) (row col : Int) : Except Fault Bool := do
  let v ← readCell grid row col
  pure (v == 1)

/-- The short-circuit conjunction `a && b`: `b` is evaluated only when `a`
is true. -/
def andAlso (a b : Except Fault Bool) : Except Fault Bool := do
  if (← a) then b else pure false

/-! ## The engine -/

/-- `DotsAndBoxes.createGame(width, height)`. -/
def createGame (width height : Int) : Except Fault GameState := do
  let horizontalLines ← (← newArray height ()).mapM (fun _ => newArray (width - 1) (0 : Int))
  let verticalLines ← (← newArray (height - 1) ()).mapM (fun _ => newArray width (0 : Int))
  let boxes ← (← newArray (height - 1) ()).mapM (fun _ => newArray (width - 1) (0 : Int))
  pure
    { width := width
      height := height
      horizontalLines := horizontalLines
      verticalLines := verticalLines
      boxes := boxes
      currentPlayer := 1
      player1Score := 0
      player2Score := 0
      extraTurn := false }

/-- `DotsAndBoxes.isLineDrawn(gameState, lineType, row, col)`. -/
def isLineDrawn (gameState : GameState) (lineType : LineType) (row col : Int) :
    Except Fault Bool :=
  match lineType with
  | .HORIZONTAL => isOne gameState.horizontalLines row col
  | .VERTICAL => isOne gameState.verticalLines row col

/-- `DotsAndBoxes.isValidMove(gameState, lineType, row, col)`. -/
def isValidMove (gameState : GameState) (lineType : LineType) (row col : Int) :
    Except Fault Bool :=
  match lineType with
  | .HORIZONTAL =>
    if row < 0 || row ≥ gameState.height || col < 0 || col ≥ gameState.width - 1 then
      pure false
    else do
      let drawn ← isLineDrawn gameState lineType row col
      pure (!drawn)
  | .VERTICAL =>
    if row < 0 || row ≥ gameState.height - 1 || col < 0 || col ≥ gameState.width then
      pure false
    else do
      let drawn ← isLineDrawn gameState lineType row col
      pure (!drawn)

/-- One of the four blocks of `checkBoxCompletion`: when `guard` holds and the
three other sides are drawn, push `box` onto `completedBoxes`. -/
def pushIfComplete (completedBoxes : List (Int × Int)) (guard : Bool)
    (sides : Except Fault Bool) (box : Int × Int) : Except Fault (List (Int × Int)) :=
  if guard then do
    if (← sides) then pure (completedBoxes ++ [box]) else pure completedBoxes
  else pure completedBoxes

/-- `DotsAndBoxes.checkBoxCompletion(gameState, lineType, row, col)`; a box
`{row, col}` is the pair `(row, col)`. -/
def checkBoxCompletion (gameState : GameState) (lineType : LineType) (row col : Int) :
    Except Fault (List (Int × Int)) := do
  let completedBoxes : List (Int × Int) := []
  match lineType with
  | .HORIZONTAL =>
    -- box above (if not at top row): top, left, right
    let completedBoxes ← pushIfComplete completedBoxes (decide (row > 0))
      (andAlso (isOne gameState.horizontalLines (row - 1) col)
        (andAlso (isOne gameState.verticalLines (row - 1) col)
          (isOne gameState.verticalLines (row - 1) (col + 1))))
      (row - 1, col)
    -- box below (if not at bottom row): bottom, left, right
    let completedBoxes ← pushIfComplete completedBoxes (decide (row < gameState.height - 1))
      (andAlso (isOne gameState.horizontalLines (row + 1) col)
        (andAlso (isOne gameState.verticalLines row col)
          (isOne gameState.verticalLines row (col + 1))))
      (row, col)
    pure completedBoxes
  | .VERTICAL =>
    -- box to the left (if not at leftmost column): top, bottom, left
    let completedBoxes ← pushIfComplete completedBoxes (decide (col > 0))
      (andAlso (isOne gameState.horizontalLines row (col - 1))
        (andAlso (isOne gameState.horizontalLines (row + 1) (col - 1))
          (isOne gameState.verticalLines row (col - 1))))
      (row, col - 1)
    -- box to the right (if not at rightmost column): top, bottom, right
    let completedBoxes ← pushIfComplete completedBoxes (decide (col < gameState.width - 1))
      (andAlso (isOne gameState.horizontalLines row col)
        (andAlso (isOne gameState.horizontalLines (row + 1) col)
          (isOne gameState.verticalLines row (col + 1))))
      (row, col)
    pure completedBoxes

/-- The step "Draw the line" of `makeMove`: the assignment
`horizontalLines[row][col] = 1` or `verticalLines[row][col] = 1`. -/
def drawLine (gameState : GameState) (lineType : LineType) (row col : Int) :
    Except Fault GameState :=
  match lineType with
  | .HORIZONTAL => do
    let lines ← writeCell gameState.horizontalLines row col 1
    pure { gameState with horizontalLines := lines }
  | .VERTICAL => do
    let lines ← writeCell gameState.verticalLines row col 1
    pure { gameState with verticalLines := lines }

/-- The loop `completedBoxes.forEach(({ row, col }) => { boxes[row][col] = currentPlayer; })`
of `makeMove`. -/
def claimBoxes (boxes : Grid) (currentPlayer : Int) :
    List (Int × Int) → Except Fault Grid
  | [] => pure boxes
  | (row, col) :: rest => do
    let boxes ← writeCell boxes row col currentPlayer
    claimBoxes boxes currentPlayer rest

/-- `DotsAndBoxes.makeMove(gameState, lineType, row, col)`; `none` is the
result `undefined`.  The deep copy `JSON.parse(JSON.stringify(gameState))` is
the state itself.  The two `+=` on the scores are exact integer additions here;
`makeMoveDouble` below does them in double precision, as JavaScript numbers do,
and the two agree as long as the new score is at most `2^53`. -/
def makeMove (gameState : GameState) (lineType : LineType) (row col : Int) :
    Except Fault (Option GameState) := do
  let newGameState := gameState
  if !(← isValidMove gameState lineType row col) then
    pure none
  else do
    let newGameState ← drawLine newGameState lineType row col
    let completedBoxes ← checkBoxCompletion newGameState lineType row col
    if completedBoxes.length > 0 then
      let currentPlayer := newGameState.currentPlayer
      let boxes ← claimBoxes newGameState.boxes currentPlayer completedBoxes
      let newGameState := { newGameState with boxes := boxes }
      let newGameState :=
        if currentPlayer = 1 then
          { newGameState with
            player1Score := newGameState.player1Score + (completedBoxes.length : Int) }
        else
          { newGameState with
            player2Score := newGameState.player2Score + (completedBoxes.length : Int) }
      pure (some { newGameState with extraTurn := true })
    else
      pure (some
        { newGameState with
          currentPlayer := if newGameState.currentPlayer = 1 then 2 else 1
          extraTurn := false })

/-! ## Scores as JavaScript numbers -/

/-- The spacing of the double-precision numbers around the magnitude `m`: the
least power of two `u`, starting from `u`, with `m < 2^53 * u`. -/
def ulpLoop : Nat → Nat → Nat → Nat
  | 0, _, u => u
  | fuel + 1, m, u => if m < 9007199254740992 * u then u else ulpLoop fuel m (2 * u)

/-- The double-precision number nearest to the integer `x`, a tie going to the
even significand: the value a JavaScript number takes when the exact result of
an operation is `x`.  Integers of absolute value at most `2^53` are exact;
above, `x` is rounded to a multiple of the spacing of its binade.  A result of
`2^1024` or more is `Infinity` in JavaScript and outside this function; a
finite number plus a count of at most 2 never gets there. -/
def roundToDouble (x : Int) : Int :=
  let m := x.natAbs
  if m ≤ 9007199254740992 then x
  else
    let ulp := ulpLoop m m 1
    let q := m / ulp
    let r := m % ulp
    let n :=
      if 2 * r < ulp then q
      else if ulp < 2 * r then q + 1
      else if q % 2 = 0 then q else q + 1
    x.sign * ((n * ulp : Nat) : Int)

/-- The sum `a + b` of two JavaScript numbers that hold integers. -/
def jsAdd (a b : Int) : Int := roundToDouble (a + b)

/-- `DotsAndBoxes.makeMove(gameState, lineType, row, col)` with the two
statements `newGameState.player1Score += completedBoxes.length` and
`newGameState.player2Score += completedBoxes.length` done in double precision;
everything else is as in `makeMove`. -/
def makeMoveDouble (gameState : GameState) (lineType : LineType) (row col : Int) :
    Except Fault (Option GameState) := do
  let newGameState := gameState
  if !(← isValidMove gameState lineType row col) then
    pure none
  else do
    let newGameState ← drawLine newGameState lineType row col
    let completedBoxes ← checkBoxCompletion newGameState lineType row col
    if completedBoxes.length > 0 then
      let currentPlayer := newGameState.currentPlayer
      let boxes ← claimBoxes newGameState.boxes currentPlayer completedBoxes
      let newGameState := { newGameState with boxes := boxes }
      let newGameState :=
        if currentPlayer = 1 then
          { newGameState with
            player1Score := jsAdd newGameState.player1Score (completedBoxes.length : Int) }
        else
          { newGameState with
            player2Score := jsAdd newGameState.player2Score (completedBoxes.length : Int) }
      pure (some { newGameState with extraTurn := true })
    else
      pure (some
        { newGameState with
          currentPlayer := if newGameState.currentPlayer = 1 then 2 else 1
          extraTurn := false })

/-! ## Well-formed and reachable states -/

/-- The grid has `rows` rows of `cols` cells each. -/
def GridShape (grid : Grid) (rows cols : Int) : Prop :=
  (grid.length : Int) = rows ∧ ∀ line ∈ grid, (line.length : Int) = cols

/-- Every cell of the grid holds one of the `allowed` values. -/
def GridValues (grid : Grid) (allowed : List Int) : Prop :=
  ∀ line ∈ grid, ∀ v ∈ line, v ∈ allowed

/-- A well-formed state: at least 2 x 2 dots, the three grids sized
consistently with `width` and `height`, edge values in {0, 1}, box values in
{0, 1, 2}, non-negative scores and `currentPlayer` in {1, 2}. -/
structure WellFormed (s : GameState) : Prop where
  width_ge : 2 ≤ s.width
  height_ge : 2 ≤ s.height
  hShape : GridShape s.horizontalLines s.height (s.width - 1)
  vShape : GridShape s.verticalLines (s.height - 1) s.width
  bShape : GridShape s.boxes (s.height - 1) (s.width - 1)
  hValues : GridValues s.horizontalLines [0, 1]
  vValues : GridValues s.verticalLines [0, 1]
  bValues : GridValues s.boxes [0, 1, 2]
  score1_nonneg : 0 ≤ s.player1Score
  score2_nonneg : 0 ≤ s.player2Score
  player : s.currentPlayer = 1 ∨ s.currentPlayer = 2

/-- The states obtained from `createGame(w, h)` by a finite sequence of
`makeMove` calls that each returned a state. -/
inductive Reachable (w h : Int) : GameState → Prop where
  | init {s : GameState} : createGame w h = .ok s → Reachable w h s
  | step {s s' : GameState} {lineType : LineType} {row col : Int} :
      Reachable w h s → makeMove s lineType row col = .ok (some s') → Reachable w h s'

/-- The indices are in range for the orientation: horizontal
`0 ≤ row < height`, `0 ≤ col < width - 1`; vertical `0 ≤ row < height - 1`,
`0 ≤ col < width`. -/
def InRange (s : GameState) (lineType : LineType) (row col : Int) : Prop :=
  match lineType with
  | .HORIZONTAL => 0 ≤ row ∧ row < s.height ∧ 0 ≤ col ∧ col < s.width - 1
  | .VERTICAL => 0 ≤ row ∧ row < s.height - 1 ∧ 0 ≤ col ∧ col < s.width

/-- The grid of edges of the given orientation. -/
def linesOf (s : GameState) : LineType → Grid
  | .HORIZONTAL => s.horizontalLines
  | .VERTICAL => s.verticalLines

/-- Number of cells of the grid that satisfy `p`. -/
def countCells (p : Int → Bool) (grid : Grid) : Nat :=
  (grid.map (List.countP p)).sum

/-- Number of claimed boxes (boxes whose value is non-zero). -/
def claimedBoxes (s : GameState) : Nat :=
  countCells (fun v => v != 0) s.boxes

/-- Number of drawn edges (edges whose value is 1), of both orientations. -/
def drawnEdges (s : GameState) : Nat :=
  countCells (fun v => v == 1) s.horizontalLines + countCells (fun v => v == 1) s.verticalLines

/-- All four bounding edges of box `(r, c)` read as 1: `horizontalLines[r][c]`,
`horizontalLines[r+1][c]`, `verticalLines[r][c]` and `verticalLines[r][c+1]`. -/
def FourSidesDrawn (s : GameState) (r c : Int) : Prop :=
  readCell s.horizontalLines r c = .ok 1 ∧ readCell s.horizontalLines (r + 1) c = .ok 1 ∧
    readCell s.verticalLines r c = .ok 1 ∧ readCell s.verticalLines r (c + 1) = .ok 1

instance (s : GameState) (r c : Int) : Decidable (FourSidesDrawn s r c) := by
  unfold FourSidesDrawn; infer_instance

/-- The boxes adjacent to an edge, as the specification lists them: for a
horizontal edge box `(row-1, col)` when `row > 0` and box `(row, col)` when
`row < height-1`; for a vertical edge box `(row, col-1)` when `col > 0` and box
`(row, col)` when `col < width-1`. -/
def candidateBoxes (s : GameState) : LineType → Int → Int → List (Int × Int)
  | .HORIZONTAL, row, col =>
    (if row > 0 then [(row - 1, col)] else []) ++
      (if row < s.height - 1 then [(row, col)] else [])
  | .VERTICAL, row, col =>
    (if col > 0 then [(row, col - 1)] else []) ++
      (if col < s.width - 1 then [(row, col)] else [])

/-- The edge is interior: a horizontal edge with `0 < row < height-1`, or a
vertical edge with `0 < col < width-1`. -/
def Interior (s : GameState) : LineType → Int → Int → Prop
  | .HORIZONTAL, row, _ => 0 < row ∧ row < s.height - 1
  | .VERTICAL, _, col => 0 < col ∧ col < s.width - 1

/-- The two boxes that an interior edge separates. -/
def adjacentPair : LineType → Int → Int → (Int × Int) × (Int × Int)
  | .HORIZONTAL, row, col => ((row - 1, col), (row, col))
  | .VERTICAL, row, col => ((row, col - 1), (row, col))

/-- Both boxes adjacent to the edge have their other three edges drawn. -/
def OtherSidesDrawn (s : GameState) : LineType → Int → Int → Prop
  | .HORIZONTAL, row, col =>
    (readCell s.horizontalLines (row - 1) col = .ok 1 ∧
      readCell s.verticalLines (row - 1) col = .ok 1 ∧
      readCell s.verticalLines (row - 1) (col + 1) = .ok 1) ∧
    (readCell s.horizontalLines (row + 1) col = .ok 1 ∧
      readCell s.verticalLines row col = .ok 1 ∧
      readCell s.verticalLines row (col + 1) = .ok 1)
  | .VERTICAL, row, col =>
    (readCell s.horizontalLines row (col - 1) = .ok 1 ∧
      readCell s.horizontalLines (row + 1) (col - 1) = .ok 1 ∧
      readCell s.verticalLines row (col - 1) = .ok 1) ∧
    (readCell s.horizontalLines row col = .ok 1 ∧
      readCell s.horizontalLines (row + 1) col = .ok 1 ∧
      readCell s.verticalLines row (col + 1) = .ok 1)

/-! ## Total lookup and update, used in the proofs -/

/-- The value at `(row, col)`, or 0 outside the grid. -/
def cellAt (grid : Grid) (row col : Int) : Int :=
  (grid.getD row.toNat []).getD col.toNat 0

/-- The grid with the value at `(row, col)` replaced. -/
def setCell (grid : Grid) (row col : Int) (v : Int) : Grid :=
  grid.set row.toNat ((grid.getD row.toNat []).set col.toNat v)

/-! ## Closed forms of the engine on well-formed states -/

/-- The three grids have the sizes that `width` and `height` prescribe. -/
structure Shaped (s : GameState) : Prop where
  width_ge : 2 ≤ s.width
  height_ge : 2 ≤ s.height
  hShape : GridShape s.horizontalLines s.height (s.width - 1)
  vShape : GridShape s.verticalLines (s.height - 1) s.width
  bShape : GridShape s.boxes (s.height - 1) (s.width - 1)

/-- All four bounding edges of box `(r, c)` are drawn. -/
def boxSides (s : GameState) (r c : Int) : Prop :=
  cellAt s.horizontalLines r c = 1 ∧ cellAt s.horizontalLines (r + 1) c = 1 ∧
    cellAt s.verticalLines r c = 1 ∧ cellAt s.verticalLines r (c + 1) = 1

instance (s : GameState) (r c : Int) : Decidable (boxSides s r c) := by
  unfold boxSides; infer_instance

/-- Closed form of `checkBoxCompletion`. -/
def completedList (s : GameState) : LineType → Int → Int → List (Int × Int)
  | .HORIZONTAL, row, col =>
    (if row > 0 ∧ cellAt s.horizontalLines (row - 1) col = 1 ∧
        cellAt s.verticalLines (row - 1) col = 1 ∧
        cellAt s.verticalLines (row - 1) (col + 1) = 1 then [(row - 1, col)] else []) ++
    (if row < s.height - 1 ∧ cellAt s.horizontalLines (row + 1) col = 1 ∧
        cellAt s.verticalLines row col = 1 ∧
        cellAt s.verticalLines row (col + 1) = 1 then [(row, col)] else [])
  | .VERTICAL, row, col =>
    (if col > 0 ∧ cellAt s.horizontalLines row (col - 1) = 1 ∧
        cellAt s.horizontalLines (row + 1) (col - 1) = 1 ∧
        cellAt s.verticalLines row (col - 1) = 1 then [(row, col - 1)] else []) ++
    (if col < s.width - 1 ∧ cellAt s.horizontalLines row col = 1 ∧
        cellAt s.horizontalLines (row + 1) col = 1 ∧
        cellAt s.verticalLines row (col + 1) = 1 then [(row, col)] else [])

instance (s : GameState) (t : LineType) (row col : Int) : Decidable (InRange s t row col) := by
  cases t <;> (unfold InRange; infer_instance)

/-- Closed form of `drawLine`. -/
def drawn (s : GameState) : LineType → Int → Int → GameState
  | .HORIZONTAL, row, col =>
    { s with horizontalLines := setCell s.horizontalLines row col 1 }
  | .VERTICAL, row, col =>
    { s with verticalLines := setCell s.verticalLines row col 1 }

/-- Closed form of `claimBoxes`. -/
def claimAll (boxes : Grid) (currentPlayer : Int) : List (Int × Int) → Grid
  | [] => boxes
  | (row, col) :: rest => claimAll (setCell boxes row col currentPlayer) currentPlayer rest

/-- Closed form of a successful `makeMove`. -/
def applyMove (s : GameState) (t : LineType) (row col : Int) : GameState :=
  let d := drawn s t row col
  let completedBoxes := completedList d t row col
  if completedBoxes.length > 0 then
    { d with
      boxes := claimAll d.boxes d.currentPlayer completedBoxes
      player1Score :=
        if d.currentPlayer = 1 then d.player1Score + (completedBoxes.length : Int)
        else d.player1Score
      player2Score :=
        if d.currentPlayer = 1 then d.player2Score
        else d.player2Score + (completedBoxes.length : Int)
      extraTurn := true }
  else
    { d with
      currentPlayer := if d.currentPlayer = 1 then 2 else 1
      extraTurn := false }

/-- Closed form of a successful `makeMoveDouble`. -/
def applyMoveDouble (s : GameState) (t : LineType) (row col : Int) : GameState :=
  let d := drawn s t row col
  let completedBoxes := completedList d t row col
  if completedBoxes.length > 0 then
    { d with
      boxes := claimAll d.boxes d.currentPlayer completedBoxes
      player1Score :=
        if d.currentPlayer = 1 then jsAdd d.player1Score (completedBoxes.length : Int)
        else d.player1Score
      player2Score :=
        if d.currentPlayer = 1 then d.player2Score
        else jsAdd d.player2Score (completedBoxes.length : Int)
      extraTurn := true }
  else
    { d with
      currentPlayer := if d.currentPlayer = 1 then 2 else 1
      extraTurn := false }

/-- Box `(r, c)` has the edge `(t, row, col)` as one of its four sides. -/
def Touches : LineType → Int → Int → Int → Int → Prop
  | .HORIZONTAL, row, col, r, c => c = col ∧ (r = row - 1 ∨ r = row)
  | .VERTICAL, row, col, r, c => r = row ∧ (c = col - 1 ∨ c = col)

/-- The pair `(r, c)` is a valid box index of the state. -/
def BoxIndex (s : GameState) (r c : Int) : Prop :=
  0 ≤ r ∧ r < s.height - 1 ∧ 0 ≤ c ∧ c < s.width - 1

/-! ## The initial state and the invariants of play -/

/-- Closed form of `createGame`. -/
def emptyGame (w h : Int) : GameState :=
  { width := w
    height := h
    horizontalLines := List.replicate h.toNat (List.replicate (w - 1).toNat 0)
    verticalLines := List.replicate (h - 1).toNat (List.replicate w.toNat 0)
    boxes := List.replicate (h - 1).toNat (List.replicate (w - 1).toNat 0)
    currentPlayer := 1
    player1Score := 0
    player2Score := 0
    extraTurn := false }

/-- The invariants of play: the state is well-formed with the dimensions it was
created with, a box is claimed exactly when its four sides are drawn, and the
two scores add up to the number of claimed boxes. -/
structure PlayInvariant (w h : Int) (s : GameState) : Prop where
  wf : WellFormed s
  width_eq : s.width = w
  height_eq : s.height = h
  boxes_iff : ∀ r c, BoxIndex s r c → (cellAt s.boxes r c ≠ 0 ↔ boxSides s r c)
  scores : s.player1Score + s.player2Score = (claimedBoxes s : Int)

instance (g : Grid) (R C : Int) : Decidable (GridShape g R C) := by
  unfold GridShape; infer_instance

instance (g : Grid) (A : List Int) : Decidable (GridValues g A) := by
  unfold GridValues; infer_instance

instance (s : GameState) : Decidable (WellFormed s) :=
  decidable_of_iff
    (2 ≤ s.width ∧ 2 ≤ s.height ∧ GridShape s.horizontalLines s.height (s.width - 1) ∧
      GridShape s.verticalLines (s.height - 1) s.width ∧
      GridShape s.boxes (s.height - 1) (s.width - 1) ∧
      GridValues s.horizontalLines [0, 1] ∧ GridValues s.verticalLines [0, 1] ∧
      GridValues s.boxes [0, 1, 2] ∧ 0 ≤ s.player1Score ∧ 0 ≤ s.player2Score ∧
      (s.currentPlayer = 1 ∨ s.currentPlayer = 2))
    ⟨fun ⟨a, b, c, d, e, f, g, h, i, j, k⟩ => ⟨a, b, c, d, e, f, g, h, i, j, k⟩,
      fun h => ⟨h.width_ge, h.height_ge, h.hShape, h.vShape, h.bShape, h.hValues, h.vValues,
        h.bValues, h.score1_nonneg, h.score2_nonneg, h.player⟩⟩

instance (s : GameState) (t : LineType) (row col : Int) : Decidable (Interior s t row col) := by
  cases t <;> (unfold Interior; infer_instance)

instance (s : GameState) (t : LineType) (row col : Int) :
    Decidable (OtherSidesDrawn s t row col) := by
  cases t <;> (unfold OtherSidesDrawn; infer_instance)

/-! ## Sample positions -/

/-- A 2 x 2 game (one box) after player 1 drew the top edge. -/
def oneSide : GameState :=
  { width := 2, height := 2, horizontalLines := [[1], [0]], verticalLines := [[0, 0]],
    boxes := [[0]], currentPlayer := 2, player1Score := 0, player2Score := 0,
    extraTurn := false }

/-- The same game after player 2 drew the bottom edge. -/
def twoSides : GameState :=
  { width := 2, height := 2, horizontalLines := [[1], [1]], verticalLines := [[0, 0]],
    boxes := [[0]], currentPlayer := 1, player1Score := 0, player2Score := 0,
    extraTurn := false }

/-- The same game after player 1 drew the left edge. -/
def threeSides : GameState :=
  { width := 2, height := 2, horizontalLines := [[1], [1]], verticalLines := [[1, 0]],
    boxes := [[0]], currentPlayer := 2, player1Score := 0, player2Score := 0,
    extraTurn := false }

/-- The same game after player 2 drew the right edge and claimed the box. -/
def playedGame : GameState :=
  { width := 2, height := 2, horizontalLines := [[1], [1]], verticalLines := [[1, 1]],
    boxes := [[2]], currentPlayer := 2, player1Score := 0, player2Score := 1,
    extraTurn := true }

/-- A 3 x 2 position (two boxes side by side) in which only the edge between
the two boxes is undrawn; player 1 is to move. -/
def twoBoxesOpen : GameState :=
  { width := 3, height := 2, horizontalLines := [[1, 1], [1, 1]], verticalLines := [[1, 0, 1]],
    boxes := [[0, 0]], currentPlayer := 1, player1Score := 0, player2Score := 0,
    extraTurn := false }

/-- The position `twoBoxesOpen` after player 1 drew the middle edge. -/
def twoBoxesClaimed : GameState :=
  { width := 3, height := 2, horizontalLines := [[1, 1], [1, 1]], verticalLines := [[1, 1, 1]],
    boxes := [[1, 1]], currentPlayer := 1, player1Score := 2, player2Score := 0,
    extraTurn := true }

/-- The position `threeSides` with the score of player 2, who is to move, at
`2^53 = 9007199254740992`. -/
def threeSidesHighScore : GameState :=
  { width := 2, height := 2, horizontalLines := [[1], [1]], verticalLines := [[1, 0]],
    boxes := [[0]], currentPlayer := 2, player1Score := 0,
    player2Score := 9007199254740992, extraTurn := false }

/-- The position `twoBoxesOpen` with the score of player 1, who is to move, at
`2^54 = 18014398509481984`. -/
def twoBoxesOpenHighScore : GameState :=
  { width := 3, height := 2, horizontalLines := [[1, 1], [1, 1]], verticalLines := [[1, 0, 1]],
    boxes := [[0, 0]], currentPlayer := 1, player1Score := 18014398509481984,
    player2Score := 0, extraTurn := false }

/-! ## Terminal states, the winner and the enumeration of moves -/

/-- `DotsAndBoxes.isGameOver(gameState)`. -/
def isGameOver (gameState : GameState) : Bool :=
  let allHorizontalLinesDrawn :=
    gameState.horizontalLines.all (fun row => row.all (fun line => line == 1))
  let allVerticalLinesDrawn :=
    gameState.verticalLines.all (fun row => row.all (fun line => line == 1))
  allHorizontalLinesDrawn && allVerticalLinesDrawn

/-- `DotsAndBoxes.getWinner(gameState)`. -/
def getWinner (gameState : GameState) : Int :=
  if gameState.player1Score > gameState.player2Score then 1
  else if gameState.player2Score > gameState.player1Score then 2
  else 0

/-- A move `{type, row, col}` is the triple `(type, row, col)`. -/
abbrev Move := LineType × Int × Int

/-- The values that `i` takes in `for (let i = 0; i < n; i++)`. -/
def loopIndices (n : Int) : List Int :=
  (List.range n.toNat).map Int.ofNat

/-- The inner loop of `getValidMoves` over the columns `cols` of one row:
push `{type, row, col}` whenever `grid[row][col] === 0`. -/
def scanCols (grid : Grid) (lineType : LineType) (row : Int) :
    List Int → List Move → Except Fault (List Move)
  | [], validMoves => pure validMoves
  | col :: rest, validMoves => do
    if (← readCell grid row col) == 0 then
      scanCols grid lineType row rest (validMoves ++ [(lineType, row, col)])
    else
      scanCols grid lineType row rest validMoves

/-- The outer loop of `getValidMoves` over the rows `rows`. -/
def scanRows (grid : Grid) (lineType : LineType) (cols : List Int) :
    List Int → List Move → Except Fault (List Move)
  | [], validMoves => pure validMoves
  | row :: rest, validMoves => do
    let validMoves ← scanCols grid lineType row cols validMoves
    scanRows grid lineType cols rest validMoves

/-- `DotsAndBoxes.getValidMoves(gameState)`. -/
def getValidMoves (gameState : GameState) : Except Fault (List Move) := do
  let validMoves : List Move := []
  let validMoves ← scanRows gameState.horizontalLines .HORIZONTAL
    (loopIndices (gameState.width - 1)) (loopIndices gameState.height) validMoves
  let validMoves ← scanRows gameState.verticalLines .VERTICAL
    (loopIndices gameState.width) (loopIndices (gameState.height - 1)) validMoves
  pure validMoves

/-- A call of `createGame` in which either argument may be omitted: an
omitted argument takes its default value 5. -/
def createGameCall (width height : Option Int) : Except Fault GameState :=
  createGame (width.getD 5) (height.getD 5)

/-- The update of the state held by the caller (`handleLineClick` in
`dots-and-boxes-main.js`): the state returned by `makeMove` replaces the held
one, and a rejection leaves the held state as it is. -/
def stateAfterClick (gameState : GameState) (lineType : LineType) (row col : Int) :
    Except Fault GameState := do
  match (← makeMove gameState lineType row col) with
  | some newGameState => pure newGameState
  | none => pure gameState

/-- The state held by the caller after `n` clicks on the same edge. -/
def stateAfterClicks (lineType : LineType) (row col : Int) :
    Nat → GameState → Except Fault GameState
  | 0, gameState => pure gameState
  | n + 1, gameState => do
    let next ← stateAfterClick gameState lineType row col
    stateAfterClicks lineType row col n next

/-- The state `s'` is obtained from `s` by a finite sequence of `makeMove`
calls that each returned a state. -/
inductive Later : GameState → GameState → Prop where
  | refl (s : GameState) : Later s s
  | step {s s' s'' : GameState} {lineType : LineType} {row col : Int} :
      Later s s' → makeMove s' lineType row col = .ok (some s'') → Later s s''

/-- The states obtained from `createGame(w, h)` by exactly `k` `makeMove`
calls that each returned a state. -/
inductive ReachableIn (w h : Int) : Nat → GameState → Prop where
  | init {s : GameState} : createGame w h = .ok s → ReachableIn w h 0 s
  | step {k : Nat} {s s' : GameState} {lineType : LineType} {row col : Int} :
      ReachableIn w h k s → makeMove s lineType row col = .ok (some s') →
      ReachableIn w h (k + 1) s'

/-- The number of edges of a `w` x `h` dot grid. -/
def edgeTotal (w h : Int) : Int :=
  h * (w - 1) + (h - 1) * w

/-- All edges of one orientation in row-major order (row ascending, then col
ascending). -/
def edgesRowMajor (s : GameState) : LineType → List Move
  | .HORIZONTAL =>
    (loopIndices s.height).flatMap
      (fun row => (loopIndices (s.width - 1)).map (fun col => (LineType.HORIZONTAL, row, col)))
  | .VERTICAL =>
    (loopIndices (s.height - 1)).flatMap
      (fun row => (loopIndices s.width).map (fun col => (LineType.VERTICAL, row, col)))

/-- The edge of the move has value 0. -/
def edgeIsZero (s : GameState) (m : Move) : Bool :=
  decide (readCell (linesOf s m.1) m.2.1 m.2.2 = .ok 0)

/-- The order of the enumeration: horizontal edges before vertical ones, and
row-major within one orientation. -/
def MoveBefore (a b : Move) : Prop :=
  (a.1 = .HORIZONTAL ∧ b.1 = .VERTICAL) ∨
    (a.1 = b.1 ∧ (a.2.1 < b.2.1 ∨ (a.2.1 = b.2.1 ∧ a.2.2 < b.2.2)))

/-- Closed form of `scanRows`: the cells with value 0, row by row. -/
def zeroCells (grid : Grid) (lineType : LineType) (rows cols : List Int) : List Move :=
  rows.flatMap (fun row =>
    (cols.filter (fun col => cellAt grid row col == 0)).map (fun col => (lineType, row, col)))

/-- Closed form of `getValidMoves`. -/
def validList (s : GameState) : List Move :=
  zeroCells s.horizontalLines .HORIZONTAL (loopIndices s.height) (loopIndices (s.width - 1)) ++
    zeroCells s.verticalLines .VERTICAL (loopIndices (s.height - 1)) (loopIndices s.width)

/-! ## The 2 x 2 game -/

/-- The four edges of the 2 x 2 game: horizontal (0,0), horizontal (1,0),
vertical (0,0), vertical (0,1). -/
def fourEdges : List Move :=
  [(.HORIZONTAL, 0, 0), (.HORIZONTAL, 1, 0), (.VERTICAL, 0, 0), (.VERTICAL, 0, 1)]

/-- After a move from `prev` to `s` in the 2 x 2 game nothing is claimed yet:
the box is 0, both scores are 0, the game is not over and the turn has passed
to the other player. -/
def NothingClaimed (prev s : GameState) : Prop :=
  readCell s.boxes 0 0 = .ok 0 ∧ s.player1Score = 0 ∧ s.player2Score = 0 ∧
    isGameOver s = false ∧
    ((prev.currentPlayer = 1 ∧ s.currentPlayer = 2) ∨
      (prev.currentPlayer = 2 ∧ s.currentPlayer = 1))

instance (prev s : GameState) : Decidable (NothingClaimed prev s) := by
  unfold NothingClaimed; infer_instance

/-- After the move from `prev` to `s` the mover owns the only box of the 2 x 2
game: the box holds the mover, the mover's score is 1 and the other score 0,
`extraTurn` is true, the game is over and `getWinner` returns the mover. -/
def MoverWins (prev s : GameState) : Prop :=
  readCell s.boxes 0 0 = .ok prev.currentPlayer ∧
    ((prev.currentPlayer = 1 ∧ s.player1Score = 1 ∧ s.player2Score = 0) ∨
      (prev.currentPlayer = 2 ∧ s.player2Score = 1 ∧ s.player1Score = 0)) ∧
    s.extraTurn = true ∧ isGameOver s = true ∧ getWinner s = prev.currentPlayer

instance (prev s : GameState) : Decidable (MoverWins prev s) := by
  unfold MoverWins; infer_instance

/-- The state after the move `m`, in closed form. -/
def afterMove (s : GameState) (m : Move) : GameState :=
  applyMove s m.1 m.2.1 m.2.2

/-- The four moves are accepted in turn from the empty 2 x 2 game, the first
three claim nothing and the fourth wins the box. -/
def FourMovesPlay (a b c d : Move) (s0 s1 s2 s3 s4 : GameState) : Prop :=
  createGame 2 2 = .ok s0 ∧
    makeMove s0 a.1 a.2.1 a.2.2 = .ok (some s1) ∧
    makeMove s1 b.1 b.2.1 b.2.2 = .ok (some s2) ∧
    makeMove s2 c.1 c.2.1 c.2.2 = .ok (some s3) ∧
    makeMove s3 d.1 d.2.1 d.2.2 = .ok (some s4) ∧
    NothingClaimed s0 s1 ∧ NothingClaimed s1 s2 ∧ NothingClaimed s2 s3 ∧ MoverWins s3 s4

instance (a b c d : Move) (s0 s1 s2 s3 s4 : GameState) :
    Decidable (FourMovesPlay a b c d s0 s1 s2 s3 s4) := by
  unfold FourMovesPlay; infer_instance

/-! ## The text diagram -/

/-- The inner loop of `toString` that builds `horizontalLine` for one row:
the dot, then the horizontal edge to its right unless this is the rightmost
column.  The two glyph literals are copied from the source file. -/
def dotRowLoop (gameState : GameState) (row : Int) :
    List Int → String → Except Fault String
  | [], horizontalLine => pure horizontalLine
  | col :: rest, horizontalLine => do
    let horizontalLine := horizontalLine ++ "â€¢"
    if col < gameState.width - 1 then
      let piece :=
        if (← readCell gameState.horizontalLines row col) == 1 then "â”€â”€â”€" else "   "
      dotRowLoop gameState row rest (horizontalLine ++ piece)
    else
      dotRowLoop gameState row rest horizontalLine

/-- The inner loop of `toString` that builds `verticalLine` for one row: the
vertical edge, then the content of the box to its right unless this is the
rightmost column. -/
def boxRowLoop (gameState : GameState) (row : Int) :
    List Int → String → Except Fault String
  | [], verticalLine => pure verticalLine
  | col :: rest, verticalLine => do
    let verticalLine :=
      verticalLine ++ (if (← readCell gameState.verticalLines row col) == 1 then "|" else " ")
    if col < gameState.width - 1 then
      let box ← readCell gameState.boxes row col
      let boxContent := if box == 0 then "   " else if box == 1 then " 1 " else " 2 "
      boxRowLoop gameState row rest (verticalLine ++ boxContent)
    else
      boxRowLoop gameState row rest verticalLine

/-- The outer loop of `toString` over the rows. -/
def rowsLoop (gameState : GameState) : List Int → String → Except Fault String
  | [], result => pure result
  | row :: rest, result => do
    let horizontalLine ← dotRowLoop gameState row (loopIndices gameState.width) ""
    let result := result ++ (horizontalLine ++ "\n")
    if row < gameState.height - 1 then
      let verticalLine ← boxRowLoop gameState row (loopIndices gameState.width) ""
      rowsLoop gameState rest (result ++ (verticalLine ++ "\n"))
    else
      rowsLoop gameState rest result

/-- `DotsAndBoxes.toString(gameState)`. -/
def toString (gameState : GameState) : Except Fault String :=
  rowsLoop gameState (loopIndices gameState.height) ""

/-- Closed form of one piece of a dot row. -/
def dotPiece (s : GameState) (row col : Int) : List Char :=
  "â€¢".data ++
    (if col < s.width - 1 then
      (if cellAt s.horizontalLines row col = 1 then "â”€â”€â”€".data else "   ".data)
    else [])

/-- Closed form of one piece of a box row. -/
def boxPiece (s : GameState) (row col : Int) : List Char :=
  [if cellAt s.verticalLines row col = 1 then '|' else ' '] ++
    (if col < s.width - 1 then
      [' ', (if cellAt s.boxes row col = 0 then ' '
        else if cellAt s.boxes row col = 1 then '1' else '2'), ' ']
    else [])

/-- Closed form of the dot row of `row`. -/
def dotRowChars (s : GameState) (row : Int) : List Char :=
  (loopIndices s.width).flatMap (dotPiece s row)

/-- Closed form of the box row of `row`. -/
def boxRowChars (s : GameState) (row : Int) : List Char :=
  (loopIndices s.width).flatMap (boxPiece s row)

/-- The dot row of grid row `r` as the diagram shows it: for each column from
left to right the dot glyph, followed, except after the last column, by the
line glyph if the horizontal edge to the right of that dot is drawn and by
three spaces if it is not.  The glyphs are the literals of the source file as
it is stored: the dot is the three characters U+00E2 U+20AC U+00A2 and the
line is three times the three characters U+00E2 U+201D U+20AC. -/
def dotRowText (s : GameState) (r : Int) : List Char :=
  (List.range s.width.toNat).flatMap (fun c =>
    "â€¢".data ++
      (if (c : Int) < s.width - 1 then
        (if readCell s.horizontalLines r c = .ok 1 then "â”€â”€â”€".data else "   ".data)
      else []))

/-- Closed form of the lines of the diagram. -/
def textLines (s : GameState) : List (List Char) :=
  (loopIndices s.height).flatMap
    (fun row => [dotRowChars s row] ++ (if row < s.height - 1 then [boxRowChars s row] else []))

/-- Closed form of the text that one row contributes. -/
def rowChunk (s : GameState) (row : Int) : List Char :=
  (dotRowChars s row ++ ['\n']) ++
    (if row < s.height - 1 then boxRowChars s row ++ ['\n'] else [])

/-! ## A well-formed state that play cannot reach -/

/-- The state of the example: a 2 x 2 game with three of the four edges
drawn, whose only box already holds 1, with scores 1 and 0 and player 2 to
move. -/
def claimedButOpen : GameState :=
  { width := 2, height := 2, horizontalLines := [[1], [1]], verticalLines := [[1, 0]],
    boxes := [[1]], currentPlayer := 2, player1Score := 1, player2Score := 0,
    extraTurn := false }

/-! ## Lemmas on lookup and update -/

theorem gridShape_line_length {g : Grid} {R C : Int} (hg : GridShape g R C) {r : Int}
    (h0 : 0 ≤ r) (h1 : r < R) : ((g.getD r.toNat []).length : Int) = C := by
  have hlt : r.toNat < g.length := by have := hg.1; omega
  have hmem : g.getD r.toNat [] ∈ g := by
    rw [List.getD_eq_getElem _ _ hlt]; exact List.getElem_mem _
  exact hg.2 _ hmem

theorem readCell_eq_cellAt {g : Grid} {R C : Int} (hg : GridShape g R C) {r c : Int}
    (hr0 : 0 ≤ r) (hr1 : r < R) (hc0 : 0 ≤ c) (hc1 : c < C) :
    readCell g r c = .ok (cellAt g r c) := by
  have hlt : r.toNat < g.length := by have := hg.1; omega
  have hlen := gridShape_line_length hg hr0 hr1
  have hlt2 : c.toNat < (g.getD r.toNat []).length := by omega
  have e1 : g.get? r.toNat = some (g.getD r.toNat []) := by
    rw [List.getD_eq_getElem _ _ hlt]; simp [List.getElem?_eq_getElem hlt]
  have e2 : (g.getD r.toNat []).get? c.toNat = some (cellAt g r c) := by
    unfold cellAt
    rw [List.getD_eq_getElem _ _ hlt2]; simp [List.getElem?_eq_getElem hlt2]
  unfold readCell
  rw [if_neg (by omega), e1]
  simp only
  rw [if_neg (by omega), e2]

theorem writeCell_eq_setCell {g : Grid} {R C : Int} (hg : GridShape g R C) {r c : Int}
    (hr0 : 0 ≤ r) (hr1 : r < R) (hc0 : 0 ≤ c) (hc1 : c < C) (v : Int) :
    writeCell g r c v = .ok (setCell g r c v) := by
  have hlt : r.toNat < g.length := by have := hg.1; omega
  have hlen := gridShape_line_length hg hr0 hr1
  have hlt2 : c.toNat < (g.getD r.toNat []).length := by omega
  have e1 : g.get? r.toNat = some (g.getD r.toNat []) := by
    rw [List.getD_eq_getElem _ _ hlt]; simp [List.getElem?_eq_getElem hlt]
  have e2 : (g.getD r.toNat []).get? c.toNat = some (cellAt g r c) := by
    unfold cellAt
    rw [List.getD_eq_getElem _ _ hlt2]; simp [List.getElem?_eq_getElem hlt2]
  unfold writeCell
  rw [if_neg (by omega), e1]
  simp only
  rw [if_neg (by omega), e2]
  rfl

theorem gridShape_setCell {g : Grid} {R C : Int} (hg : GridShape g R C) (r c v : Int) :
    GridShape (setCell g r c v) R C := by
  refine ⟨by simpa [setCell] using hg.1, ?_⟩
  intro line hline
  unfold setCell at hline
  rcases List.mem_or_eq_of_mem_set hline with h | h
  · exact hg.2 _ h
  · subst h
    by_cases hlt : r.toNat < g.length
    · have hmem : g.getD r.toNat [] ∈ g := by
        rw [List.getD_eq_getElem _ _ hlt]; exact List.getElem_mem _
      simpa using hg.2 _ hmem
    · rw [List.set_eq_of_length_le (by omega)] at hline
      have := hg.2 _ hline
      simpa using this

theorem cellAt_setCell {g : Grid} {R C : Int} (hg : GridShape g R C) {r c : Int}
    (hr0 : 0 ≤ r) (hr1 : r < R) (hc0 : 0 ≤ c) (hc1 : c < C) (v : Int) {r' c' : Int}
    (hr' : 0 ≤ r') (hc' : 0 ≤ c') :
    cellAt (setCell g r c v) r' c' = if r' = r ∧ c' = c then v else cellAt g r' c' := by
  have hlt : r.toNat < g.length := by have := hg.1; omega
  have hlen := gridShape_line_length hg hr0 hr1
  have hlt2 : c.toNat < (g.getD r.toNat []).length := by omega
  unfold cellAt setCell
  by_cases hrr : r' = r
  · subst hrr
    have e : (g.set r'.toNat ((g.getD r'.toNat []).set c.toNat v)).getD r'.toNat [] =
        (g.getD r'.toNat []).set c.toNat v := by
      simp [List.getD_eq_getElem?_getD, List.getElem?_set, hlt]
    rw [e]
    by_cases hcc : c' = c
    · subst hcc
      have h2 := hlt2
      rw [List.getD_eq_getElem?_getD] at h2
      simp [List.getD_eq_getElem?_getD, List.getElem?_set, h2]
    · have hne : c.toNat ≠ c'.toNat := by omega
      simp [List.getD_eq_getElem?_getD, List.getElem?_set, hne, hcc]
  · have hne : r.toNat ≠ r'.toNat := by omega
    have e : (g.set r.toNat ((g.getD r.toNat []).set c.toNat v)).getD r'.toNat [] =
        g.getD r'.toNat [] := by
      simp [List.getD_eq_getElem?_getD, List.getElem?_set, hne]
    rw [e]
    simp [hrr]

theorem gridValues_setCell {g : Grid} {A : List Int} (hg : GridValues g A) (r c : Int)
    {v : Int} (hv : v ∈ A) : GridValues (setCell g r c v) A := by
  intro line hline x hx
  unfold setCell at hline
  rcases List.mem_or_eq_of_mem_set hline with h | h
  · exact hg _ h x hx
  · subst h
    rcases List.mem_or_eq_of_mem_set hx with h2 | h2
    · by_cases hlt : r.toNat < g.length
      · have hmem : g.getD r.toNat [] ∈ g := by
          rw [List.getD_eq_getElem _ _ hlt]; exact List.getElem_mem _
        exact hg _ hmem x h2
      · rw [List.getD_eq_default _ _ (by omega)] at h2
        simp at h2
    · subst h2; exact hv

theorem gridValues_cellAt_mem {g : Grid} {A : List Int} (hg : GridValues g A) {R C : Int}
    (hs : GridShape g R C) {r c : Int}
    (hr0 : 0 ≤ r) (hr1 : r < R) (hc0 : 0 ≤ c) (hc1 : c < C) : cellAt g r c ∈ A := by
  have hlt : r.toNat < g.length := by have := hs.1; omega
  have hlen := gridShape_line_length hs hr0 hr1
  have hlt2 : c.toNat < (g.getD r.toNat []).length := by omega
  have hmem : g.getD r.toNat [] ∈ g := by
    rw [List.getD_eq_getElem _ _ hlt]; exact List.getElem_mem _
  refine hg _ hmem _ ?_
  unfold cellAt
  rw [List.getD_eq_getElem _ _ hlt2]; exact List.getElem_mem _

/-! ## The engine in closed form -/

theorem wellFormed_shaped {s : GameState} (h : WellFormed s) : Shaped s :=
  ⟨h.width_ge, h.height_ge, h.hShape, h.vShape, h.bShape⟩

theorem isOne_eq {g : Grid} {R C : Int} (hg : GridShape g R C) {r c : Int}
    (hr0 : 0 ≤ r) (hr1 : r < R) (hc0 : 0 ≤ c) (hc1 : c < C) :
    isOne g r c = .ok (cellAt g r c == 1) := by
  unfold isOne
  rw [readCell_eq_cellAt hg hr0 hr1 hc0 hc1]
  rfl

theorem pushIfComplete_skip (acc : List (Int × Int)) (sides : Except Fault Bool)
    (box : Int × Int) : pushIfComplete acc false sides box = .ok acc := rfl

theorem pushIfComplete_ok (acc : List (Int × Int)) (a b c : Bool) (box : Int × Int) :
    pushIfComplete acc true (andAlso (.ok a) (andAlso (.ok b) (.ok c))) box =
      .ok (if a = true ∧ b = true ∧ c = true then acc ++ [box] else acc) := by
  cases a <;> cases b <;> cases c <;> rfl

theorem checkBoxCompletion_eq {s : GameState} (hs : Shaped s) {t : LineType} {row col : Int}
    (hin : InRange s t row col) :
    checkBoxCompletion s t row col = .ok (completedList s t row col) := by
  have hw := hs.width_ge
  have hh := hs.height_ge
  cases t with
  | HORIZONTAL =>
    obtain ⟨h0, h1, h2, h3⟩ := hin
    unfold checkBoxCompletion completedList
    by_cases ha : row > 0 <;> by_cases hb : row < s.height - 1
    · rw [isOne_eq hs.hShape (r := row - 1) (c := col) (by omega) (by omega) h2 h3,
        isOne_eq hs.vShape (r := row - 1) (c := col) (by omega) (by omega) h2 (by omega),
        isOne_eq hs.vShape (r := row - 1) (c := col + 1) (by omega) (by omega) (by omega)
          (by omega),
        isOne_eq hs.hShape (r := row + 1) (c := col) (by omega) (by omega) h2 h3,
        isOne_eq hs.vShape (r := row) (c := col) (by omega) (by omega) h2 (by omega),
        isOne_eq hs.vShape (r := row) (c := col + 1) (by omega) (by omega) (by omega)
          (by omega)]
      simp only [ha, hb, decide_True, pushIfComplete_ok]
      simp only [bind, Except.bind, pure, Except.pure, List.nil_append, true_and, beq_iff_eq]
      split_ifs <;> simp
    · rw [isOne_eq hs.hShape (r := row - 1) (c := col) (by omega) (by omega) h2 h3,
        isOne_eq hs.vShape (r := row - 1) (c := col) (by omega) (by omega) h2 (by omega),
        isOne_eq hs.vShape (r := row - 1) (c := col + 1) (by omega) (by omega) (by omega)
          (by omega)]
      simp only [ha, hb, decide_True, decide_False, pushIfComplete_ok, pushIfComplete_skip]
      simp [bind, Except.bind, pure, Except.pure]
    · rw [isOne_eq hs.hShape (r := row + 1) (c := col) (by omega) (by omega) h2 h3,
        isOne_eq hs.vShape (r := row) (c := col) (by omega) (by omega) h2 (by omega),
        isOne_eq hs.vShape (r := row) (c := col + 1) (by omega) (by omega) (by omega)
          (by omega)]
      simp only [ha, hb, decide_True, decide_False, pushIfComplete_ok, pushIfComplete_skip]
      simp [bind, Except.bind, pure, Except.pure]
    · omega
  | VERTICAL =>
    obtain ⟨h0, h1, h2, h3⟩ := hin
    unfold checkBoxCompletion completedList
    by_cases ha : col > 0 <;> by_cases hb : col < s.width - 1
    · rw [isOne_eq hs.hShape (r := row) (c := col - 1) (by omega) (by omega) (by omega)
          (by omega),
        isOne_eq hs.hShape (r := row + 1) (c := col - 1) (by omega) (by omega) (by omega)
          (by omega),
        isOne_eq hs.vShape (r := row) (c := col - 1) h0 h1 (by omega) (by omega),
        isOne_eq hs.hShape (r := row) (c := col) (by omega) (by omega) h2 (by omega),
        isOne_eq hs.hShape (r := row + 1) (c := col) (by omega) (by omega) h2 (by omega),
        isOne_eq hs.vShape (r := row) (c := col + 1) h0 h1 (by omega) (by omega)]
      simp only [ha, hb, decide_True, pushIfComplete_ok]
      simp only [bind, Except.bind, pure, Except.pure, List.nil_append, true_and, beq_iff_eq]
      split_ifs <;> simp
    · rw [isOne_eq hs.hShape (r := row) (c := col - 1) (by omega) (by omega) (by omega)
          (by omega),
        isOne_eq hs.hShape (r := row + 1) (c := col - 1) (by omega) (by omega) (by omega)
          (by omega),
        isOne_eq hs.vShape (r := row) (c := col - 1) h0 h1 (by omega) (by omega)]
      simp only [ha, hb, decide_True, decide_False, pushIfComplete_ok, pushIfComplete_skip]
      simp [bind, Except.bind, pure, Except.pure]
    · rw [isOne_eq hs.hShape (r := row) (c := col) (by omega) (by omega) h2 (by omega),
        isOne_eq hs.hShape (r := row + 1) (c := col) (by omega) (by omega) h2 (by omega),
        isOne_eq hs.vShape (r := row) (c := col + 1) h0 h1 (by omega) (by omega)]
      simp only [ha, hb, decide_True, decide_False, pushIfComplete_ok, pushIfComplete_skip]
      simp [bind, Except.bind, pure, Except.pure]
    · omega

theorem isValidMove_eq {s : GameState} (hs : Shaped s) (t : LineType) (row col : Int) :
    isValidMove s t row col =
      .ok (decide (InRange s t row col ∧ cellAt (linesOf s t) row col ≠ 1)) := by
  cases t with
  | HORIZONTAL =>
    unfold isValidMove
    by_cases hin : InRange s .HORIZONTAL row col
    · obtain ⟨h0, h1, h2, h3⟩ := id hin
      have hg : ¬ ((decide (row < 0) || decide (row ≥ s.height) || decide (col < 0) ||
          decide (col ≥ s.width - 1)) = true) := by
        simp; omega
      rw [if_neg hg]
      unfold isLineDrawn
      simp only
      rw [isOne_eq hs.hShape h0 h1 h2 h3]
      simp only [bind, Except.bind, pure, Except.pure, hin, linesOf, true_and]
      by_cases hv : cellAt s.horizontalLines row col = 1 <;> simp [hv]
    · have hg : (decide (row < 0) || decide (row ≥ s.height) || decide (col < 0) ||
          decide (col ≥ s.width - 1)) = true := by
        unfold InRange at hin
        simp at hin ⊢
        omega
      rw [if_pos hg]
      simp [pure, Except.pure, hin]
  | VERTICAL =>
    unfold isValidMove
    by_cases hin : InRange s .VERTICAL row col
    · obtain ⟨h0, h1, h2, h3⟩ := id hin
      have hg : ¬ ((decide (row < 0) || decide (row ≥ s.height - 1) || decide (col < 0) ||
          decide (col ≥ s.width)) = true) := by
        simp; omega
      rw [if_neg hg]
      unfold isLineDrawn
      simp only
      rw [isOne_eq hs.vShape h0 h1 h2 h3]
      simp only [bind, Except.bind, pure, Except.pure, hin, linesOf, true_and]
      by_cases hv : cellAt s.verticalLines row col = 1 <;> simp [hv]
    · have hg : (decide (row < 0) || decide (row ≥ s.height - 1) || decide (col < 0) ||
          decide (col ≥ s.width)) = true := by
        unfold InRange at hin
        simp at hin ⊢
        omega
      rw [if_pos hg]
      simp [pure, Except.pure, hin]

theorem drawLine_eq {s : GameState} (hs : Shaped s) {t : LineType} {row col : Int}
    (hin : InRange s t row col) : drawLine s t row col = .ok (drawn s t row col) := by
  cases t with
  | HORIZONTAL =>
    obtain ⟨h0, h1, h2, h3⟩ := hin
    unfold drawLine
    simp only
    rw [writeCell_eq_setCell hs.hShape h0 h1 h2 h3]
    rfl
  | VERTICAL =>
    obtain ⟨h0, h1, h2, h3⟩ := hin
    unfold drawLine
    simp only
    rw [writeCell_eq_setCell hs.vShape h0 h1 h2 h3]
    rfl

theorem drawn_shaped {s : GameState} (hs : Shaped s) (t : LineType) (row col : Int) :
    Shaped (drawn s t row col) := by
  cases t with
  | HORIZONTAL => exact ⟨hs.width_ge, hs.height_ge, gridShape_setCell hs.hShape _ _ _, hs.vShape, hs.bShape⟩
  | VERTICAL => exact ⟨hs.width_ge, hs.height_ge, hs.hShape, gridShape_setCell hs.vShape _ _ _, hs.bShape⟩

theorem drawn_inRange {s : GameState} {t : LineType} {row col : Int}
    (hin : InRange s t row col) (t' : LineType) (row' col' : Int) :
    InRange (drawn s t' row' col') t row col := by
  cases t <;> cases t' <;> exact hin

theorem claimBoxes_eq {R C : Int} (p : Int) (l : List (Int × Int)) :
    ∀ {boxes : Grid}, GridShape boxes R C →
      (∀ b ∈ l, 0 ≤ b.1 ∧ b.1 < R ∧ 0 ≤ b.2 ∧ b.2 < C) →
      claimBoxes boxes p l = .ok (claimAll boxes p l) := by
  induction l with
  | nil => intro boxes _ _; rfl
  | cons b rest ih =>
    intro boxes hg hl
    obtain ⟨r, c⟩ := b
    obtain ⟨h0, h1, h2, h3⟩ := hl (r, c) (List.mem_cons_self _ _)
    unfold claimBoxes claimAll
    rw [writeCell_eq_setCell hg h0 h1 h2 h3]
    exact ih (gridShape_setCell hg _ _ _) (fun b hb => hl b (List.mem_cons_of_mem _ hb))

theorem claimAll_shape {R C : Int} (p : Int) (l : List (Int × Int)) :
    ∀ {boxes : Grid}, GridShape boxes R C → GridShape (claimAll boxes p l) R C := by
  induction l with
  | nil => intro boxes hg; exact hg
  | cons b rest ih =>
    intro boxes hg
    obtain ⟨r, c⟩ := b
    exact ih (gridShape_setCell hg _ _ _)

theorem completedList_inRange {s : GameState} {t : LineType} {row col : Int}
    (hin : InRange s t row col) :
    ∀ b ∈ completedList s t row col,
      0 ≤ b.1 ∧ b.1 < s.height - 1 ∧ 0 ≤ b.2 ∧ b.2 < s.width - 1 := by
  intro b hb
  cases t with
  | HORIZONTAL =>
    obtain ⟨h0, h1, h2, h3⟩ := hin
    unfold completedList at hb
    rcases List.mem_append.1 hb with h | h
    · split_ifs at h with hc
      · simp at h; subst h; simp; omega
      · simp at h
    · split_ifs at h with hc
      · simp at h; subst h; simp; omega
      · simp at h
  | VERTICAL =>
    obtain ⟨h0, h1, h2, h3⟩ := hin
    unfold completedList at hb
    rcases List.mem_append.1 hb with h | h
    · split_ifs at h with hc
      · simp at h; subst h; simp; omega
      · simp at h
    · split_ifs at h with hc
      · simp at h; subst h; simp; omega
      · simp at h

theorem makeMove_invalid {s : GameState} (hs : Shaped s) {t : LineType} {row col : Int}
    (h : ¬ (InRange s t row col ∧ cellAt (linesOf s t) row col ≠ 1)) :
    makeMove s t row col = .ok none := by
  unfold makeMove
  rw [isValidMove_eq hs]
  simp only [bind, Except.bind, decide_eq_false h]
  rfl

theorem makeMove_valid {s : GameState} (hs : Shaped s) {t : LineType} {row col : Int}
    (hin : InRange s t row col) (hfree : cellAt (linesOf s t) row col ≠ 1) :
    makeMove s t row col = .ok (some (applyMove s t row col)) := by
  have hd := drawn_shaped hs t row col
  have hin' : InRange (drawn s t row col) t row col := drawn_inRange hin t row col
  have hcl := claimBoxes_eq (drawn s t row col).currentPlayer
    (completedList (drawn s t row col) t row col) hd.bShape (completedList_inRange hin')
  unfold makeMove
  rw [isValidMove_eq hs]
  simp only [bind, Except.bind, decide_eq_true (And.intro hin hfree)]
  rw [drawLine_eq hs hin]
  simp only
  rw [checkBoxCompletion_eq hd hin']
  simp only
  unfold applyMove
  by_cases hlen : (completedList (drawn s t row col) t row col).length > 0
  · simp only [hlen, if_true]
    rw [hcl]
    by_cases hp : (drawn s t row col).currentPlayer = 1 <;> simp [hp, pure, Except.pure]
  · simp only [hlen, if_false]
    simp [pure, Except.pure]

/-! ## Cells of the updated grids -/

theorem cellAt_claimAll {R C : Int} (p : Int) (l : List (Int × Int)) :
    ∀ {boxes : Grid}, GridShape boxes R C →
      (∀ b ∈ l, 0 ≤ b.1 ∧ b.1 < R ∧ 0 ≤ b.2 ∧ b.2 < C) →
      ∀ {r c : Int}, 0 ≤ r → 0 ≤ c →
        cellAt (claimAll boxes p l) r c = if (r, c) ∈ l then p else cellAt boxes r c := by
  induction l with
  | nil => intro boxes _ _ r c _ _; simp [claimAll]
  | cons b rest ih =>
    intro boxes hg hl r c hr hc
    obtain ⟨br, bc⟩ := b
    obtain ⟨h0, h1, h2, h3⟩ := hl (br, bc) (List.mem_cons_self _ _)
    unfold claimAll
    rw [ih (gridShape_setCell hg _ _ _) (fun b hb => hl b (List.mem_cons_of_mem _ hb)) hr hc,
      cellAt_setCell hg h0 h1 h2 h3 p hr hc]
    by_cases hmem : (r, c) ∈ rest
    · simp [hmem]
    · by_cases heq : r = br ∧ c = bc
      · obtain ⟨e1, e2⟩ := heq
        subst e1; subst e2
        simp
      · have hne : (r, c) ≠ (br, bc) := by
          intro h; apply heq; simpa using h
        simp [hmem, heq, hne]

theorem gridValues_claimAll {A : List Int} {p : Int} (hp : p ∈ A) (l : List (Int × Int)) :
    ∀ {boxes : Grid}, GridValues boxes A → GridValues (claimAll boxes p l) A := by
  induction l with
  | nil => intro boxes hg; exact hg
  | cons b rest ih =>
    intro boxes hg
    obtain ⟨r, c⟩ := b
    exact ih (gridValues_setCell hg _ _ hp)

theorem cellAt_drawn_h {s : GameState} (hs : Shaped s) {t : LineType} {row col : Int}
    (hin : InRange s t row col) {r c : Int} (hr : 0 ≤ r) (hc : 0 ≤ c) :
    cellAt (drawn s t row col).horizontalLines r c =
      if t = .HORIZONTAL ∧ r = row ∧ c = col then 1 else cellAt s.horizontalLines r c := by
  cases t with
  | HORIZONTAL =>
    obtain ⟨h0, h1, h2, h3⟩ := hin
    simp only [drawn, true_and]
    exact cellAt_setCell hs.hShape h0 h1 h2 h3 1 hr hc
  | VERTICAL => simp [drawn]

theorem cellAt_drawn_v {s : GameState} (hs : Shaped s) {t : LineType} {row col : Int}
    (hin : InRange s t row col) {r c : Int} (hr : 0 ≤ r) (hc : 0 ≤ c) :
    cellAt (drawn s t row col).verticalLines r c =
      if t = .VERTICAL ∧ r = row ∧ c = col then 1 else cellAt s.verticalLines r c := by
  cases t with
  | HORIZONTAL => simp [drawn]
  | VERTICAL =>
    obtain ⟨h0, h1, h2, h3⟩ := hin
    simp only [drawn, true_and]
    exact cellAt_setCell hs.vShape h0 h1 h2 h3 1 hr hc

theorem cellAt_drawn_target {s : GameState} (hs : Shaped s) {t : LineType} {row col : Int}
    (hin : InRange s t row col) : cellAt (linesOf (drawn s t row col) t) row col = 1 := by
  cases t with
  | HORIZONTAL =>
    have := cellAt_drawn_h hs hin (r := row) (c := col) hin.1 hin.2.2.1
    simpa [linesOf] using this
  | VERTICAL =>
    have := cellAt_drawn_v hs hin (r := row) (c := col) hin.1 hin.2.2.1
    simpa [linesOf] using this

theorem mem_completedList_iff {s : GameState} {t : LineType} {row col : Int}
    (hin : InRange s t row col) (hdrawn : cellAt (linesOf s t) row col = 1) (r c : Int) :
    (r, c) ∈ completedList s t row col ↔
      Touches t row col r c ∧ BoxIndex s r c ∧ boxSides s r c := by
  cases t with
  | HORIZONTAL =>
    obtain ⟨h0, h1, h2, h3⟩ := hin
    simp only [linesOf] at hdrawn
    unfold completedList Touches BoxIndex boxSides
    simp only [List.mem_append]
    constructor
    · rintro (h | h)
      · split_ifs at h with hc
        · simp at h
          obtain ⟨e1, e2⟩ := h
          subst e1; subst e2
          have e : row - 1 + 1 = row := by omega
          rw [e]
          exact ⟨⟨rfl, Or.inl rfl⟩, ⟨by omega, by omega, h2, h3⟩, hc.2.1, hdrawn, hc.2.2⟩
        · simp at h
      · split_ifs at h with hc
        · simp at h
          obtain ⟨e1, e2⟩ := h
          subst e1; subst e2
          exact ⟨⟨rfl, Or.inr rfl⟩, ⟨h0, hc.1, h2, h3⟩, hdrawn, hc.2⟩
        · simp at h
    · rintro ⟨⟨e1, e2⟩, ⟨b0, b1, b2, b3⟩, s1, s2, s3, s4⟩
      subst e1
      rcases e2 with e2 | e2
      · subst e2
        left
        rw [if_pos ⟨by omega, s1, s3, s4⟩]
        simp
      · subst e2
        right
        rw [if_pos ⟨by omega, s2, s3, s4⟩]
        simp
  | VERTICAL =>
    obtain ⟨h0, h1, h2, h3⟩ := hin
    simp only [linesOf] at hdrawn
    unfold completedList Touches BoxIndex boxSides
    simp only [List.mem_append]
    constructor
    · rintro (h | h)
      · split_ifs at h with hc
        · simp at h
          obtain ⟨e1, e2⟩ := h
          subst e1; subst e2
          have e : col - 1 + 1 = col := by omega
          rw [e]
          exact ⟨⟨rfl, Or.inl rfl⟩, ⟨h0, h1, by omega, by omega⟩, hc.2.1, hc.2.2.1, hc.2.2.2,
            hdrawn⟩
        · simp at h
      · split_ifs at h with hc
        · simp at h
          obtain ⟨e1, e2⟩ := h
          subst e1; subst e2
          exact ⟨⟨rfl, Or.inr rfl⟩, ⟨h0, h1, h2, hc.1⟩, hc.2.1, hc.2.2.1, hdrawn, hc.2.2.2⟩
        · simp at h
    · rintro ⟨⟨e1, e2⟩, ⟨b0, b1, b2, b3⟩, s1, s2, s3, s4⟩
      subst e1
      rcases e2 with e2 | e2
      · subst e2
        left
        have e : col - 1 + 1 = col := by omega
        rw [e] at s4
        rw [if_pos ⟨by omega, s1, s2, s3⟩]
        simp
      · subst e2
        right
        rw [if_pos ⟨by omega, s1, s2, s4⟩]
        simp

theorem completedList_nodup (s : GameState) (t : LineType) (row col : Int) :
    (completedList s t row col).Nodup := by
  cases t <;>
  · simp only [completedList]
    split_ifs <;> simp

theorem completedList_length_le (s : GameState) (t : LineType) (row col : Int) :
    (completedList s t row col).length ≤ 2 := by
  cases t <;>
  · simp only [completedList]
    split_ifs <;> simp

/-! ## Counting cells -/

theorem countP_set_add (p : Int → Bool) (v : Int) :
    ∀ (l : List Int) (j : Nat), j < l.length →
      (l.set j v).countP p + (if p (l.getD j 0) then 1 else 0) =
        l.countP p + (if p v then 1 else 0) := by
  intro l
  induction l with
  | nil => intro j hj; simp at hj
  | cons a rest ih =>
    intro j hj
    cases j with
    | zero =>
      simp only [List.set_cons_zero, List.countP_cons, List.getD_cons_zero]
      omega
    | succ k =>
      have hk : k < rest.length := by simpa using hj
      have := ih k hk
      simp only [List.set_cons_succ, List.countP_cons, List.getD_cons_succ]
      omega

theorem sum_map_set_add (f : List Int → Nat) (x : List Int) :
    ∀ (g : Grid) (i : Nat), i < g.length →
      ((g.set i x).map f).sum + f (g.getD i []) = (g.map f).sum + f x := by
  intro g
  induction g with
  | nil => intro i hi; simp at hi
  | cons a rest ih =>
    intro i hi
    cases i with
    | zero =>
      simp only [List.set_cons_zero, List.map_cons, List.sum_cons, List.getD_cons_zero]
      omega
    | succ k =>
      have hk : k < rest.length := by simpa using hi
      have := ih k hk
      simp only [List.set_cons_succ, List.map_cons, List.sum_cons, List.getD_cons_succ]
      omega

theorem countCells_setCell (p : Int → Bool) {g : Grid} {R C : Int} (hg : GridShape g R C)
    {r c : Int} (hr0 : 0 ≤ r) (hr1 : r < R) (hc0 : 0 ≤ c) (hc1 : c < C) (v : Int) :
    countCells p (setCell g r c v) + (if p (cellAt g r c) then 1 else 0) =
      countCells p g + (if p v then 1 else 0) := by
  have hlt : r.toNat < g.length := by have := hg.1; omega
  have hlen := gridShape_line_length hg hr0 hr1
  have hlt2 : c.toNat < (g.getD r.toNat []).length := by omega
  have h1 := sum_map_set_add (List.countP p) ((g.getD r.toNat []).set c.toNat v) g r.toNat hlt
  have h2 := countP_set_add p v (g.getD r.toNat []) c.toNat hlt2
  unfold countCells setCell cellAt
  omega

theorem countCells_le (p : Int → Bool) {C : Int} :
    ∀ (g : Grid), (∀ line ∈ g, (line.length : Int) = C) →
      (countCells p g : Int) ≤ (g.length : Int) * C := by
  intro g
  induction g with
  | nil => intro _; simp [countCells]
  | cons a rest ih =>
    intro h
    have h1 := ih (fun line hl => h line (List.mem_cons_of_mem _ hl))
    have h2 : (a.length : Int) = C := h a (List.mem_cons_self _ _)
    have h3 : a.countP p ≤ a.length := List.countP_le_length p
    have h4 : countCells p (a :: rest) = a.countP p + countCells p rest := by
      simp [countCells]
    rw [h4]
    push_cast
    have h5 : ((a.countP p : Nat) : Int) ≤ C := by rw [← h2]; exact_mod_cast h3
    have h6 : (((a :: rest).length : Nat) : Int) * C = C + (rest.length : Int) * C := by
      simp only [List.length_cons]; push_cast; ring
    rw [h6]
    linarith

theorem countCells_eq_zero (p : Int → Bool) :
    ∀ (g : Grid), (∀ line ∈ g, ∀ v ∈ line, p v = false) → countCells p g = 0 := by
  intro g
  induction g with
  | nil => intro _; simp [countCells]
  | cons a rest ih =>
    intro h
    have h1 := ih (fun line hl => h line (List.mem_cons_of_mem _ hl))
    have h2 : a.countP p = 0 := by
      rw [List.countP_eq_zero]
      intro v hv
      simp [h a (List.mem_cons_self _ _) v hv]
    have h4 : countCells p (a :: rest) = a.countP p + countCells p rest := by
      simp [countCells]
    omega

theorem countCells_claimAll (p : Int → Bool) {R C : Int} {v : Int} (hv : p v = true)
    (l : List (Int × Int)) :
    ∀ {boxes : Grid}, GridShape boxes R C →
      (∀ b ∈ l, 0 ≤ b.1 ∧ b.1 < R ∧ 0 ≤ b.2 ∧ b.2 < C) → l.Nodup →
      (∀ b ∈ l, p (cellAt boxes b.1 b.2) = false) →
      countCells p (claimAll boxes v l) = countCells p boxes + l.length := by
  induction l with
  | nil => intro boxes _ _ _ _; simp [claimAll]
  | cons b rest ih =>
    intro boxes hg hl hnd hold
    obtain ⟨r, c⟩ := b
    obtain ⟨h0, h1, h2, h3⟩ := hl (r, c) (List.mem_cons_self _ _)
    have hnd' := List.nodup_cons.1 hnd
    have hstep := countCells_setCell p hg h0 h1 h2 h3 v
    have hold0 : p (cellAt boxes r c) = false := hold (r, c) (List.mem_cons_self _ _)
    rw [hold0, hv] at hstep
    simp only [if_true] at hstep
    have hrest : ∀ b ∈ rest, p (cellAt (setCell boxes r c v) b.1 b.2) = false := by
      intro b hb
      obtain ⟨b0, _, b2, _⟩ := hl b (List.mem_cons_of_mem _ hb)
      rw [cellAt_setCell hg h0 h1 h2 h3 v b0 b2]
      have hne : ¬ (b.1 = r ∧ b.2 = c) := by
        rintro ⟨e1, e2⟩
        apply hnd'.1
        have : b = (r, c) := Prod.ext e1 e2
        rw [← this]; exact hb
      rw [if_neg hne]
      exact hold b (List.mem_cons_of_mem _ hb)
    have := ih (gridShape_setCell hg _ _ _) (fun b hb => hl b (List.mem_cons_of_mem _ hb)) hnd'.2 hrest
    unfold claimAll
    rw [this]
    simp only [List.length_cons]
    simp at hstep
    omega

/-! ## The initial state, well-formedness and the invariants of play -/

theorem mapM_replicate_ok {β : Type} (x : β) :
    ∀ n : Nat, (List.replicate n ()).mapM (fun _ => (Except.ok x : Except Fault β)) =
      .ok (List.replicate n x) := by
  intro n
  induction n with
  | zero => rfl
  | succ k ih =>
    rw [List.replicate_succ, List.mapM_cons, ih]
    rfl

theorem mapM_replicate_error {β : Type} (e : Fault) :
    ∀ n : Nat, 0 < n →
      (List.replicate n ()).mapM (fun _ => (Except.error e : Except Fault β)) = .error e := by
  intro n hn
  cases n with
  | zero => omega
  | succ k =>
    rw [List.replicate_succ, List.mapM_cons]
    rfl

theorem createGame_eq {w h : Int} (hw : 1 ≤ w) (hh : 1 ≤ h) (hw2 : w < 4294967296)
    (hh2 : h < 4294967296) : createGame w h = .ok (emptyGame w h) := by
  unfold createGame newArray
  rw [if_neg (by omega), if_neg (by omega), if_neg (by omega), if_neg (by omega)]
  simp only [bind, Except.bind]
  rw [mapM_replicate_ok, mapM_replicate_ok, mapM_replicate_ok]
  rfl

theorem createGame_error {w h : Int} (hw : 2 ≤ w) (hh : 2 ≤ h)
    (hbig : 4294967296 ≤ w ∨ 4294967296 ≤ h) : createGame w h = .error .invalidLength := by
  unfold createGame newArray
  by_cases hh2 : 4294967296 ≤ h
  · rw [if_pos (Or.inr hh2)]
    rfl
  · have hw2 : 4294967296 ≤ w := by omega
    rw [if_neg (by omega)]
    simp only [bind, Except.bind]
    by_cases hw3 : 4294967296 ≤ w - 1
    · rw [if_pos (Or.inr hw3), mapM_replicate_error _ _ (by omega)]
    · rw [if_neg (by omega), mapM_replicate_ok]
      simp only
      rw [if_neg (by omega)]
      simp only
      rw [if_pos (Or.inr hw2), mapM_replicate_error _ _ (by omega)]

theorem createGame_ok {w h : Int} (hw : 2 ≤ w) (hh : 2 ≤ h) {s : GameState}
    (hc : createGame w h = .ok s) : s = emptyGame w h ∧ w < 4294967296 ∧ h < 4294967296 := by
  by_cases hbig : 4294967296 ≤ w ∨ 4294967296 ≤ h
  · rw [createGame_error hw hh hbig] at hc
    cases hc
  · have hw2 : w < 4294967296 := by omega
    have hh2 : h < 4294967296 := by omega
    rw [createGame_eq (by omega) (by omega) hw2 hh2] at hc
    injection hc with hc
    exact ⟨hc.symm, hw2, hh2⟩

theorem gridShape_replicate {R C : Int} (hR : 0 ≤ R) (hC : 0 ≤ C) :
    GridShape (List.replicate R.toNat (List.replicate C.toNat 0)) R C := by
  refine ⟨by simp; omega, ?_⟩
  intro line hl
  rw [List.eq_of_mem_replicate hl]
  simp; omega

theorem gridValues_replicate (R C : Nat) {A : List Int} (hA : (0 : Int) ∈ A) :
    GridValues (List.replicate R (List.replicate C 0)) A := by
  intro line hl v hv
  rw [List.eq_of_mem_replicate hl] at hv
  rw [List.eq_of_mem_replicate hv]
  exact hA

theorem emptyGame_wellFormed {w h : Int} (hw : 2 ≤ w) (hh : 2 ≤ h) :
    WellFormed (emptyGame w h) where
  width_ge := hw
  height_ge := hh
  hShape := gridShape_replicate (by omega) (by omega)
  vShape := gridShape_replicate (by omega) (by omega)
  bShape := gridShape_replicate (by omega) (by omega)
  hValues := gridValues_replicate _ _ (by simp)
  vValues := gridValues_replicate _ _ (by simp)
  bValues := gridValues_replicate _ _ (by simp)
  score1_nonneg := le_refl _
  score2_nonneg := le_refl _
  player := Or.inl rfl

theorem applyMove_width (s : GameState) (t : LineType) (row col : Int) :
    (applyMove s t row col).width = s.width := by
  unfold applyMove
  cases t <;> (simp only [drawn]; split_ifs <;> rfl)

theorem applyMove_height (s : GameState) (t : LineType) (row col : Int) :
    (applyMove s t row col).height = s.height := by
  unfold applyMove
  cases t <;> (simp only [drawn]; split_ifs <;> rfl)

theorem applyMove_horizontalLines (s : GameState) (t : LineType) (row col : Int) :
    (applyMove s t row col).horizontalLines = (drawn s t row col).horizontalLines := by
  unfold applyMove
  simp only
  split_ifs <;> rfl

theorem applyMove_verticalLines (s : GameState) (t : LineType) (row col : Int) :
    (applyMove s t row col).verticalLines = (drawn s t row col).verticalLines := by
  unfold applyMove
  simp only
  split_ifs <;> rfl

theorem drawn_boxes (s : GameState) (t : LineType) (row col : Int) :
    (drawn s t row col).boxes = s.boxes := by cases t <;> rfl

theorem drawn_currentPlayer (s : GameState) (t : LineType) (row col : Int) :
    (drawn s t row col).currentPlayer = s.currentPlayer := by cases t <;> rfl

theorem drawn_player1Score (s : GameState) (t : LineType) (row col : Int) :
    (drawn s t row col).player1Score = s.player1Score := by cases t <;> rfl

theorem drawn_player2Score (s : GameState) (t : LineType) (row col : Int) :
    (drawn s t row col).player2Score = s.player2Score := by cases t <;> rfl

theorem drawn_width (s : GameState) (t : LineType) (row col : Int) :
    (drawn s t row col).width = s.width := by cases t <;> rfl

theorem drawn_height (s : GameState) (t : LineType) (row col : Int) :
    (drawn s t row col).height = s.height := by cases t <;> rfl

theorem applyMove_boxes (s : GameState) (t : LineType) (row col : Int) :
    (applyMove s t row col).boxes =
      claimAll s.boxes s.currentPlayer (completedList (drawn s t row col) t row col) := by
  unfold applyMove
  by_cases h : (completedList (drawn s t row col) t row col).length > 0
  · simp only [h, if_true, drawn_boxes, drawn_currentPlayer]
  · have e : completedList (drawn s t row col) t row col = [] := by
      apply List.eq_nil_of_length_eq_zero; omega
    simp only [h, if_false]
    rw [e]
    simp only [claimAll, drawn_boxes]

theorem applyMove_currentPlayer (s : GameState) (t : LineType) (row col : Int) :
    (applyMove s t row col).currentPlayer =
      if (completedList (drawn s t row col) t row col).length > 0 then s.currentPlayer
      else if s.currentPlayer = 1 then 2 else 1 := by
  unfold applyMove
  simp only
  split_ifs <;> simp_all [drawn_currentPlayer]

theorem applyMove_extraTurn (s : GameState) (t : LineType) (row col : Int) :
    (applyMove s t row col).extraTurn =
      decide ((completedList (drawn s t row col) t row col).length > 0) := by
  unfold applyMove
  simp only
  split_ifs with h <;> simp [h]

theorem applyMove_player1Score (s : GameState) (t : LineType) (row col : Int) :
    (applyMove s t row col).player1Score =
      if s.currentPlayer = 1 then
        s.player1Score + ((completedList (drawn s t row col) t row col).length : Int)
      else s.player1Score := by
  unfold applyMove
  simp only
  split_ifs with h1 h2 h2 <;> simp_all [drawn_currentPlayer, drawn_player1Score]

theorem applyMove_player2Score (s : GameState) (t : LineType) (row col : Int) :
    (applyMove s t row col).player2Score =
      if s.currentPlayer = 1 then s.player2Score
      else s.player2Score + ((completedList (drawn s t row col) t row col).length : Int) := by
  unfold applyMove
  simp only
  split_ifs with h1 h2 h2 <;> simp_all [drawn_currentPlayer, drawn_player2Score]

theorem applyMove_wellFormed {s : GameState} (hwf : WellFormed s) {t : LineType}
    {row col : Int} (hin : InRange s t row col) : WellFormed (applyMove s t row col) := by
  have hs := wellFormed_shaped hwf
  have hd := drawn_shaped hs t row col
  have hp : s.currentPlayer ∈ [0, 1, 2] := by
    rcases hwf.player with h | h <;> simp [h]
  refine
    { width_ge := by rw [applyMove_width]; exact hwf.width_ge
      height_ge := by rw [applyMove_height]; exact hwf.height_ge
      hShape := ?_
      vShape := ?_
      bShape := ?_
      hValues := ?_
      vValues := ?_
      bValues := ?_
      score1_nonneg := ?_
      score2_nonneg := ?_
      player := ?_ }
  · rw [applyMove_horizontalLines, applyMove_width, applyMove_height]
    simpa [drawn_width, drawn_height] using hd.hShape
  · rw [applyMove_verticalLines, applyMove_width, applyMove_height]
    simpa [drawn_width, drawn_height] using hd.vShape
  · rw [applyMove_boxes, applyMove_width, applyMove_height]
    exact claimAll_shape _ _ hwf.bShape
  · rw [applyMove_horizontalLines]
    cases t with
    | HORIZONTAL => exact gridValues_setCell hwf.hValues _ _ (by simp)
    | VERTICAL => exact hwf.hValues
  · rw [applyMove_verticalLines]
    cases t with
    | HORIZONTAL => exact hwf.vValues
    | VERTICAL => exact gridValues_setCell hwf.vValues _ _ (by simp)
  · rw [applyMove_boxes]
    exact gridValues_claimAll hp _ hwf.bValues
  · rw [applyMove_player1Score]
    have := hwf.score1_nonneg
    split_ifs <;> omega
  · rw [applyMove_player2Score]
    have := hwf.score2_nonneg
    split_ifs <;> omega
  · rw [applyMove_currentPlayer]
    rcases hwf.player with h | h <;> (rw [h]; split_ifs <;> simp)

/-- What a successful `makeMove` on a well-formed state amounts to. -/
theorem makeMove_some {s s' : GameState} (hs : Shaped s) {t : LineType} {row col : Int}
    (hm : makeMove s t row col = .ok (some s')) :
    InRange s t row col ∧ cellAt (linesOf s t) row col ≠ 1 ∧ s' = applyMove s t row col := by
  by_cases h : InRange s t row col ∧ cellAt (linesOf s t) row col ≠ 1
  · rw [makeMove_valid hs h.1 h.2] at hm
    have e : applyMove s t row col = s' := by
      injection hm with hm
      injection hm
    exact ⟨h.1, h.2, e.symm⟩
  · rw [makeMove_invalid hs h] at hm
    injection hm with hm
    cases hm

theorem boxSides_drawn_of_not_touches {s : GameState} (hs : Shaped s) {t : LineType}
    {row col : Int} (hin : InRange s t row col) {r c : Int} (hr : 0 ≤ r) (hc : 0 ≤ c)
    (hnt : ¬ Touches t row col r c) :
    boxSides (drawn s t row col) r c ↔ boxSides s r c := by
  unfold boxSides
  rw [cellAt_drawn_h hs hin hr hc, cellAt_drawn_h hs hin (r := r + 1) (by omega) hc,
    cellAt_drawn_v hs hin hr hc, cellAt_drawn_v hs hin (c := c + 1) hr (by omega)]
  cases t with
  | HORIZONTAL =>
    simp only [Touches] at hnt
    rw [if_neg (by rintro ⟨_, e1, e2⟩; exact hnt ⟨e2, Or.inr e1⟩),
      if_neg (by rintro ⟨_, e1, e2⟩; exact hnt ⟨e2, Or.inl (by omega)⟩),
      if_neg (by rintro ⟨e, _⟩; cases e), if_neg (by rintro ⟨e, _⟩; cases e)]
  | VERTICAL =>
    simp only [Touches] at hnt
    rw [if_neg (by rintro ⟨e, _⟩; cases e), if_neg (by rintro ⟨e, _⟩; cases e),
      if_neg (by rintro ⟨_, e1, e2⟩; exact hnt ⟨e1, Or.inr e2⟩),
      if_neg (by rintro ⟨_, e1, e2⟩; exact hnt ⟨e1, Or.inl (by omega)⟩)]

theorem not_boxSides_of_touches {s : GameState} {t : LineType} {row col r c : Int}
    (htouch : Touches t row col r c) (hfree : cellAt (linesOf s t) row col ≠ 1) :
    ¬ boxSides s r c := by
  rintro ⟨s1, s2, s3, s4⟩
  cases t with
  | HORIZONTAL =>
    obtain ⟨e1, e2⟩ := htouch
    subst e1
    simp only [linesOf] at hfree
    rcases e2 with e2 | e2
    · subst e2
      have e : row - 1 + 1 = row := by omega
      rw [e] at s2
      exact hfree s2
    · subst e2; exact hfree s1
  | VERTICAL =>
    obtain ⟨e1, e2⟩ := htouch
    subst e1
    simp only [linesOf] at hfree
    rcases e2 with e2 | e2
    · subst e2
      have e : col - 1 + 1 = col := by omega
      rw [e] at s4
      exact hfree s4
    · subst e2; exact hfree s3

theorem playInvariant_emptyGame {w h : Int} (hw : 2 ≤ w) (hh : 2 ≤ h) :
    PlayInvariant w h (emptyGame w h) := by
  have hwf := emptyGame_wellFormed hw hh
  refine ⟨hwf, rfl, rfl, ?_, ?_⟩
  · intro r c hb
    obtain ⟨b0, b1, b2, b3⟩ := hb
    have hbv : GridValues (emptyGame w h).boxes [0] := gridValues_replicate _ _ (by simp)
    have hhv : GridValues (emptyGame w h).horizontalLines [0] :=
      gridValues_replicate _ _ (by simp)
    have e1 := gridValues_cellAt_mem hbv hwf.bShape b0 b1 b2 b3
    have e2 := gridValues_cellAt_mem hhv hwf.hShape (r := r) (c := c) b0
      (by simp only [emptyGame] at b1 ⊢; omega) b2 b3
    simp only [List.mem_singleton] at e1 e2
    constructor
    · intro hne; exact absurd e1 hne
    · rintro ⟨s1, _⟩
      rw [e2] at s1
      cases s1
  · have : claimedBoxes (emptyGame w h) = 0 := by
      unfold claimedBoxes
      apply countCells_eq_zero
      intro line hl v hv
      have hbv : GridValues (emptyGame w h).boxes [0] := gridValues_replicate _ _ (by simp)
      have := hbv line hl v hv
      simp only [List.mem_singleton] at this
      simp [this]
    rw [this]
    rfl

theorem completedList_unclaimed {w h : Int} {s : GameState} (hinv : PlayInvariant w h s)
    {t : LineType} {row col : Int} (hin : InRange s t row col)
    (hfree : cellAt (linesOf s t) row col ≠ 1) :
    ∀ b ∈ completedList (drawn s t row col) t row col, cellAt s.boxes b.1 b.2 = 0 := by
  intro b hb
  obtain ⟨r, c⟩ := b
  have hs := wellFormed_shaped hinv.wf
  have hin' : InRange (drawn s t row col) t row col := drawn_inRange hin t row col
  obtain ⟨htouch, hidx, _⟩ :=
    (mem_completedList_iff hin' (cellAt_drawn_target hs hin) r c).1 hb
  have hidx' : BoxIndex s r c := by
    simpa [BoxIndex, drawn_width, drawn_height] using hidx
  by_contra hne
  exact not_boxSides_of_touches htouch hfree ((hinv.boxes_iff r c hidx').1 hne)

theorem playInvariant_applyMove {w h : Int} {s : GameState} (hinv : PlayInvariant w h s)
    {t : LineType} {row col : Int} (hin : InRange s t row col)
    (hfree : cellAt (linesOf s t) row col ≠ 1) :
    PlayInvariant w h (applyMove s t row col) := by
  have hs := wellFormed_shaped hinv.wf
  have hin' : InRange (drawn s t row col) t row col := drawn_inRange hin t row col
  have hrange := completedList_inRange hin'
  simp only [drawn_width, drawn_height] at hrange
  have hp0 : s.currentPlayer ≠ 0 := by
    rcases hinv.wf.player with e | e <;> rw [e] <;> decide
  refine ⟨applyMove_wellFormed hinv.wf hin, ?_, ?_, ?_, ?_⟩
  · rw [applyMove_width]; exact hinv.width_eq
  · rw [applyMove_height]; exact hinv.height_eq
  · intro r c hidx
    have hidx' : BoxIndex s r c := by
      simpa [BoxIndex, applyMove_width, applyMove_height] using hidx
    have hidxd : BoxIndex (drawn s t row col) r c := by
      simpa [BoxIndex, drawn_width, drawn_height] using hidx'
    obtain ⟨b0, b1, b2, b3⟩ := id hidx'
    have hsides : boxSides (applyMove s t row col) r c ↔ boxSides (drawn s t row col) r c := by
      unfold boxSides
      rw [applyMove_horizontalLines, applyMove_verticalLines]
    rw [hsides, applyMove_boxes, cellAt_claimAll _ _ hs.bShape hrange b0 b2]
    have hmem := mem_completedList_iff hin' (cellAt_drawn_target hs hin) r c
    by_cases htouch : Touches t row col r c
    · have hzero : cellAt s.boxes r c = 0 := by
        by_contra hne
        exact not_boxSides_of_touches htouch hfree ((hinv.boxes_iff r c hidx').1 hne)
      by_cases hin2 : (r, c) ∈ completedList (drawn s t row col) t row col
      · rw [if_pos hin2]
        exact ⟨fun _ => (hmem.1 hin2).2.2, fun _ => hp0⟩
      · rw [if_neg hin2, hzero]
        constructor
        · intro hne; exact absurd rfl hne
        · intro hsd; exact absurd (hmem.2 ⟨htouch, hidxd, hsd⟩) hin2
    · have hnot : (r, c) ∉ completedList (drawn s t row col) t row col :=
        fun hc => htouch (hmem.1 hc).1
      rw [if_neg hnot, boxSides_drawn_of_not_touches hs hin b0 b2 htouch]
      exact hinv.boxes_iff r c hidx'
  · have hcount : claimedBoxes (applyMove s t row col) =
        claimedBoxes s + (completedList (drawn s t row col) t row col).length := by
      unfold claimedBoxes
      rw [applyMove_boxes]
      apply countCells_claimAll _ (by simpa using hp0) _ hs.bShape hrange
        (completedList_nodup _ _ _ _)
      intro b hb
      rw [completedList_unclaimed hinv hin hfree b hb]
      rfl
    rw [hcount, applyMove_player1Score, applyMove_player2Score]
    have := hinv.scores
    push_cast
    split_ifs <;> omega

theorem reachable_playInvariant {w h : Int} (hw : 2 ≤ w) (hh : 2 ≤ h) {s : GameState}
    (hr : Reachable w h s) : PlayInvariant w h s := by
  induction hr with
  | init hc =>
    have hc := (createGame_ok hw hh hc).1
    subst hc
    exact playInvariant_emptyGame hw hh
  | step _ hm ih =>
    obtain ⟨hin, hfree, rfl⟩ := makeMove_some (wellFormed_shaped ih.wf) hm
    exact playInvariant_applyMove ih hin hfree

theorem readCell_ok_iff {g : Grid} {R C : Int} (hg : GridShape g R C) {r c : Int}
    (hr0 : 0 ≤ r) (hr1 : r < R) (hc0 : 0 ≤ c) (hc1 : c < C) (v : Int) :
    readCell g r c = .ok v ↔ cellAt g r c = v := by
  rw [readCell_eq_cellAt hg hr0 hr1 hc0 hc1]
  constructor
  · intro h; injection h
  · intro h; rw [h]

theorem fourSidesDrawn_iff {s : GameState} (hs : Shaped s) {r c : Int} (hb : BoxIndex s r c) :
    FourSidesDrawn s r c ↔ boxSides s r c := by
  obtain ⟨b0, b1, b2, b3⟩ := hb
  unfold FourSidesDrawn boxSides
  rw [readCell_ok_iff hs.hShape b0 (by omega) b2 b3,
    readCell_ok_iff hs.hShape (r := r + 1) (by omega) (by omega) b2 b3,
    readCell_ok_iff hs.vShape b0 b1 b2 (by omega),
    readCell_ok_iff hs.vShape (c := c + 1) b0 b1 (by omega) (by omega)]

theorem linesOf_read {s : GameState} (hs : Shaped s) {t : LineType} {row col : Int}
    (hin : InRange s t row col) :
    readCell (linesOf s t) row col = .ok (cellAt (linesOf s t) row col) := by
  cases t with
  | HORIZONTAL => exact readCell_eq_cellAt hs.hShape hin.1 hin.2.1 hin.2.2.1 hin.2.2.2
  | VERTICAL => exact readCell_eq_cellAt hs.vShape hin.1 hin.2.1 hin.2.2.1 hin.2.2.2

theorem linesOf_values {s : GameState} (hwf : WellFormed s) {t : LineType} {row col : Int}
    (hin : InRange s t row col) :
    cellAt (linesOf s t) row col = 0 ∨ cellAt (linesOf s t) row col = 1 := by
  cases t with
  | HORIZONTAL =>
    have := gridValues_cellAt_mem hwf.hValues hwf.hShape hin.1 hin.2.1 hin.2.2.1 hin.2.2.2
    simpa [linesOf] using this
  | VERTICAL =>
    have := gridValues_cellAt_mem hwf.vValues hwf.vShape hin.1 hin.2.1 hin.2.2.1 hin.2.2.2
    simpa [linesOf] using this

theorem cellAt_linesOf_drawn {s : GameState} (hs : Shaped s) {t : LineType} {row col : Int}
    (hin : InRange s t row col) {t' : LineType} {r c : Int} (hr : 0 ≤ r) (hc : 0 ≤ c) :
    cellAt (linesOf (drawn s t row col) t') r c =
      if t = t' ∧ r = row ∧ c = col then 1 else cellAt (linesOf s t') r c := by
  cases t' with
  | HORIZONTAL => simpa [linesOf] using cellAt_drawn_h hs hin hr hc
  | VERTICAL => simpa [linesOf] using cellAt_drawn_v hs hin hr hc

theorem linesOf_applyMove (s : GameState) (t : LineType) (row col : Int) (t' : LineType) :
    linesOf (applyMove s t row col) t' = linesOf (drawn s t row col) t' := by
  cases t' with
  | HORIZONTAL => exact applyMove_horizontalLines s t row col
  | VERTICAL => exact applyMove_verticalLines s t row col

theorem drawnEdges_drawn {s : GameState} (hs : Shaped s) {t : LineType} {row col : Int}
    (hin : InRange s t row col) (hfree : cellAt (linesOf s t) row col ≠ 1) :
    drawnEdges (drawn s t row col) = drawnEdges s + 1 := by
  cases t with
  | HORIZONTAL =>
    obtain ⟨h0, h1, h2, h3⟩ := hin
    have := countCells_setCell (fun v => v == 1) hs.hShape h0 h1 h2 h3 1
    simp only [linesOf] at hfree
    simp [hfree] at this
    simp only [drawnEdges, drawn]
    omega
  | VERTICAL =>
    obtain ⟨h0, h1, h2, h3⟩ := hin
    have := countCells_setCell (fun v => v == 1) hs.vShape h0 h1 h2 h3 1
    simp only [linesOf] at hfree
    simp [hfree] at this
    simp only [drawnEdges, drawn]
    omega

theorem filter_candidate (A X : Prop) [Decidable A] [Decidable X] (b : Int × Int)
    (P : Int × Int → Bool) (h : A → (P b = true ↔ X)) :
    (if A ∧ X then [b] else []) = (if A then [b] else []).filter P := by
  by_cases hA : A
  · by_cases hX : X
    · simp [hA, hX, (h hA).2 hX]
    · have : P b = false := by
        cases hP : P b
        · rfl
        · exact absurd ((h hA).1 hP) hX
      simp [hA, hX, this]
  · simp [hA]

/-! ## The properties of the engine -/

/-- C1: in every state reachable from `createGame(w, h)` with `w, h ≥ 2`, every
box `(r, c)` with `0 ≤ r < h-1` and `0 ≤ c < w-1` holds 0, 1 or 2, and it is
non-zero if and only if its four bounding edges are all equal to 1. -/
theorem claimed_iff_four_sides_drawn (w h : Int) (hw : 2 ≤ w) (hh : 2 ≤ h) (s : GameState)
    (hreach : Reachable w h s) (r c : Int) (hr0 : 0 ≤ r) (hr1 : r < h - 1) (hc0 : 0 ≤ c)
    (hc1 : c < w - 1) :
    ∃ b, readCell s.boxes r c = .ok b ∧ (b = 0 ∨ b = 1 ∨ b = 2) ∧
      (b ≠ 0 ↔ FourSidesDrawn s r c) := by
  have hinv := reachable_playInvariant hw hh hreach
  have hs := wellFormed_shaped hinv.wf
  have hb : BoxIndex s r c := by
    unfold BoxIndex; rw [hinv.width_eq, hinv.height_eq]; exact ⟨hr0, hr1, hc0, hc1⟩
  obtain ⟨b0, b1, b2, b3⟩ := id hb
  refine ⟨cellAt s.boxes r c, readCell_eq_cellAt hs.bShape b0 b1 b2 b3, ?_, ?_⟩
  · simpa using gridValues_cellAt_mem hinv.wf.bValues hs.bShape b0 b1 b2 b3
  · rw [fourSidesDrawn_iff hs hb]
    exact hinv.boxes_iff r c hb

/-- C2: in every state reachable from `createGame(w, h)` with `w, h ≥ 2`,
`player1Score + player2Score` equals the number of boxes whose value is
non-zero, and this sum is at most `(w-1)*(h-1)`. -/
theorem scores_count_claimed_boxes (w h : Int) (hw : 2 ≤ w) (hh : 2 ≤ h) (s : GameState)
    (hreach : Reachable w h s) :
    s.player1Score + s.player2Score = (claimedBoxes s : Int) ∧
      s.player1Score + s.player2Score ≤ (w - 1) * (h - 1) := by
  have hinv := reachable_playInvariant hw hh hreach
  refine ⟨hinv.scores, ?_⟩
  rw [hinv.scores]
  have hb := hinv.wf.bShape
  have := countCells_le (fun v => v != 0) s.boxes hb.2
  rw [hb.1, hinv.width_eq, hinv.height_eq] at this
  unfold claimedBoxes
  linarith [mul_comm (w - 1) (h - 1)]

/-- C3: when `makeMove` returns a state `s'` from a well-formed `s`, the
player to move is unchanged if and only if the move completed at least one box
(`checkBoxCompletion` on the state with the edge drawn is non-empty); otherwise
the turn passes to the other player; `extraTurn` is true exactly in the first
case and false exactly in the second. -/
theorem turn_transition (s : GameState) (hwf : WellFormed s) (t : LineType) (row col : Int)
    (s' : GameState) (hm : makeMove s t row col = .ok (some s')) :
    ∃ d completedBoxes, drawLine s t row col = .ok d ∧
      checkBoxCompletion d t row col = .ok completedBoxes ∧
      (s'.currentPlayer = s.currentPlayer ↔ completedBoxes ≠ []) ∧
      (completedBoxes = [] →
        (s.currentPlayer = 1 → s'.currentPlayer = 2) ∧
        (s.currentPlayer = 2 → s'.currentPlayer = 1)) ∧
      (s'.extraTurn = true ↔ completedBoxes ≠ []) ∧
      (s'.extraTurn = false ↔ completedBoxes = []) := by
  have hs := wellFormed_shaped hwf
  obtain ⟨hin, hfree, rfl⟩ := makeMove_some hs hm
  have hd := drawn_shaped hs t row col
  have hin' : InRange (drawn s t row col) t row col := drawn_inRange hin t row col
  refine ⟨drawn s t row col, completedList (drawn s t row col) t row col, drawLine_eq hs hin,
    checkBoxCompletion_eq hd hin', ?_, ?_, ?_, ?_⟩
  · rw [applyMove_currentPlayer]
    by_cases hl : (completedList (drawn s t row col) t row col).length > 0
    · have hne : completedList (drawn s t row col) t row col ≠ [] := by
        intro e; rw [e] at hl; simp at hl
      simp [hl, hne]
    · have he : completedList (drawn s t row col) t row col = [] :=
        List.eq_nil_of_length_eq_zero (by omega)
      rw [he]
      rcases hwf.player with e | e <;> simp [e]
  · intro he
    rw [applyMove_currentPlayer, he]
    constructor
    · intro e; simp [e]
    · intro e; simp [e]
  · rw [applyMove_extraTurn]
    by_cases hl : (completedList (drawn s t row col) t row col).length > 0
    · have hne : completedList (drawn s t row col) t row col ≠ [] := by
        intro e; rw [e] at hl; simp at hl
      simp [hl, hne]
    · have he : completedList (drawn s t row col) t row col = [] :=
        List.eq_nil_of_length_eq_zero (by omega)
      simp [he]
  · rw [applyMove_extraTurn]
    by_cases hl : (completedList (drawn s t row col) t row col).length > 0
    · have hne : completedList (drawn s t row col) t row col ≠ [] := by
        intro e; rw [e] at hl; simp at hl
      simp [hl, hne]
    · have he : completedList (drawn s t row col) t row col = [] :=
        List.eq_nil_of_length_eq_zero (by omega)
      simp [he]

/-! ## Moves with double-precision scores -/

theorem roundToDouble_exact {x : Int} (h : x.natAbs ≤ 9007199254740992) :
    roundToDouble x = x := by
  unfold roundToDouble
  simp only [h, if_true]

theorem jsAdd_exact {a b : Int} (h0 : 0 ≤ a + b) (h : a + b ≤ 9007199254740992) :
    jsAdd a b = a + b := by
  unfold jsAdd
  apply roundToDouble_exact
  omega

theorem makeMoveDouble_invalid {s : GameState} (hs : Shaped s) {t : LineType} {row col : Int}
    (h : ¬ (InRange s t row col ∧ cellAt (linesOf s t) row col ≠ 1)) :
    makeMoveDouble s t row col = .ok none := by
  unfold makeMoveDouble
  rw [isValidMove_eq hs]
  simp only [bind, Except.bind, decide_eq_false h]
  rfl

theorem makeMoveDouble_valid {s : GameState} (hs : Shaped s) {t : LineType} {row col : Int}
    (hin : InRange s t row col) (hfree : cellAt (linesOf s t) row col ≠ 1) :
    makeMoveDouble s t row col = .ok (some (applyMoveDouble s t row col)) := by
  have hd := drawn_shaped hs t row col
  have hin' : InRange (drawn s t row col) t row col := drawn_inRange hin t row col
  have hcl := claimBoxes_eq (drawn s t row col).currentPlayer
    (completedList (drawn s t row col) t row col) hd.bShape (completedList_inRange hin')
  unfold makeMoveDouble
  rw [isValidMove_eq hs]
  simp only [bind, Except.bind, decide_eq_true (And.intro hin hfree)]
  rw [drawLine_eq hs hin]
  simp only
  rw [checkBoxCompletion_eq hd hin']
  simp only
  unfold applyMoveDouble
  by_cases hlen : (completedList (drawn s t row col) t row col).length > 0
  · simp only [hlen, if_true]
    rw [hcl]
    by_cases hp : (drawn s t row col).currentPlayer = 1 <;> simp [hp, pure, Except.pure]
  · simp only [hlen, if_false]
    simp [pure, Except.pure]

/-- What a successful `makeMoveDouble` on a well-formed state amounts to. -/
theorem makeMoveDouble_some {s s' : GameState} (hs : Shaped s) {t : LineType} {row col : Int}
    (hm : makeMoveDouble s t row col = .ok (some s')) :
    InRange s t row col ∧ cellAt (linesOf s t) row col ≠ 1 ∧
      s' = applyMoveDouble s t row col := by
  by_cases h : InRange s t row col ∧ cellAt (linesOf s t) row col ≠ 1
  · rw [makeMoveDouble_valid hs h.1 h.2] at hm
    have e : applyMoveDouble s t row col = s' := by
      injection hm with hm
      injection hm
    exact ⟨h.1, h.2, e.symm⟩
  · rw [makeMoveDouble_invalid hs h] at hm
    injection hm with hm
    cases hm

theorem applyMoveDouble_boxes (s : GameState) (t : LineType) (row col : Int) :
    (applyMoveDouble s t row col).boxes =
      claimAll s.boxes s.currentPlayer (completedList (drawn s t row col) t row col) := by
  unfold applyMoveDouble
  by_cases h : (completedList (drawn s t row col) t row col).length > 0
  · simp only [h, if_true, drawn_boxes, drawn_currentPlayer]
  · have e : completedList (drawn s t row col) t row col = [] := by
      apply List.eq_nil_of_length_eq_zero; omega
    simp only [h, if_false]
    rw [e]
    simp only [claimAll, drawn_boxes]

theorem applyMoveDouble_currentPlayer (s : GameState) (t : LineType) (row col : Int) :
    (applyMoveDouble s t row col).currentPlayer =
      if (completedList (drawn s t row col) t row col).length > 0 then s.currentPlayer
      else if s.currentPlayer = 1 then 2 else 1 := by
  unfold applyMoveDouble
  simp only
  split_ifs <;> simp_all [drawn_currentPlayer]

theorem applyMoveDouble_player1Score (s : GameState) (t : LineType) (row col : Int) :
    (applyMoveDouble s t row col).player1Score =
      if (completedList (drawn s t row col) t row col).length > 0 ∧ s.currentPlayer = 1 then
        jsAdd s.player1Score ((completedList (drawn s t row col) t row col).length : Int)
      else s.player1Score := by
  unfold applyMoveDouble
  simp only
  split_ifs with h1 h2 h3 h3 h3 <;> simp_all [drawn_currentPlayer, drawn_player1Score]

theorem applyMoveDouble_player2Score (s : GameState) (t : LineType) (row col : Int) :
    (applyMoveDouble s t row col).player2Score =
      if (completedList (drawn s t row col) t row col).length > 0 ∧ s.currentPlayer ≠ 1 then
        jsAdd s.player2Score ((completedList (drawn s t row col) t row col).length : Int)
      else s.player2Score := by
  unfold applyMoveDouble
  simp only
  split_ifs with h1 h2 h3 h3 h3 <;> simp_all [drawn_currentPlayer, drawn_player2Score]

/-- The exact-integer `makeMove` and the double-precision `makeMoveDouble`
agree on every well-formed state whose two scores are at most `2^53 - 2`. -/
theorem makeMoveDouble_eq_makeMove {s : GameState} (hwf : WellFormed s) (t : LineType)
    (row col : Int) (h1 : s.player1Score + 2 ≤ 9007199254740992)
    (h2 : s.player2Score + 2 ≤ 9007199254740992) :
    makeMoveDouble s t row col = makeMove s t row col := by
  have hs := wellFormed_shaped hwf
  by_cases h : InRange s t row col ∧ cellAt (linesOf s t) row col ≠ 1
  · rw [makeMoveDouble_valid hs h.1 h.2, makeMove_valid hs h.1 h.2]
    have hle := completedList_length_le (drawn s t row col) t row col
    have p1 := hwf.score1_nonneg
    have p2 := hwf.score2_nonneg
    have e1 : jsAdd (drawn s t row col).player1Score
        ((completedList (drawn s t row col) t row col).length : Int) =
        (drawn s t row col).player1Score +
          ((completedList (drawn s t row col) t row col).length : Int) := by
      rw [drawn_player1Score]
      exact jsAdd_exact (by omega) (by omega)
    have e2 : jsAdd (drawn s t row col).player2Score
        ((completedList (drawn s t row col) t row col).length : Int) =
        (drawn s t row col).player2Score +
          ((completedList (drawn s t row col) t row col).length : Int) := by
      rw [drawn_player2Score]
      exact jsAdd_exact (by omega) (by omega)
    unfold applyMoveDouble applyMove
    simp only [e1, e2]
  · rw [makeMoveDouble_invalid hs h, makeMove_invalid hs h]

/-- C4 as stated fails where the double-precision `+=` rounds: in the 2 x 2
position `threeSidesHighScore`, well formed with player 2 to move and a score
of `2^53`, drawing the last edge completes one box and leaves the score of
player 2 at `2^53` instead of `2^53 + 1`. -/
theorem completed_box_not_counted_at_two_pow_53 :
    WellFormed threeSidesHighScore ∧ threeSidesHighScore.currentPlayer = 2 ∧
      ∃ s' d completedBoxes,
        makeMoveDouble threeSidesHighScore .VERTICAL 0 1 = .ok (some s') ∧
        drawLine threeSidesHighScore .VERTICAL 0 1 = .ok d ∧
        checkBoxCompletion d .VERTICAL 0 1 = .ok completedBoxes ∧
        completedBoxes.length = 1 ∧
        s'.player2Score = 9007199254740992 ∧
        s'.player2Score ≠
          threeSidesHighScore.player2Score + (completedBoxes.length : Int) :=
  ⟨by decide, by decide, applyMoveDouble threeSidesHighScore .VERTICAL 0 1,
    drawn threeSidesHighScore .VERTICAL 0 1, [(0, 0)], by decide, by decide, by decide,
    by decide, by decide, by decide⟩

/-- C4, amended: when the move function (`makeMoveDouble`, the scores being
JavaScript numbers) returns a state `s'` from a well-formed `s`, every box
returned by `checkBoxCompletion` (on the state with the edge drawn) has owner
`s.currentPlayer` in `s'`, every other box has the value it had in `s`, at most
two boxes are completed, and the other player's score is unchanged.  The
mover's score is unchanged when no box is completed and otherwise becomes the
double-precision sum of the old score and the number of completed boxes; that
is exactly the old score plus the number of completed boxes whenever this sum
is at most `2^53 = 9007199254740992`. -/
theorem completed_boxes_awarded (s : GameState) (hwf : WellFormed s) (t : LineType)
    (row col : Int) (s' : GameState) (hm : makeMoveDouble s t row col = .ok (some s')) :
    ∃ d completedBoxes, drawLine s t row col = .ok d ∧
      checkBoxCompletion d t row col = .ok completedBoxes ∧
      (∀ b ∈ completedBoxes, readCell s'.boxes b.1 b.2 = .ok s.currentPlayer) ∧
      (∀ r c, BoxIndex s r c → (r, c) ∉ completedBoxes →
        ∃ v, readCell s.boxes r c = .ok v ∧ readCell s'.boxes r c = .ok v) ∧
      completedBoxes.length ≤ 2 ∧
      (s.currentPlayer = 1 →
        s'.player1Score =
          (if completedBoxes = [] then s.player1Score
           else jsAdd s.player1Score (completedBoxes.length : Int)) ∧
        (s.player1Score + (completedBoxes.length : Int) ≤ 9007199254740992 →
          s'.player1Score = s.player1Score + (completedBoxes.length : Int)) ∧
        s'.player2Score = s.player2Score) ∧
      (s.currentPlayer = 2 →
        s'.player2Score =
          (if completedBoxes = [] then s.player2Score
           else jsAdd s.player2Score (completedBoxes.length : Int)) ∧
        (s.player2Score + (completedBoxes.length : Int) ≤ 9007199254740992 →
          s'.player2Score = s.player2Score + (completedBoxes.length : Int)) ∧
        s'.player1Score = s.player1Score) := by
  have hs := wellFormed_shaped hwf
  obtain ⟨hin, hfree, rfl⟩ := makeMoveDouble_some hs hm
  have hd := drawn_shaped hs t row col
  have hin' : InRange (drawn s t row col) t row col := drawn_inRange hin t row col
  have hrange := completedList_inRange hin'
  simp only [drawn_width, drawn_height] at hrange
  have hshape' : GridShape (applyMoveDouble s t row col).boxes (s.height - 1) (s.width - 1) := by
    rw [applyMoveDouble_boxes]; exact claimAll_shape _ _ hs.bShape
  have p1 := hwf.score1_nonneg
  have p2 := hwf.score2_nonneg
  refine ⟨drawn s t row col, completedList (drawn s t row col) t row col, drawLine_eq hs hin,
    checkBoxCompletion_eq hd hin', ?_, ?_, completedList_length_le _ _ _ _, ?_, ?_⟩
  · intro b hb
    obtain ⟨b0, b1, b2, b3⟩ := hrange b hb
    rw [readCell_eq_cellAt hshape' b0 b1 b2 b3, applyMoveDouble_boxes,
      cellAt_claimAll _ _ hs.bShape hrange b0 b2, if_pos hb]
  · intro r c hidx hnot
    obtain ⟨b0, b1, b2, b3⟩ := hidx
    refine ⟨cellAt s.boxes r c, readCell_eq_cellAt hs.bShape b0 b1 b2 b3, ?_⟩
    rw [readCell_eq_cellAt hshape' b0 b1 b2 b3, applyMoveDouble_boxes,
      cellAt_claimAll _ _ hs.bShape hrange b0 b2, if_neg hnot]
  · intro e
    rw [applyMoveDouble_player1Score, applyMoveDouble_player2Score]
    by_cases hl : completedList (drawn s t row col) t row col = []
    · simp [hl, e]
    · have hpos : (completedList (drawn s t row col) t row col).length > 0 :=
        List.length_pos.mpr hl
      refine ⟨by simp [hl, hpos, e], ?_, by simp [e]⟩
      intro hle
      rw [if_pos ⟨hpos, e⟩]
      exact jsAdd_exact (by omega) hle
  · intro e
    have hne : s.currentPlayer ≠ 1 := by rw [e]; decide
    rw [applyMoveDouble_player1Score, applyMoveDouble_player2Score]
    by_cases hl : completedList (drawn s t row col) t row col = []
    · simp [hl, e]
    · have hpos : (completedList (drawn s t row col) t row col).length > 0 :=
        List.length_pos.mpr hl
      refine ⟨by simp [hl, hpos, e], ?_, by simp [e]⟩
      intro hle
      rw [if_pos ⟨hpos, hne⟩]
      exact jsAdd_exact (by omega) hle

/-- C5: on a well-formed state `isValidMove` yields a boolean, `makeMove`
returns `undefined` if and only if that boolean is false and a state otherwise,
and the boolean is false if and only if the indices are out of range for the
orientation or the edge is already drawn; `makeMove(s, horizontal, -1, 0)` is
`undefined`. -/
theorem rejected_iff_invalid (s : GameState) (hwf : WellFormed s) (t : LineType)
    (row col : Int) :
    ∃ valid, isValidMove s t row col = .ok valid ∧
      (makeMove s t row col = .ok none ↔ valid = false) ∧
      (valid = true → ∃ s', makeMove s t row col = .ok (some s')) ∧
      (valid = false ↔
        (¬ InRange s t row col ∨ readCell (linesOf s t) row col = .ok 1)) ∧
      makeMove s .HORIZONTAL (-1) 0 = .ok none := by
  have hs := wellFormed_shaped hwf
  refine ⟨_, isValidMove_eq hs t row col, ?_, ?_, ?_, ?_⟩
  · by_cases h : InRange s t row col ∧ cellAt (linesOf s t) row col ≠ 1
    · rw [makeMove_valid hs h.1 h.2]
      simp [h]
    · rw [makeMove_invalid hs h]
      simp [h]
  · intro hv
    have h := of_decide_eq_true hv
    exact ⟨_, makeMove_valid hs h.1 h.2⟩
  · by_cases hin : InRange s t row col
    · rw [linesOf_read hs hin]
      simp only [decide_eq_false_iff_not, hin, true_and, not_true, false_or, not_not]
      constructor
      · intro h; rw [h]
      · intro h; injection h
    · simp [hin]
  · apply makeMove_invalid hs
    rintro ⟨⟨h0, _⟩, _⟩
    omega

/-- C6: on a well-formed state `isValidMove` yields a boolean;
`isValidMove(s, horizontal, row, col)` is true iff `0 ≤ row < height`,
`0 ≤ col < width-1` and `horizontalLines[row][col]` is not 1, and
`isValidMove(s, vertical, row, col)` is true iff `0 ≤ row < height-1`,
`0 ≤ col < width` and `verticalLines[row][col]` is not 1. -/
theorem isValidMove_iff (s : GameState) (hwf : WellFormed s) (row col : Int) :
    (∃ b, isValidMove s .HORIZONTAL row col = .ok b) ∧
    (∃ b, isValidMove s .VERTICAL row col = .ok b) ∧
    (isValidMove s .HORIZONTAL row col = .ok true ↔
      0 ≤ row ∧ row < s.height ∧ 0 ≤ col ∧ col < s.width - 1 ∧
        ∃ v, readCell s.horizontalLines row col = .ok v ∧ v ≠ 1) ∧
    (isValidMove s .VERTICAL row col = .ok true ↔
      0 ≤ row ∧ row < s.height - 1 ∧ 0 ≤ col ∧ col < s.width ∧
        ∃ v, readCell s.verticalLines row col = .ok v ∧ v ≠ 1) := by
  have hs := wellFormed_shaped hwf
  refine ⟨⟨_, isValidMove_eq hs _ row col⟩, ⟨_, isValidMove_eq hs _ row col⟩, ?_, ?_⟩
  · rw [isValidMove_eq hs]
    constructor
    · intro h
      injection h with h
      obtain ⟨hin, hv⟩ := of_decide_eq_true h
      exact ⟨hin.1, hin.2.1, hin.2.2.1, hin.2.2.2, _, linesOf_read hs hin, hv⟩
    · rintro ⟨h0, h1, h2, h3, v, hv, hne⟩
      have hin : InRange s .HORIZONTAL row col := ⟨h0, h1, h2, h3⟩
      have e : cellAt (linesOf s .HORIZONTAL) row col = v :=
        (readCell_ok_iff hs.hShape h0 h1 h2 h3 v).1 hv
      rw [decide_eq_true (And.intro hin (by rw [e]; exact hne))]
  · rw [isValidMove_eq hs]
    constructor
    · intro h
      injection h with h
      obtain ⟨hin, hv⟩ := of_decide_eq_true h
      exact ⟨hin.1, hin.2.1, hin.2.2.1, hin.2.2.2, _, linesOf_read hs hin, hv⟩
    · rintro ⟨h0, h1, h2, h3, v, hv, hne⟩
      have hin : InRange s .VERTICAL row col := ⟨h0, h1, h2, h3⟩
      have e : cellAt (linesOf s .VERTICAL) row col = v :=
        (readCell_ok_iff hs.vShape h0 h1 h2 h3 v).1 hv
      rw [decide_eq_true (And.intro hin (by rw [e]; exact hne))]

/-- C7: on a well-formed state, for either orientation and all integers `row`,
`col`, `isValidMove` yields a boolean and `makeMove` yields a state or
`undefined`, and no array access leaves a grid: the read in `isLineDrawn` (made
once the indices passed the range test), the edge write, every read of
`checkBoxCompletion` and every box write succeed. -/
theorem accesses_in_bounds (s : GameState) (hwf : WellFormed s) (t : LineType)
    (row col : Int) :
    (∃ b, isValidMove s t row col = .ok b) ∧
    (∃ result, makeMove s t row col = .ok result) ∧
    (InRange s t row col → ∃ b, isLineDrawn s t row col = .ok b) ∧
    (isValidMove s t row col = .ok true →
      ∃ d completedBoxes boxes, drawLine s t row col = .ok d ∧
        checkBoxCompletion d t row col = .ok completedBoxes ∧
        claimBoxes d.boxes d.currentPlayer completedBoxes = .ok boxes) := by
  have hs := wellFormed_shaped hwf
  refine ⟨⟨_, isValidMove_eq hs t row col⟩, ?_, ?_, ?_⟩
  · by_cases h : InRange s t row col ∧ cellAt (linesOf s t) row col ≠ 1
    · exact ⟨_, makeMove_valid hs h.1 h.2⟩
    · exact ⟨_, makeMove_invalid hs h⟩
  · intro hin
    cases t with
    | HORIZONTAL => exact ⟨_, isOne_eq hs.hShape hin.1 hin.2.1 hin.2.2.1 hin.2.2.2⟩
    | VERTICAL => exact ⟨_, isOne_eq hs.vShape hin.1 hin.2.1 hin.2.2.1 hin.2.2.2⟩
  · intro hv
    rw [isValidMove_eq hs] at hv
    injection hv with hv
    obtain ⟨hin, _⟩ := of_decide_eq_true hv
    have hd := drawn_shaped hs t row col
    have hin' : InRange (drawn s t row col) t row col := drawn_inRange hin t row col
    exact ⟨_, _, _, drawLine_eq hs hin, checkBoxCompletion_eq hd hin',
      claimBoxes_eq _ _ hd.bShape (completedList_inRange hin')⟩

/-- C8: on a well-formed state in which the in-range edge `(t, row, col)` is
drawn, `checkBoxCompletion` returns exactly the candidate boxes of that edge
whose four bounding edges are all drawn, in candidate order; the result has no
duplicates, has length at most 2, and every returned pair is a valid box
index. -/
theorem checkBoxCompletion_exact (s : GameState) (hwf : WellFormed s) (t : LineType)
    (row col : Int) (hin : InRange s t row col)
    (hdrawn : readCell (linesOf s t) row col = .ok 1) :
    ∃ completedBoxes, checkBoxCompletion s t row col = .ok completedBoxes ∧
      completedBoxes =
        (candidateBoxes s t row col).filter (fun b => decide (FourSidesDrawn s b.1 b.2)) ∧
      completedBoxes.Nodup ∧ completedBoxes.length ≤ 2 ∧
      ∀ b ∈ completedBoxes, 0 ≤ b.1 ∧ b.1 < s.height - 1 ∧ 0 ≤ b.2 ∧ b.2 < s.width - 1 := by
  have hs := wellFormed_shaped hwf
  have htarget : cellAt (linesOf s t) row col = 1 := by
    rw [linesOf_read hs hin] at hdrawn
    injection hdrawn
  refine ⟨_, checkBoxCompletion_eq hs hin, ?_, completedList_nodup _ _ _ _,
    completedList_length_le _ _ _ _, completedList_inRange hin⟩
  cases t with
  | HORIZONTAL =>
    obtain ⟨h0, h1, h2, h3⟩ := hin
    simp only [linesOf] at htarget
    simp only [completedList, candidateBoxes, List.filter_append]
    congr 1
    · apply filter_candidate
      intro hA
      have hb : BoxIndex s (row - 1) col := ⟨by omega, by omega, h2, h3⟩
      have e : row - 1 + 1 = row := by omega
      simp only [decide_eq_true_eq]
      rw [fourSidesDrawn_iff hs hb]
      unfold boxSides
      rw [e]
      constructor
      · rintro ⟨s1, _, s3, s4⟩; exact ⟨s1, s3, s4⟩
      · rintro ⟨s1, s3, s4⟩; exact ⟨s1, htarget, s3, s4⟩
    · apply filter_candidate
      intro hA
      have hb : BoxIndex s row col := ⟨h0, hA, h2, h3⟩
      simp only [decide_eq_true_eq]
      rw [fourSidesDrawn_iff hs hb]
      unfold boxSides
      constructor
      · rintro ⟨_, s2, s3, s4⟩; exact ⟨s2, s3, s4⟩
      · rintro ⟨s2, s3, s4⟩; exact ⟨htarget, s2, s3, s4⟩
  | VERTICAL =>
    obtain ⟨h0, h1, h2, h3⟩ := hin
    simp only [linesOf] at htarget
    simp only [completedList, candidateBoxes, List.filter_append]
    congr 1
    · apply filter_candidate
      intro hA
      have hb : BoxIndex s row (col - 1) := ⟨h0, h1, by omega, by omega⟩
      have e : col - 1 + 1 = col := by omega
      simp only [decide_eq_true_eq]
      rw [fourSidesDrawn_iff hs hb]
      unfold boxSides
      rw [e]
      constructor
      · rintro ⟨s1, s2, s3, _⟩; exact ⟨s1, s2, s3⟩
      · rintro ⟨s1, s2, s3⟩; exact ⟨s1, s2, s3, htarget⟩
    · apply filter_candidate
      intro hA
      have hb : BoxIndex s row col := ⟨h0, h1, h2, hA⟩
      simp only [decide_eq_true_eq]
      rw [fourSidesDrawn_iff hs hb]
      unfold boxSides
      constructor
      · rintro ⟨s1, s2, _, s4⟩; exact ⟨s1, s2, s4⟩
      · rintro ⟨s1, s2, s4⟩; exact ⟨s1, s2, htarget, s4⟩

theorem completedList_both {s : GameState} (hs : Shaped s) {t : LineType} {row col : Int}
    (hin : InRange s t row col) (hint : Interior s t row col)
    (hsides : OtherSidesDrawn s t row col) :
    completedList (drawn s t row col) t row col =
      [(adjacentPair t row col).1, (adjacentPair t row col).2] := by
  cases t with
  | HORIZONTAL =>
    obtain ⟨h0, h1, h2, h3⟩ := id hin
    obtain ⟨i0, i1⟩ := hint
    obtain ⟨⟨a1, a2, a3⟩, b1, b2, b3⟩ := hsides
    rw [readCell_ok_iff hs.hShape (by omega) (by omega) h2 h3] at a1 b1
    rw [readCell_ok_iff hs.vShape (by omega) (by omega) h2 (by omega)] at a2 b2
    rw [readCell_ok_iff hs.vShape (by omega) (by omega) (by omega) (by omega)] at a3 b3
    have e1 : cellAt (drawn s .HORIZONTAL row col).horizontalLines (row - 1) col = 1 := by
      rw [cellAt_drawn_h hs hin (by omega) h2, if_neg (by rintro ⟨_, e, _⟩; omega)]
      exact a1
    have e2 : cellAt (drawn s .HORIZONTAL row col).horizontalLines (row + 1) col = 1 := by
      rw [cellAt_drawn_h hs hin (by omega) h2, if_neg (by rintro ⟨_, e, _⟩; omega)]
      exact b1
    have hv : (drawn s .HORIZONTAL row col).verticalLines = s.verticalLines := rfl
    have hh : (drawn s .HORIZONTAL row col).height = s.height := rfl
    simp only [completedList, adjacentPair]
    rw [e1, e2, hv, hh, a2, a3, b2, b3]
    simp [i0, i1]
  | VERTICAL =>
    obtain ⟨h0, h1, h2, h3⟩ := id hin
    obtain ⟨i0, i1⟩ := hint
    obtain ⟨⟨a1, a2, a3⟩, b1, b2, b3⟩ := hsides
    rw [readCell_ok_iff hs.hShape (by omega) (by omega) (by omega) (by omega)] at a1 b1
    rw [readCell_ok_iff hs.hShape (by omega) (by omega) (by omega) (by omega)] at a2 b2
    rw [readCell_ok_iff hs.vShape (by omega) (by omega) (by omega) (by omega)] at a3 b3
    have e1 : cellAt (drawn s .VERTICAL row col).verticalLines row (col - 1) = 1 := by
      rw [cellAt_drawn_v hs hin h0 (by omega), if_neg (by rintro ⟨_, _, e⟩; omega)]
      exact a3
    have e2 : cellAt (drawn s .VERTICAL row col).verticalLines row (col + 1) = 1 := by
      rw [cellAt_drawn_v hs hin h0 (by omega), if_neg (by rintro ⟨_, _, e⟩; omega)]
      exact b3
    have hv : (drawn s .VERTICAL row col).horizontalLines = s.horizontalLines := rfl
    have hh : (drawn s .VERTICAL row col).width = s.width := rfl
    simp only [completedList, adjacentPair]
    rw [e1, e2, hv, hh, a1, a2, b1, b2]
    simp [i0, i1]

/-- C9 as stated fails where the double-precision `+=` rounds: in the 3 x 2
position `twoBoxesOpenHighScore`, well formed with player 1 to move and a score
of `2^54`, drawing the middle edge completes both boxes and leaves the score of
player 1 at `2^54` instead of `2^54 + 2`. -/
theorem double_completion_not_counted_at_two_pow_54 :
    (WellFormed twoBoxesOpenHighScore ∧ InRange twoBoxesOpenHighScore .VERTICAL 0 1 ∧
      Interior twoBoxesOpenHighScore .VERTICAL 0 1 ∧
      isLineDrawn twoBoxesOpenHighScore .VERTICAL 0 1 = .ok false ∧
      OtherSidesDrawn twoBoxesOpenHighScore .VERTICAL 0 1) ∧
      twoBoxesOpenHighScore.currentPlayer = 1 ∧
      ∃ s', makeMoveDouble twoBoxesOpenHighScore .VERTICAL 0 1 = .ok (some s') ∧
        s'.player1Score = 18014398509481984 ∧
        s'.player1Score ≠ twoBoxesOpenHighScore.player1Score + 2 :=
  ⟨⟨by decide, by decide, by decide, by decide, by decide⟩, by decide,
    applyMoveDouble twoBoxesOpenHighScore .VERTICAL 0 1, by decide, by decide, by decide⟩

/-- C9, amended: on a well-formed state, drawing an undrawn interior edge whose
two adjacent boxes both have their other three edges drawn succeeds (the move
function being `makeMoveDouble`, the scores JavaScript numbers); both boxes are
owned by `s.currentPlayer` in the result, the other score is unchanged and
`currentPlayer` is unchanged.  The mover's score becomes the double-precision
sum of the old score and 2, which is exactly 2 higher whenever the old score
plus 2 is at most `2^53 = 9007199254740992`. -/
theorem double_completion (s : GameState) (hwf : WellFormed s) (t : LineType) (row col : Int)
    (hin : InRange s t row col) (hint : Interior s t row col)
    (hundrawn : isLineDrawn s t row col = .ok false)
    (hsides : OtherSidesDrawn s t row col) :
    ∃ s', makeMoveDouble s t row col = .ok (some s') ∧
      readCell s'.boxes (adjacentPair t row col).1.1 (adjacentPair t row col).1.2 =
        .ok s.currentPlayer ∧
      readCell s'.boxes (adjacentPair t row col).2.1 (adjacentPair t row col).2.2 =
        .ok s.currentPlayer ∧
      (s.currentPlayer = 1 →
        s'.player1Score = jsAdd s.player1Score 2 ∧
        (s.player1Score + 2 ≤ 9007199254740992 → s'.player1Score = s.player1Score + 2) ∧
        s'.player2Score = s.player2Score) ∧
      (s.currentPlayer = 2 →
        s'.player2Score = jsAdd s.player2Score 2 ∧
        (s.player2Score + 2 ≤ 9007199254740992 → s'.player2Score = s.player2Score + 2) ∧
        s'.player1Score = s.player1Score) ∧
      s'.currentPlayer = s.currentPlayer := by
  have p1 := hwf.score1_nonneg
  have p2 := hwf.score2_nonneg
  have hs := wellFormed_shaped hwf
  have hfree : cellAt (linesOf s t) row col ≠ 1 := by
    intro h1
    cases t with
    | HORIZONTAL =>
      simp only [isLineDrawn] at hundrawn
      rw [isOne_eq hs.hShape hin.1 hin.2.1 hin.2.2.1 hin.2.2.2] at hundrawn
      simp only [linesOf] at h1
      rw [h1] at hundrawn
      cases hundrawn
    | VERTICAL =>
      simp only [isLineDrawn] at hundrawn
      rw [isOne_eq hs.vShape hin.1 hin.2.1 hin.2.2.1 hin.2.2.2] at hundrawn
      simp only [linesOf] at h1
      rw [h1] at hundrawn
      cases hundrawn
  have hin' : InRange (drawn s t row col) t row col := drawn_inRange hin t row col
  have hrange := completedList_inRange hin'
  simp only [drawn_width, drawn_height] at hrange
  have hboth := completedList_both hs hin hint hsides
  have hshape' : GridShape (applyMoveDouble s t row col).boxes (s.height - 1) (s.width - 1) := by
    rw [applyMoveDouble_boxes]; exact claimAll_shape _ _ hs.bShape
  have hm1 : (adjacentPair t row col).1 ∈ completedList (drawn s t row col) t row col := by
    rw [hboth]; simp
  have hm2 : (adjacentPair t row col).2 ∈ completedList (drawn s t row col) t row col := by
    rw [hboth]; simp
  have hlen : (completedList (drawn s t row col) t row col).length = 2 := by
    rw [hboth]; rfl
  refine ⟨_, makeMoveDouble_valid hs hin hfree, ?_, ?_, ?_, ?_, ?_⟩
  · obtain ⟨b0, b1, b2, b3⟩ := hrange _ hm1
    rw [readCell_eq_cellAt hshape' b0 b1 b2 b3, applyMoveDouble_boxes,
      cellAt_claimAll _ _ hs.bShape hrange b0 b2, if_pos hm1]
  · obtain ⟨b0, b1, b2, b3⟩ := hrange _ hm2
    rw [readCell_eq_cellAt hshape' b0 b1 b2 b3, applyMoveDouble_boxes,
      cellAt_claimAll _ _ hs.bShape hrange b0 b2, if_pos hm2]
  · intro e
    rw [applyMoveDouble_player1Score, applyMoveDouble_player2Score, hlen]
    refine ⟨by simp [e], ?_, by simp [e]⟩
    intro hle
    rw [if_pos ⟨by decide, e⟩]
    exact jsAdd_exact (by push_cast; omega) (by push_cast; omega)
  · intro e
    have hne : s.currentPlayer ≠ 1 := by rw [e]; decide
    rw [applyMoveDouble_player1Score, applyMoveDouble_player2Score, hlen]
    refine ⟨by simp [e], ?_, by simp [e]⟩
    intro hle
    rw [if_pos ⟨by decide, hne⟩]
    exact jsAdd_exact (by push_cast; omega) (by push_cast; omega)
  · rw [applyMoveDouble_currentPlayer, hlen]
    simp

/-- C10: when `makeMove` returns a state `s'` from a well-formed `s`, the
target edge is 1 in `s'`, every other horizontal and vertical edge has the
value it had in `s`, `width` and `height` are unchanged, and the number of
drawn edges of `s'` is exactly one more than that of `s`. -/
theorem move_draws_exactly_one_edge (s : GameState) (hwf : WellFormed s) (t : LineType)
    (row col : Int) (s' : GameState) (hm : makeMove s t row col = .ok (some s')) :
    readCell (linesOf s' t) row col = .ok 1 ∧
    (∀ t' r c, InRange s t' r c → (t', r, c) ≠ (t, row, col) →
      ∃ v, readCell (linesOf s t') r c = .ok v ∧ readCell (linesOf s' t') r c = .ok v) ∧
    s'.width = s.width ∧ s'.height = s.height ∧
    drawnEdges s' = drawnEdges s + 1 := by
  have hs := wellFormed_shaped hwf
  obtain ⟨hin, hfree, rfl⟩ := makeMove_some hs hm
  have hd := drawn_shaped hs t row col
  refine ⟨?_, ?_, applyMove_width s t row col, applyMove_height s t row col, ?_⟩
  · rw [linesOf_applyMove, linesOf_read hd (drawn_inRange hin t row col),
      cellAt_drawn_target hs hin]
  · intro t' r c hin2 hne
    refine ⟨_, linesOf_read hs hin2, ?_⟩
    have hr : 0 ≤ r := by cases t' <;> exact hin2.1
    have hc : 0 ≤ c := by cases t' <;> exact hin2.2.2.1
    rw [linesOf_applyMove, linesOf_read hd (drawn_inRange hin2 t row col),
      cellAt_linesOf_drawn hs hin hr hc, if_neg]
    rintro ⟨e1, e2, e3⟩
    apply hne
    rw [e1, e2, e3]
  · have e : drawnEdges (applyMove s t row col) = drawnEdges (drawn s t row col) := by
      unfold drawnEdges
      rw [applyMove_horizontalLines, applyMove_verticalLines]
    rw [e, drawnEdges_drawn hs hin hfree]

/-! ## The properties at sample positions -/

theorem playedGame_reachable : Reachable 2 2 playedGame :=
  @Reachable.step 2 2 threeSides playedGame .VERTICAL 0 1
    (@Reachable.step 2 2 twoSides threeSides .VERTICAL 0 0
      (@Reachable.step 2 2 oneSide twoSides .HORIZONTAL 1 0
        (@Reachable.step 2 2 (emptyGame 2 2) oneSide .HORIZONTAL 0 0
          (Reachable.init (by decide)) (by decide))
        (by decide))
      (by decide))
    (by decide)

/-- C1 at the finished 2 x 2 game: its only box is claimed and its four edges
are drawn. -/
theorem claimed_iff_four_sides_drawn_witness :
    Reachable 2 2 playedGame ∧
      ∃ b, readCell playedGame.boxes 0 0 = .ok b ∧ (b = 0 ∨ b = 1 ∨ b = 2) ∧
        (b ≠ 0 ↔ FourSidesDrawn playedGame 0 0) :=
  ⟨playedGame_reachable,
    claimed_iff_four_sides_drawn 2 2 (by decide) (by decide) playedGame playedGame_reachable
      0 0 (by decide) (by decide) (by decide) (by decide)⟩

/-- C2 at the finished 2 x 2 game: the scores add up to the one claimed box. -/
theorem scores_count_claimed_boxes_witness :
    Reachable 2 2 playedGame ∧
      playedGame.player1Score + playedGame.player2Score = (claimedBoxes playedGame : Int) ∧
      playedGame.player1Score + playedGame.player2Score ≤ (2 - 1) * (2 - 1) :=
  ⟨playedGame_reachable,
    scores_count_claimed_boxes 2 2 (by decide) (by decide) playedGame playedGame_reachable⟩

/-- C3 at the move that closes the box of the 2 x 2 game. -/
theorem turn_transition_witness :
    WellFormed threeSides ∧ makeMove threeSides .VERTICAL 0 1 = .ok (some playedGame) ∧
      ∃ d completedBoxes, drawLine threeSides .VERTICAL 0 1 = .ok d ∧
        checkBoxCompletion d .VERTICAL 0 1 = .ok completedBoxes ∧
        (playedGame.currentPlayer = threeSides.currentPlayer ↔ completedBoxes ≠ []) ∧
        (completedBoxes = [] →
          (threeSides.currentPlayer = 1 → playedGame.currentPlayer = 2) ∧
          (threeSides.currentPlayer = 2 → playedGame.currentPlayer = 1)) ∧
        (playedGame.extraTurn = true ↔ completedBoxes ≠ []) ∧
        (playedGame.extraTurn = false ↔ completedBoxes = []) :=
  ⟨by decide, by decide,
    turn_transition threeSides (by decide) .VERTICAL 0 1 playedGame (by decide)⟩

/-- C4, amended, at the move that closes both boxes of the 3 x 2 position. -/
theorem completed_boxes_awarded_witness :
    WellFormed twoBoxesOpen ∧
      makeMoveDouble twoBoxesOpen .VERTICAL 0 1 = .ok (some twoBoxesClaimed) ∧
      ∃ d completedBoxes, drawLine twoBoxesOpen .VERTICAL 0 1 = .ok d ∧
        checkBoxCompletion d .VERTICAL 0 1 = .ok completedBoxes ∧
        (∀ b ∈ completedBoxes,
          readCell twoBoxesClaimed.boxes b.1 b.2 = .ok twoBoxesOpen.currentPlayer) ∧
        (∀ r c, BoxIndex twoBoxesOpen r c → (r, c) ∉ completedBoxes →
          ∃ v, readCell twoBoxesOpen.boxes r c = .ok v ∧
            readCell twoBoxesClaimed.boxes r c = .ok v) ∧
        completedBoxes.length ≤ 2 ∧
        (twoBoxesOpen.currentPlayer = 1 →
          twoBoxesClaimed.player1Score =
            (if completedBoxes = [] then twoBoxesOpen.player1Score
             else jsAdd twoBoxesOpen.player1Score (completedBoxes.length : Int)) ∧
          (twoBoxesOpen.player1Score + (completedBoxes.length : Int) ≤ 9007199254740992 →
            twoBoxesClaimed.player1Score =
              twoBoxesOpen.player1Score + (completedBoxes.length : Int)) ∧
          twoBoxesClaimed.player2Score = twoBoxesOpen.player2Score) ∧
        (twoBoxesOpen.currentPlayer = 2 →
          twoBoxesClaimed.player2Score =
            (if completedBoxes = [] then twoBoxesOpen.player2Score
             else jsAdd twoBoxesOpen.player2Score (completedBoxes.length : Int)) ∧
          (twoBoxesOpen.player2Score + (completedBoxes.length : Int) ≤ 9007199254740992 →
            twoBoxesClaimed.player2Score =
              twoBoxesOpen.player2Score + (completedBoxes.length : Int)) ∧
          twoBoxesClaimed.player1Score = twoBoxesOpen.player1Score) :=
  ⟨by decide, by decide,
    completed_boxes_awarded twoBoxesOpen (by decide) .VERTICAL 0 1 twoBoxesClaimed
      (by decide)⟩

/-- C5 at an edge that is already drawn. -/
theorem rejected_iff_invalid_witness :
    WellFormed oneSide ∧
      ∃ valid, isValidMove oneSide .HORIZONTAL 0 0 = .ok valid ∧
        (makeMove oneSide .HORIZONTAL 0 0 = .ok none ↔ valid = false) ∧
        (valid = true → ∃ s', makeMove oneSide .HORIZONTAL 0 0 = .ok (some s')) ∧
        (valid = false ↔
          (¬ InRange oneSide .HORIZONTAL 0 0 ∨
            readCell (linesOf oneSide .HORIZONTAL) 0 0 = .ok 1)) ∧
        makeMove oneSide .HORIZONTAL (-1) 0 = .ok none :=
  ⟨by decide, rejected_iff_invalid oneSide (by decide) .HORIZONTAL 0 0⟩

/-- C6 at the 2 x 2 game with both horizontal edges drawn. -/
theorem isValidMove_iff_witness :
    WellFormed twoSides ∧
      (∃ b, isValidMove twoSides .HORIZONTAL 0 0 = .ok b) ∧
      (∃ b, isValidMove twoSides .VERTICAL 0 0 = .ok b) ∧
      (isValidMove twoSides .HORIZONTAL 0 0 = .ok true ↔
        (0 : Int) ≤ 0 ∧ 0 < twoSides.height ∧ (0 : Int) ≤ 0 ∧ 0 < twoSides.width - 1 ∧
          ∃ v, readCell twoSides.horizontalLines 0 0 = .ok v ∧ v ≠ 1) ∧
      (isValidMove twoSides .VERTICAL 0 0 = .ok true ↔
        (0 : Int) ≤ 0 ∧ 0 < twoSides.height - 1 ∧ (0 : Int) ≤ 0 ∧ 0 < twoSides.width ∧
          ∃ v, readCell twoSides.verticalLines 0 0 = .ok v ∧ v ≠ 1) :=
  ⟨by decide, isValidMove_iff twoSides (by decide) 0 0⟩

/-- C7 at a column index far outside the grid. -/
theorem accesses_in_bounds_witness :
    WellFormed twoBoxesOpen ∧
      (∃ b, isValidMove twoBoxesOpen .VERTICAL 0 7 = .ok b) ∧
      (∃ result, makeMove twoBoxesOpen .VERTICAL 0 7 = .ok result) ∧
      (InRange twoBoxesOpen .VERTICAL 0 7 →
        ∃ b, isLineDrawn twoBoxesOpen .VERTICAL 0 7 = .ok b) ∧
      (isValidMove twoBoxesOpen .VERTICAL 0 7 = .ok true →
        ∃ d completedBoxes boxes, drawLine twoBoxesOpen .VERTICAL 0 7 = .ok d ∧
          checkBoxCompletion d .VERTICAL 0 7 = .ok completedBoxes ∧
          claimBoxes d.boxes d.currentPlayer completedBoxes = .ok boxes) :=
  ⟨by decide, accesses_in_bounds twoBoxesOpen (by decide) .VERTICAL 0 7⟩

/-- C8 at the middle edge of the fully drawn 3 x 2 position. -/
theorem checkBoxCompletion_exact_witness :
    (WellFormed twoBoxesClaimed ∧ InRange twoBoxesClaimed .VERTICAL 0 1 ∧
      readCell (linesOf twoBoxesClaimed .VERTICAL) 0 1 = .ok 1) ∧
      ∃ completedBoxes, checkBoxCompletion twoBoxesClaimed .VERTICAL 0 1 = .ok completedBoxes ∧
        completedBoxes =
          (candidateBoxes twoBoxesClaimed .VERTICAL 0 1).filter
            (fun b => decide (FourSidesDrawn twoBoxesClaimed b.1 b.2)) ∧
        completedBoxes.Nodup ∧ completedBoxes.length ≤ 2 ∧
        ∀ b ∈ completedBoxes,
          0 ≤ b.1 ∧ b.1 < twoBoxesClaimed.height - 1 ∧ 0 ≤ b.2 ∧
            b.2 < twoBoxesClaimed.width - 1 :=
  ⟨⟨by decide, by decide, by decide⟩,
    checkBoxCompletion_exact twoBoxesClaimed (by decide) .VERTICAL 0 1 (by decide)
      (by decide)⟩

/-- C9, amended, at the 3 x 2 position whose middle edge is the only one
undrawn. -/
theorem double_completion_witness :
    (WellFormed twoBoxesOpen ∧ InRange twoBoxesOpen .VERTICAL 0 1 ∧
      Interior twoBoxesOpen .VERTICAL 0 1 ∧
      isLineDrawn twoBoxesOpen .VERTICAL 0 1 = .ok false ∧
      OtherSidesDrawn twoBoxesOpen .VERTICAL 0 1) ∧
      ∃ s', makeMoveDouble twoBoxesOpen .VERTICAL 0 1 = .ok (some s') ∧
        readCell s'.boxes (adjacentPair .VERTICAL 0 1).1.1 (adjacentPair .VERTICAL 0 1).1.2 =
          .ok twoBoxesOpen.currentPlayer ∧
        readCell s'.boxes (adjacentPair .VERTICAL 0 1).2.1 (adjacentPair .VERTICAL 0 1).2.2 =
          .ok twoBoxesOpen.currentPlayer ∧
        (twoBoxesOpen.currentPlayer = 1 →
          s'.player1Score = jsAdd twoBoxesOpen.player1Score 2 ∧
          (twoBoxesOpen.player1Score + 2 ≤ 9007199254740992 →
            s'.player1Score = twoBoxesOpen.player1Score + 2) ∧
          s'.player2Score = twoBoxesOpen.player2Score) ∧
        (twoBoxesOpen.currentPlayer = 2 →
          s'.player2Score = jsAdd twoBoxesOpen.player2Score 2 ∧
          (twoBoxesOpen.player2Score + 2 ≤ 9007199254740992 →
            s'.player2Score = twoBoxesOpen.player2Score + 2) ∧
          s'.player1Score = twoBoxesOpen.player1Score) ∧
        s'.currentPlayer = twoBoxesOpen.currentPlayer :=
  ⟨⟨by decide, by decide, by decide, by decide, by decide⟩,
    double_completion twoBoxesOpen (by decide) .VERTICAL 0 1 (by decide) (by decide)
      (by decide) (by decide)⟩

/-- C10 at the second move of the 2 x 2 game. -/
theorem move_draws_exactly_one_edge_witness :
    (WellFormed oneSide ∧ makeMove oneSide .HORIZONTAL 1 0 = .ok (some twoSides)) ∧
      readCell (linesOf twoSides .HORIZONTAL) 1 0 = .ok 1 ∧
      (∀ t' r c, InRange oneSide t' r c → (t', r, c) ≠ (LineType.HORIZONTAL, 1, 0) →
        ∃ v, readCell (linesOf oneSide t') r c = .ok v ∧
          readCell (linesOf twoSides t') r c = .ok v) ∧
      twoSides.width = oneSide.width ∧ twoSides.height = oneSide.height ∧
      drawnEdges twoSides = drawnEdges oneSide + 1 :=
  ⟨⟨by decide, by decide⟩,
    move_draws_exactly_one_edge oneSide (by decide) .HORIZONTAL 1 0 twoSides (by decide)⟩

/-! ## Enumeration of moves, terminal states and persistence -/

theorem mem_loopIndices {n x : Int} : x ∈ loopIndices n ↔ 0 ≤ x ∧ x < n := by
  unfold loopIndices
  simp only [List.mem_map, List.mem_range]
  constructor
  · rintro ⟨i, hi, rfl⟩
    simp only [Int.ofNat_eq_coe]
    omega
  · rintro ⟨h0, h1⟩
    exact ⟨x.toNat, by omega, by simp only [Int.ofNat_eq_coe]; omega⟩

theorem scanCols_eq {g : Grid} {R C : Int} (hg : GridShape g R C) (t : LineType) {row : Int}
    (hr0 : 0 ≤ row) (hr1 : row < R) :
    ∀ (cols : List Int) (acc : List Move), (∀ c ∈ cols, 0 ≤ c ∧ c < C) →
      scanCols g t row cols acc =
        .ok (acc ++ (cols.filter (fun col => cellAt g row col == 0)).map
          (fun col => (t, row, col))) := by
  intro cols
  induction cols with
  | nil => intro acc _; simp [scanCols, pure, Except.pure]
  | cons c rest ih =>
    intro acc hc
    obtain ⟨c0, c1⟩ := hc c (List.mem_cons_self _ _)
    have hrest : ∀ x ∈ rest, 0 ≤ x ∧ x < C := fun x hx => hc x (List.mem_cons_of_mem _ hx)
    unfold scanCols
    rw [readCell_eq_cellAt hg hr0 hr1 c0 c1]
    simp only [bind, Except.bind]
    by_cases hz : (cellAt g row c == 0) = true
    · rw [if_pos hz, ih _ hrest]
      simp [List.filter_cons, hz]
    · rw [if_neg hz, ih _ hrest]
      simp [List.filter_cons, hz]

theorem scanRows_eq {g : Grid} {R C : Int} (hg : GridShape g R C) (t : LineType)
    {cols : List Int} (hc : ∀ c ∈ cols, 0 ≤ c ∧ c < C) :
    ∀ (rows : List Int) (acc : List Move), (∀ r ∈ rows, 0 ≤ r ∧ r < R) →
      scanRows g t cols rows acc = .ok (acc ++ zeroCells g t rows cols) := by
  intro rows
  induction rows with
  | nil => intro acc _; simp [scanRows, zeroCells, pure, Except.pure]
  | cons r rest ih =>
    intro acc hr
    obtain ⟨r0, r1⟩ := hr r (List.mem_cons_self _ _)
    have hrest : ∀ x ∈ rest, 0 ≤ x ∧ x < R := fun x hx => hr x (List.mem_cons_of_mem _ hx)
    unfold scanRows
    rw [scanCols_eq hg t r0 r1 cols acc hc]
    simp only [bind, Except.bind]
    rw [ih _ hrest]
    simp [zeroCells, List.flatMap_cons]

theorem getValidMoves_eq {s : GameState} (hs : Shaped s) :
    getValidMoves s = .ok (validList s) := by
  unfold getValidMoves
  simp only []
  rw [scanRows_eq hs.hShape .HORIZONTAL (fun c hc => mem_loopIndices.1 hc) _ _
    (fun r hr => mem_loopIndices.1 hr)]
  simp only [bind, Except.bind]
  rw [scanRows_eq hs.vShape .VERTICAL (fun c hc => mem_loopIndices.1 hc) _ _
    (fun r hr => mem_loopIndices.1 hr)]
  simp [validList, pure, Except.pure]

theorem mem_zeroCells {g : Grid} {t : LineType} {rows cols : List Int} {m : Move} :
    m ∈ zeroCells g t rows cols ↔
      m.1 = t ∧ m.2.1 ∈ rows ∧ m.2.2 ∈ cols ∧ cellAt g m.2.1 m.2.2 = 0 := by
  obtain ⟨mt, mr, mc⟩ := m
  unfold zeroCells
  simp only [List.mem_flatMap, List.mem_map, List.mem_filter, beq_iff_eq, Prod.mk.injEq]
  constructor
  · rintro ⟨r, hr, c, ⟨hc, hz⟩, rfl, rfl, rfl⟩
    exact ⟨rfl, hr, hc, hz⟩
  · rintro ⟨rfl, hr, hc, hz⟩
    exact ⟨mr, hr, mc, ⟨hc, hz⟩, rfl, rfl, rfl⟩

theorem mem_validList {s : GameState} {m : Move} :
    m ∈ validList s ↔ InRange s m.1 m.2.1 m.2.2 ∧ cellAt (linesOf s m.1) m.2.1 m.2.2 = 0 := by
  obtain ⟨mt, mr, mc⟩ := m
  unfold validList
  simp only [List.mem_append, mem_zeroCells, mem_loopIndices]
  cases mt with
  | HORIZONTAL =>
    simp only [InRange, linesOf, true_and, false_and, or_false]
    tauto
  | VERTICAL =>
    simp only [InRange, linesOf, true_and, false_and, false_or]
    tauto

theorem exists_index_of_mem {g : Grid} {R C : Int} (hg : GridShape g R C) {line : List Int}
    (hl : line ∈ g) {v : Int} (hv : v ∈ line) :
    ∃ r c, 0 ≤ r ∧ r < R ∧ 0 ≤ c ∧ c < C ∧ cellAt g r c = v := by
  have hlen := hg.2 _ hl
  obtain ⟨i, hi, rfl⟩ := List.mem_iff_getElem.1 hl
  obtain ⟨j, hj, rfl⟩ := List.mem_iff_getElem.1 hv
  refine ⟨(i : Int), (j : Int), by omega, by have := hg.1; omega, by omega, by omega, ?_⟩
  unfold cellAt
  simp only [Int.toNat_ofNat]
  rw [List.getD_eq_getElem _ _ hi, List.getD_eq_getElem _ _ hj]

theorem all_one_iff {g : Grid} {R C : Int} (hg : GridShape g R C) :
    g.all (fun row => row.all (fun line => line == 1)) = true ↔
      ∀ r c, 0 ≤ r → r < R → 0 ≤ c → c < C → cellAt g r c = 1 := by
  simp only [List.all_eq_true, beq_iff_eq]
  constructor
  · intro h r c r0 r1 c0 c1
    have hv : GridValues g [1] := by
      intro line hl v hv
      simp [h line hl v hv]
    simpa using gridValues_cellAt_mem hv hg r0 r1 c0 c1
  · intro h line hl v hv
    obtain ⟨r, c, r0, r1, c0, c1, e⟩ := exists_index_of_mem hg hl hv
    rw [← e]
    exact h r c r0 r1 c0 c1

theorem isGameOver_iff {s : GameState} (hs : Shaped s) :
    isGameOver s = true ↔
      ∀ t row col, InRange s t row col → cellAt (linesOf s t) row col = 1 := by
  unfold isGameOver
  simp only [Bool.and_eq_true]
  rw [all_one_iff hs.hShape, all_one_iff hs.vShape]
  constructor
  · rintro ⟨hh, hv⟩ t row col hin
    cases t with
    | HORIZONTAL => exact hh row col hin.1 hin.2.1 hin.2.2.1 hin.2.2.2
    | VERTICAL => exact hv row col hin.1 hin.2.1 hin.2.2.1 hin.2.2.2
  · intro h
    exact ⟨fun r c r0 r1 c0 c1 => h .HORIZONTAL r c ⟨r0, r1, c0, c1⟩,
      fun r c r0 r1 c0 c1 => h .VERTICAL r c ⟨r0, r1, c0, c1⟩⟩

theorem length_filter_range (p : Int → Bool) :
    ∀ l : List Int,
      ((List.range l.length).filter (fun j => p (l.getD j 0))).length = l.countP p := by
  intro l
  induction l with
  | nil => simp
  | cons a rest ih =>
    rw [List.length_cons, List.range_succ_eq_map, List.filter_cons, List.filter_map,
      List.countP_cons]
    have e : ((fun j => p ((a :: rest).getD j 0)) ∘ Nat.succ) =
        fun j => p (rest.getD j 0) := by
      funext j; simp
    rw [e]
    by_cases hp : p a = true
    · simpa [hp, List.getD_eq_getElem?_getD] using ih
    · simpa [hp, List.getD_eq_getElem?_getD] using ih

theorem sum_map_range (f : List Int → Nat) :
    ∀ g : Grid, ((List.range g.length).map (fun i => f (g.getD i []))).sum = (g.map f).sum := by
  intro g
  induction g with
  | nil => simp
  | cons a rest ih =>
    rw [List.length_cons, List.range_succ_eq_map, List.map_cons, List.map_map, List.sum_cons,
      List.map_cons, List.sum_cons]
    have e : ((fun i => f ((a :: rest).getD i [])) ∘ Nat.succ) =
        fun i => f (rest.getD i []) := by
      funext i; simp
    rw [e, ih]
    simp

theorem length_zeroCells {g : Grid} {R C : Int} (hg : GridShape g R C) (t : LineType) :
    (zeroCells g t (loopIndices R) (loopIndices C)).length = countCells (fun v => v == 0) g := by
  have hR : R.toNat = g.length := by have := hg.1; omega
  unfold zeroCells countCells
  rw [List.length_flatMap, ← sum_map_range]
  unfold loopIndices
  rw [List.map_map, hR]
  congr 1
  apply List.map_congr_left
  intro i hi
  have hi' : i < g.length := List.mem_range.1 hi
  have hmem : g.getD i [] ∈ g := by
    rw [List.getD_eq_getElem _ _ hi']; exact List.getElem_mem _
  have hC : C.toNat = (g.getD i []).length := by have := hg.2 _ hmem; omega
  simp only [Function.comp, List.length_map, List.filter_map, hC]
  rw [← length_filter_range]
  congr 1

theorem countP_zero_add_one :
    ∀ l : List Int, (∀ v ∈ l, v ∈ [(0 : Int), 1]) →
      l.countP (fun v => v == 0) + l.countP (fun v => v == 1) = l.length := by
  intro l
  induction l with
  | nil => intro _; rfl
  | cons a rest ih =>
    intro h
    have h1 := ih (fun v hv => h v (List.mem_cons_of_mem _ hv))
    have ha := h a (List.mem_cons_self _ _)
    simp only [List.mem_cons, List.mem_singleton, List.not_mem_nil, or_false] at ha
    rcases ha with rfl | rfl
    · simp [List.countP_cons]; omega
    · simp [List.countP_cons]; omega

theorem countCells_zero_add_one {C : Int} :
    ∀ g : Grid, (∀ line ∈ g, (line.length : Int) = C) → GridValues g [0, 1] →
      (countCells (fun v => v == 0) g : Int) + countCells (fun v => v == 1) g =
        (g.length : Int) * C := by
  intro g
  induction g with
  | nil => intro _ _; simp [countCells]
  | cons a rest ih =>
    intro hlen hval
    have h1 := ih (fun line hl => hlen line (List.mem_cons_of_mem _ hl))
      (fun line hl => hval line (List.mem_cons_of_mem _ hl))
    have h2 : (a.length : Int) = C := hlen a (List.mem_cons_self _ _)
    have h3 := countP_zero_add_one a (hval a (List.mem_cons_self _ _))
    have h4 : ∀ p : Int → Bool, countCells p (a :: rest) = a.countP p + countCells p rest := by
      intro p; simp [countCells]
    have h6 : (((a :: rest).length : Nat) : Int) * C = C + (rest.length : Int) * C := by
      simp only [List.length_cons]; push_cast; ring
    rw [h4, h4, h6]
    push_cast
    have h7 : ((a.countP (fun v => v == 0) : Nat) : Int) + (a.countP (fun v => v == 1) : Nat) =
        C := by
      rw [← h2]; exact_mod_cast h3
    linarith

theorem length_validList {s : GameState} (hwf : WellFormed s) :
    ((validList s).length : Int) + (drawnEdges s : Int) = edgeTotal s.width s.height := by
  have hs := wellFormed_shaped hwf
  have h1 := countCells_zero_add_one s.horizontalLines hs.hShape.2 hwf.hValues
  have h2 := countCells_zero_add_one s.verticalLines hs.vShape.2 hwf.vValues
  rw [hs.hShape.1] at h1
  rw [hs.vShape.1] at h2
  unfold validList drawnEdges edgeTotal
  rw [List.length_append, length_zeroCells hs.hShape, length_zeroCells hs.vShape]
  push_cast
  linarith

theorem drawnEdges_applyMove {s : GameState} (hs : Shaped s) {t : LineType} {row col : Int}
    (hin : InRange s t row col) (hfree : cellAt (linesOf s t) row col ≠ 1) :
    drawnEdges (applyMove s t row col) = drawnEdges s + 1 := by
  have e : drawnEdges (applyMove s t row col) = drawnEdges (drawn s t row col) := by
    unfold drawnEdges
    rw [applyMove_horizontalLines, applyMove_verticalLines]
  rw [e, drawnEdges_drawn hs hin hfree]

theorem drawnEdges_emptyGame (w h : Int) : drawnEdges (emptyGame w h) = 0 := by
  unfold drawnEdges
  rw [countCells_eq_zero, countCells_eq_zero]
  · intro line hl v hv
    have := gridValues_replicate _ _ (A := [0]) (by simp) line hl v hv
    simp only [List.mem_singleton] at this
    simp [this]
  · intro line hl v hv
    have := gridValues_replicate _ _ (A := [0]) (by simp) line hl v hv
    simp only [List.mem_singleton] at this
    simp [this]

theorem readCell_inRange {g : Grid} {R C : Int} (hg : GridShape g R C) {r c v : Int}
    (h : readCell g r c = .ok v) : 0 ≤ r ∧ r < R ∧ 0 ≤ c ∧ c < C := by
  unfold readCell at h
  by_cases h1 : r < 0
  · rw [if_pos h1] at h; cases h
  · rw [if_neg h1] at h
    cases hrow : g.get? r.toNat with
    | none => rw [hrow] at h; cases h
    | some line =>
      rw [hrow] at h
      simp only at h
      by_cases h2 : c < 0
      · rw [if_pos h2] at h; cases h
      · rw [if_neg h2] at h
        cases hcell : line.get? c.toNat with
        | none => rw [hcell] at h; cases h
        | some x =>
          rw [List.get?_eq_getElem?] at hrow hcell
          obtain ⟨hi, hline⟩ := List.getElem?_eq_some.1 hrow
          obtain ⟨hj, _⟩ := List.getElem?_eq_some.1 hcell
          have hmem : line ∈ g := by rw [← hline]; exact List.getElem_mem _
          have hlen := hg.2 _ hmem
          have := hg.1
          omega

theorem linesOf_inRange {s : GameState} (hs : Shaped s) {t : LineType} {r c v : Int}
    (h : readCell (linesOf s t) r c = .ok v) : InRange s t r c := by
  cases t with
  | HORIZONTAL => exact readCell_inRange hs.hShape h
  | VERTICAL => exact readCell_inRange hs.vShape h

theorem applyMove_keeps_edges {s : GameState} (hs : Shaped s) {t : LineType} {row col : Int}
    (hin : InRange s t row col) {t' : LineType} {r c : Int}
    (h : readCell (linesOf s t') r c = .ok 1) :
    readCell (linesOf (applyMove s t row col) t') r c = .ok 1 := by
  have hin2 := linesOf_inRange hs h
  have hd := drawn_shaped hs t row col
  have hr : 0 ≤ r := by cases t' <;> exact hin2.1
  have hc : 0 ≤ c := by cases t' <;> exact hin2.2.2.1
  rw [linesOf_read hs hin2] at h
  have h1 : cellAt (linesOf s t') r c = 1 := by injection h
  rw [linesOf_applyMove, linesOf_read hd (drawn_inRange hin2 t row col),
    cellAt_linesOf_drawn hs hin hr hc, h1]
  simp

theorem applyMove_keeps_boxes {w h : Int} {s : GameState} (hinv : PlayInvariant w h s)
    {t : LineType} {row col : Int} (hin : InRange s t row col)
    (hfree : cellAt (linesOf s t) row col ≠ 1) {r c v : Int}
    (hread : readCell s.boxes r c = .ok v) (hv : v ≠ 0) :
    readCell (applyMove s t row col).boxes r c = .ok v := by
  have hs := wellFormed_shaped hinv.wf
  obtain ⟨b0, b1, b2, b3⟩ := readCell_inRange hs.bShape hread
  have hin' : InRange (drawn s t row col) t row col := drawn_inRange hin t row col
  have hrange := completedList_inRange hin'
  simp only [drawn_width, drawn_height] at hrange
  have hshape' : GridShape (applyMove s t row col).boxes (s.height - 1) (s.width - 1) := by
    rw [applyMove_boxes]; exact claimAll_shape _ _ hs.bShape
  rw [readCell_eq_cellAt hs.bShape b0 b1 b2 b3] at hread
  have hcell : cellAt s.boxes r c = v := by injection hread
  have hnot : (r, c) ∉ completedList (drawn s t row col) t row col := by
    intro hmem
    have := completedList_unclaimed hinv hin hfree (r, c) hmem
    simp only at this
    rw [hcell] at this
    exact hv this
  rw [readCell_eq_cellAt hshape' b0 b1 b2 b3, applyMove_boxes,
    cellAt_claimAll _ _ hs.bShape hrange b0 b2, if_neg hnot, hcell]

theorem later_reachable {w h : Int} {s s' : GameState} (hreach : Reachable w h s)
    (hlater : Later s s') : Reachable w h s' := by
  induction hlater with
  | refl => exact hreach
  | step _ hm ih => exact Reachable.step ih hm

/-- C11: along every sequence of successful `makeMove` calls from
`createGame(w, h)` with `w, h ≥ 2`, an edge that is 1 in some state is 1 in
every later state, and a box that is non-zero in some state has the same value
in every later state. -/
theorem edges_and_boxes_persist (w h : Int) (hw : 2 ≤ w) (hh : 2 ≤ h) (s s' : GameState)
    (hreach : Reachable w h s) (hlater : Later s s') :
    (∀ t r c, readCell (linesOf s t) r c = .ok 1 → readCell (linesOf s' t) r c = .ok 1) ∧
    (∀ r c v, readCell s.boxes r c = .ok v → v ≠ 0 → readCell s'.boxes r c = .ok v) := by
  induction hlater with
  | refl => exact ⟨fun _ _ _ h => h, fun _ _ _ h _ => h⟩
  | step hl hm ih =>
    have hinv := reachable_playInvariant hw hh (later_reachable hreach hl)
    have hs := wellFormed_shaped hinv.wf
    obtain ⟨hin, hfree, rfl⟩ := makeMove_some hs hm
    exact ⟨fun t r c h1 => applyMove_keeps_edges hs hin (ih.1 t r c h1),
      fun r c v h1 hv => applyMove_keeps_boxes hinv hin hfree (ih.2 r c v h1 hv) hv⟩

theorem stateAfterClick_rejected {s : GameState} {t : LineType} {row col : Int}
    (h : makeMove s t row col = .ok none) : stateAfterClick s t row col = .ok s := by
  unfold stateAfterClick
  rw [h]
  rfl

theorem stateAfterClicks_rejected {s : GameState} {t : LineType} {row col : Int}
    (h : makeMove s t row col = .ok none) :
    ∀ n : Nat, stateAfterClicks t row col n s = .ok s := by
  intro n
  induction n with
  | zero => rfl
  | succ k ih =>
    unfold stateAfterClicks
    rw [stateAfterClick_rejected h]
    exact ih

/-- C12: on a well-formed state `makeMove` returns `undefined` for every
in-range edge that is already drawn; so after `makeMove(s, t, r, c)` returned
`s'`, `makeMove(s', t, r, c)` returns `undefined`, and the caller, who keeps
`s'` on a rejection, gets the same rejection however often the move is
repeated. -/
theorem drawn_edge_rejected (s : GameState) (hwf : WellFormed s) (t : LineType)
    (row col : Int) :
    (InRange s t row col → readCell (linesOf s t) row col = .ok 1 →
      makeMove s t row col = .ok none) ∧
    (∀ s', makeMove s t row col = .ok (some s') →
      makeMove s' t row col = .ok none ∧
      ∀ n : Nat, stateAfterClicks t row col n s' = .ok s') := by
  have hs := wellFormed_shaped hwf
  constructor
  · intro hin hread
    rw [linesOf_read hs hin] at hread
    have h1 : cellAt (linesOf s t) row col = 1 := by injection hread
    exact makeMove_invalid hs (fun h => h.2 h1)
  · intro s' hm
    obtain ⟨hin, _, rfl⟩ := makeMove_some hs hm
    have hs' := wellFormed_shaped (applyMove_wellFormed hwf hin)
    have h1 : cellAt (linesOf (applyMove s t row col) t) row col = 1 := by
      rw [linesOf_applyMove, cellAt_drawn_target hs hin]
    have hrej : makeMove (applyMove s t row col) t row col = .ok none :=
      makeMove_invalid hs' (fun h => h.2 h1)
    exact ⟨hrej, stateAfterClicks_rejected hrej⟩

theorem validList_eq_nil_iff {s : GameState} (hwf : WellFormed s) :
    validList s = [] ↔ isGameOver s = true := by
  have hs := wellFormed_shaped hwf
  rw [isGameOver_iff hs, List.eq_nil_iff_forall_not_mem]
  constructor
  · intro h t row col hin
    rcases linesOf_values hwf hin with h0 | h1
    · exact absurd (mem_validList.2 ⟨hin, h0⟩) (h (t, row, col))
    · exact h1
  · intro h m hm
    obtain ⟨hin, h0⟩ := mem_validList.1 hm
    rw [h _ _ _ hin] at h0
    cases h0

/-- C13: on a well-formed state `isGameOver` is true iff every horizontal and
every vertical edge is 1, iff `getValidMoves` is empty; and when `isGameOver`
is true `makeMove` returns `undefined` for every orientation and all integers
`row`, `col`. -/
theorem gameOver_iff_no_moves (s : GameState) (hwf : WellFormed s) :
    (isGameOver s = true ↔
      ∀ t row col, InRange s t row col → readCell (linesOf s t) row col = .ok 1) ∧
    (isGameOver s = true ↔ getValidMoves s = .ok []) ∧
    (isGameOver s = true → ∀ t row col, makeMove s t row col = .ok none) := by
  have hs := wellFormed_shaped hwf
  refine ⟨?_, ?_, ?_⟩
  · rw [isGameOver_iff hs]
    constructor
    · intro h t row col hin
      rw [linesOf_read hs hin, h t row col hin]
    · intro h t row col hin
      have := h t row col hin
      rw [linesOf_read hs hin] at this
      injection this
  · rw [getValidMoves_eq hs, ← validList_eq_nil_iff hwf]
    constructor
    · intro h; rw [h]
    · intro h; injection h
  · intro hover t row col
    apply makeMove_invalid hs
    rintro ⟨hin, hne⟩
    exact hne ((isGameOver_iff hs).1 hover t row col hin)

theorem countCells_all (p : Int → Bool) {C : Int} :
    ∀ g : Grid, (∀ line ∈ g, (line.length : Int) = C) →
      (∀ line ∈ g, ∀ v ∈ line, p v = true) →
      (countCells p g : Int) = (g.length : Int) * C := by
  intro g
  induction g with
  | nil => intro _ _; simp [countCells]
  | cons a rest ih =>
    intro hlen hp
    have h1 := ih (fun line hl => hlen line (List.mem_cons_of_mem _ hl))
      (fun line hl => hp line (List.mem_cons_of_mem _ hl))
    have h2 : (a.length : Int) = C := hlen a (List.mem_cons_self _ _)
    have h3 : a.countP p = a.length :=
      List.countP_eq_length.2 (hp a (List.mem_cons_self _ _))
    have h4 : countCells p (a :: rest) = a.countP p + countCells p rest := by
      simp [countCells]
    have h6 : (((a :: rest).length : Nat) : Int) * C = C + (rest.length : Int) * C := by
      simp only [List.length_cons]; push_cast; ring
    rw [h4, h6, h3]
    push_cast
    linarith

theorem edge_of_some_box {s : GameState} (hs : Shaped s)
    (hall : ∀ r c, BoxIndex s r c → boxSides s r c) {t : LineType} {row col : Int}
    (hin : InRange s t row col) : cellAt (linesOf s t) row col = 1 := by
  have hw := hs.width_ge
  have hh := hs.height_ge
  cases t with
  | HORIZONTAL =>
    obtain ⟨h0, h1, h2, h3⟩ := hin
    simp only [linesOf]
    by_cases hlast : row < s.height - 1
    · exact (hall row col ⟨h0, hlast, h2, h3⟩).1
    · have := (hall (row - 1) col ⟨by omega, by omega, h2, h3⟩).2.1
      have e : row - 1 + 1 = row := by omega
      rw [e] at this
      exact this
  | VERTICAL =>
    obtain ⟨h0, h1, h2, h3⟩ := hin
    simp only [linesOf]
    by_cases hlast : col < s.width - 1
    · exact (hall row col ⟨h0, h1, h2, hlast⟩).2.2.1
    · have := (hall row (col - 1) ⟨h0, h1, by omega, by omega⟩).2.2.2
      have e : col - 1 + 1 = col := by omega
      rw [e] at this
      exact this

theorem boxSides_of_gameOver {s : GameState} (hs : Shaped s) (hover : isGameOver s = true)
    {r c : Int} (hb : BoxIndex s r c) : boxSides s r c := by
  obtain ⟨b0, b1, b2, b3⟩ := hb
  have h := (isGameOver_iff hs).1 hover
  exact ⟨h .HORIZONTAL r c ⟨b0, by omega, b2, b3⟩,
    h .HORIZONTAL (r + 1) c ⟨by omega, by omega, b2, b3⟩,
    h .VERTICAL r c ⟨b0, b1, b2, by omega⟩,
    h .VERTICAL r (c + 1) ⟨b0, b1, by omega, by omega⟩⟩

/-- C14: in every state reachable from `createGame(w, h)` with `w, h ≥ 2`,
`isGameOver` is true if and only if every box is non-zero; in that case
`player1Score + player2Score = (w-1)*(h-1)`. -/
theorem gameOver_iff_all_boxes_claimed (w h : Int) (hw : 2 ≤ w) (hh : 2 ≤ h) (s : GameState)
    (hreach : Reachable w h s) :
    (isGameOver s = true ↔
      ∀ r c, 0 ≤ r → r < h - 1 → 0 ≤ c → c < w - 1 →
        ∃ v, readCell s.boxes r c = .ok v ∧ v ≠ 0) ∧
    (isGameOver s = true → s.player1Score + s.player2Score = (w - 1) * (h - 1)) := by
  have hinv := reachable_playInvariant hw hh hreach
  have hs := wellFormed_shaped hinv.wf
  have hwe := hinv.width_eq
  have hhe := hinv.height_eq
  have hclaimed : isGameOver s = true → ∀ r c, BoxIndex s r c → cellAt s.boxes r c ≠ 0 :=
    fun hover r c hb => (hinv.boxes_iff r c hb).2 (boxSides_of_gameOver hs hover hb)
  constructor
  · constructor
    · intro hover r c r0 r1 c0 c1
      have hb : BoxIndex s r c := ⟨r0, by omega, c0, by omega⟩
      exact ⟨_, readCell_eq_cellAt hs.bShape hb.1 hb.2.1 hb.2.2.1 hb.2.2.2, hclaimed hover r c hb⟩
    · intro hall
      rw [isGameOver_iff hs]
      intro t row col hin
      apply edge_of_some_box hs _ hin
      intro r c hb
      obtain ⟨b0, b1, b2, b3⟩ := id hb
      obtain ⟨v, hv, hne⟩ := hall r c b0 (by omega) b2 (by omega)
      rw [readCell_eq_cellAt hs.bShape b0 b1 b2 b3] at hv
      have e : cellAt s.boxes r c = v := by injection hv
      exact (hinv.boxes_iff r c hb).1 (by rw [e]; exact hne)
  · intro hover
    rw [hinv.scores]
    have hcount := countCells_all (fun v => v != 0) s.boxes hs.bShape.2 (by
      intro line hl v hv
      obtain ⟨r, c, r0, r1, c0, c1, e⟩ := exists_index_of_mem hs.bShape hl hv
      have := hclaimed hover r c ⟨r0, r1, c0, c1⟩
      rw [e] at this
      simpa using this)
    rw [hs.bShape.1, hwe, hhe] at hcount
    unfold claimedBoxes
    rw [hcount]
    ring

theorem zeroCells_eq_filter {g : Grid} {t : LineType} {cols : List Int} (P : Move → Bool) :
    ∀ rows : List Int, (∀ r ∈ rows, ∀ c ∈ cols, P (t, r, c) = (cellAt g r c == 0)) →
      zeroCells g t rows cols =
        (rows.flatMap (fun r => cols.map (fun c => (t, r, c)))).filter P := by
  intro rows
  induction rows with
  | nil => intro _; simp [zeroCells]
  | cons r rest ih =>
    intro h
    have h1 := ih (fun x hx => h x (List.mem_cons_of_mem _ hx))
    have h2 : (cols.filter (fun col => cellAt g r col == 0)).map (fun col => (t, r, col)) =
        (cols.map (fun c => (t, r, c))).filter P := by
      rw [List.filter_map]
      congr 1
      apply List.filter_congr
      intro c hc
      simp only [Function.comp]
      exact (h r (List.mem_cons_self _ _) c hc).symm
    unfold zeroCells at h1 ⊢
    rw [List.flatMap_cons, List.flatMap_cons, List.filter_append, h1, h2]

theorem edgeIsZero_eq {s : GameState} (hs : Shaped s) {t : LineType} {r c : Int}
    (hin : InRange s t r c) : edgeIsZero s (t, r, c) = (cellAt (linesOf s t) r c == 0) := by
  unfold edgeIsZero
  simp only
  rw [linesOf_read hs hin]
  by_cases h0 : cellAt (linesOf s t) r c = 0
  · simp [h0]
  · have : ¬ (Except.ok (cellAt (linesOf s t) r c) : Except Fault Int) = .ok 0 := by
      intro e; apply h0; injection e
    simp [h0, this]

theorem validList_eq_filter {s : GameState} (hs : Shaped s) :
    validList s =
      (edgesRowMajor s .HORIZONTAL).filter (edgeIsZero s) ++
        (edgesRowMajor s .VERTICAL).filter (edgeIsZero s) := by
  unfold validList edgesRowMajor
  congr 1
  · apply zeroCells_eq_filter
    intro r hr c hc
    have hr' := mem_loopIndices.1 hr
    have hc' := mem_loopIndices.1 hc
    exact edgeIsZero_eq hs (t := .HORIZONTAL) ⟨hr'.1, hr'.2, hc'.1, hc'.2⟩
  · apply zeroCells_eq_filter
    intro r hr c hc
    have hr' := mem_loopIndices.1 hr
    have hc' := mem_loopIndices.1 hc
    exact edgeIsZero_eq hs (t := .VERTICAL) ⟨hr'.1, hr'.2, hc'.1, hc'.2⟩

theorem mem_edgesRowMajor {s : GameState} {m : Move} :
    m ∈ edgesRowMajor s m.1 ↔ InRange s m.1 m.2.1 m.2.2 := by
  obtain ⟨mt, mr, mc⟩ := m
  cases mt with
  | HORIZONTAL =>
    simp only [edgesRowMajor, InRange, List.mem_flatMap, List.mem_map, mem_loopIndices,
      Prod.mk.injEq, true_and]
    constructor
    · rintro ⟨r, hr, c, hc, rfl, rfl⟩; exact ⟨hr.1, hr.2, hc.1, hc.2⟩
    · rintro ⟨h0, h1, h2, h3⟩; exact ⟨mr, ⟨h0, h1⟩, mc, ⟨h2, h3⟩, rfl, rfl⟩
  | VERTICAL =>
    simp only [edgesRowMajor, InRange, List.mem_flatMap, List.mem_map, mem_loopIndices,
      Prod.mk.injEq, true_and]
    constructor
    · rintro ⟨r, hr, c, hc, rfl, rfl⟩; exact ⟨hr.1, hr.2, hc.1, hc.2⟩
    · rintro ⟨h0, h1, h2, h3⟩; exact ⟨mr, ⟨h0, h1⟩, mc, ⟨h2, h3⟩, rfl, rfl⟩

theorem edgesRowMajor_type {s : GameState} {t : LineType} {m : Move}
    (h : m ∈ edgesRowMajor s t) : m.1 = t := by
  cases t with
  | HORIZONTAL =>
    simp only [edgesRowMajor, List.mem_flatMap, List.mem_map] at h
    obtain ⟨r, _, c, _, rfl⟩ := h
    rfl
  | VERTICAL =>
    simp only [edgesRowMajor, List.mem_flatMap, List.mem_map] at h
    obtain ⟨r, _, c, _, rfl⟩ := h
    rfl

theorem pairwise_loopIndices (n : Int) : (loopIndices n).Pairwise (fun a b => a < b) := by
  unfold loopIndices
  rw [List.pairwise_map]
  exact (List.pairwise_lt_range n.toNat).imp (fun h => by
    simp only [Int.ofNat_eq_coe]; omega)

theorem pairwise_rowMajor (t : LineType) (rows cols : Int) :
    ((loopIndices rows).flatMap
      (fun row => (loopIndices cols).map (fun col => ((t, row, col) : Move)))).Pairwise
      MoveBefore := by
  rw [List.pairwise_flatMap]
  constructor
  · intro r _
    rw [List.pairwise_map]
    exact (pairwise_loopIndices cols).imp (fun h => Or.inr ⟨rfl, Or.inr ⟨rfl, h⟩⟩)
  · refine (pairwise_loopIndices rows).imp ?_
    intro a b hab x hx y hy
    simp only [List.mem_map] at hx hy
    obtain ⟨_, _, rfl⟩ := hx
    obtain ⟨_, _, rfl⟩ := hy
    exact Or.inr ⟨rfl, Or.inl hab⟩

theorem pairwise_edgesRowMajor (s : GameState) :
    (edgesRowMajor s .HORIZONTAL ++ edgesRowMajor s .VERTICAL).Pairwise MoveBefore := by
  rw [List.pairwise_append]
  refine ⟨pairwise_rowMajor _ _ _, pairwise_rowMajor _ _ _, ?_⟩
  intro a ha b hb
  exact Or.inl ⟨edgesRowMajor_type ha, edgesRowMajor_type hb⟩

theorem moveBefore_ne {a b : Move} (h : MoveBefore a b) : a ≠ b := by
  rintro rfl
  rcases h with ⟨h1, h2⟩ | ⟨_, h | ⟨_, h⟩⟩
  · rw [h1] at h2; cases h2
  · exact lt_irrefl _ h
  · exact lt_irrefl _ h

theorem mem_validList_iff_valid {s : GameState} (hwf : WellFormed s) (m : Move) :
    m ∈ validList s ↔ isValidMove s m.1 m.2.1 m.2.2 = .ok true := by
  have hs := wellFormed_shaped hwf
  rw [mem_validList, isValidMove_eq hs]
  constructor
  · rintro ⟨hin, h0⟩
    rw [decide_eq_true (And.intro hin (by rw [h0]; decide))]
  · intro h
    injection h with h
    obtain ⟨hin, hne⟩ := of_decide_eq_true h
    rcases linesOf_values hwf hin with h0 | h1
    · exact ⟨hin, h0⟩
    · exact absurd h1 hne

/-- C15: on a well-formed state `getValidMoves` returns exactly the
horizontal edges of value 0 in row-major order followed by the vertical edges
of value 0 in row-major order, where the row-major lists hold exactly the
in-range edges; the result has no duplicates, its length is
`height*(width-1) + (height-1)*width` minus the number of drawn edges, and a
move is in it iff `isValidMove` is true for it. -/
theorem getValidMoves_exact (s : GameState) (hwf : WellFormed s) :
    ∃ moves, getValidMoves s = .ok moves ∧
      moves = (edgesRowMajor s .HORIZONTAL).filter (edgeIsZero s) ++
        (edgesRowMajor s .VERTICAL).filter (edgeIsZero s) ∧
      (∀ m : Move, m ∈ edgesRowMajor s m.1 ↔ InRange s m.1 m.2.1 m.2.2) ∧
      (edgesRowMajor s .HORIZONTAL ++ edgesRowMajor s .VERTICAL).Pairwise MoveBefore ∧
      moves.Pairwise MoveBefore ∧ moves.Nodup ∧
      (moves.length : Int) = edgeTotal s.width s.height - (drawnEdges s : Int) ∧
      ∀ m : Move, m ∈ moves ↔ isValidMove s m.1 m.2.1 m.2.2 = .ok true := by
  have hs := wellFormed_shaped hwf
  have hpw : (validList s).Pairwise MoveBefore := by
    rw [validList_eq_filter hs]
    exact (pairwise_edgesRowMajor s).sublist
      (List.Sublist.append (List.filter_sublist _) (List.filter_sublist _))
  refine ⟨validList s, getValidMoves_eq hs, validList_eq_filter hs,
    fun m => mem_edgesRowMajor, pairwise_edgesRowMajor s, hpw,
    hpw.imp (fun h => moveBefore_ne h), ?_, mem_validList_iff_valid hwf⟩
  have := length_validList hwf
  linarith

theorem reachableIn_reachable {w h : Int} {k : Nat} {s : GameState}
    (hr : ReachableIn w h k s) : Reachable w h s := by
  induction hr with
  | init hc => exact Reachable.init hc
  | step _ hm ih => exact Reachable.step ih hm

theorem reachableIn_drawnEdges {w h : Int} (hw : 2 ≤ w) (hh : 2 ≤ h) {k : Nat}
    {s : GameState} (hr : ReachableIn w h k s) : drawnEdges s = k := by
  induction hr with
  | init hc =>
    have hc := (createGame_ok hw hh hc).1
    subst hc
    exact drawnEdges_emptyGame w h
  | step hprev hm ih =>
    have hinv := reachable_playInvariant hw hh (reachableIn_reachable hprev)
    have hs := wellFormed_shaped hinv.wf
    obtain ⟨hin, hfree, rfl⟩ := makeMove_some hs hm
    rw [drawnEdges_applyMove hs hin hfree, ih]

theorem reachableIn_moves {w h : Int} (hw : 2 ≤ w) (hh : 2 ≤ h) {k : Nat} {s : GameState}
    (hr : ReachableIn w h k s) :
    ((validList s).length : Int) + (k : Int) = edgeTotal w h := by
  have hinv := reachable_playInvariant hw hh (reachableIn_reachable hr)
  have h1 := length_validList hinv.wf
  rw [reachableIn_drawnEdges hw hh hr, hinv.width_eq, hinv.height_eq] at h1
  exact h1

theorem reachableIn_accepts {w h : Int} (hw : 2 ≤ w) (hh : 2 ≤ h) {k : Nat} {s : GameState}
    (hr : ReachableIn w h k s) {m : Move} (hm : m ∈ validList s) :
    ∃ s', makeMove s m.1 m.2.1 m.2.2 = .ok (some s') ∧ ReachableIn w h (k + 1) s' := by
  have hinv := reachable_playInvariant hw hh (reachableIn_reachable hr)
  have hs := wellFormed_shaped hinv.wf
  obtain ⟨hin, h0⟩ := mem_validList.1 hm
  have hmove := makeMove_valid hs hin (by rw [h0]; decide)
  exact ⟨_, hmove, ReachableIn.step hr hmove⟩

theorem reachableIn_created {w h : Int} {k : Nat} {s : GameState}
    (hr : ReachableIn w h k s) : ∃ s0, createGame w h = .ok s0 := by
  induction hr with
  | init hc => exact ⟨_, hc⟩
  | step _ _ ih => exact ih

theorem reachableIn_exists {w h : Int} (hw : 2 ≤ w) (hh : 2 ≤ h) {s0 : GameState}
    (hc : createGame w h = .ok s0) :
    ∀ j : Nat, (j : Int) ≤ edgeTotal w h → ∃ s, ReachableIn w h j s := by
  intro j
  induction j with
  | zero => intro _; exact ⟨_, ReachableIn.init hc⟩
  | succ i ih =>
    intro hj
    obtain ⟨s, hr⟩ := ih (by push_cast at hj; omega)
    have hlen := reachableIn_moves hw hh hr
    have hpos : 0 < (validList s).length := by push_cast at hj; omega
    obtain ⟨m, hm⟩ := List.exists_mem_of_length_pos hpos
    obtain ⟨s', _, hr'⟩ := reachableIn_accepts hw hh hr hm
    exact ⟨s', hr'⟩

theorem edgeTotal_nonneg {w h : Int} (hw : 2 ≤ w) (hh : 2 ≤ h) : 0 ≤ edgeTotal w h := by
  unfold edgeTotal
  have h1 : 0 ≤ h * (w - 1) := mul_nonneg (by omega) (by omega)
  have h2 : 0 ≤ (h - 1) * w := mul_nonneg (by omega) (by omega)
  omega

/-- C16: with `E = h*(w-1) + (h-1)*w`, a state reached from `createGame(w, h)`
(`w, h ≥ 2`) by `k` successful moves has `k ≤ E` and exactly `k` drawn edges,
and is game over iff `k = E`; while it is not game over `getValidMoves` is
non-empty and `makeMove` accepts each move it lists; when it is game over
`getValidMoves` is empty; and play of `E` moves exists and ends in a state
with `isGameOver` true and no valid moves. -/
theorem play_ends_after_all_edges (w h : Int) (hw : 2 ≤ w) (hh : 2 ≤ h) (k : Nat)
    (s : GameState) (hr : ReachableIn w h k s) :
    (k : Int) ≤ edgeTotal w h ∧ drawnEdges s = k ∧
    (isGameOver s = true ↔ (k : Int) = edgeTotal w h) ∧
    (isGameOver s = false →
      ∃ moves, getValidMoves s = .ok moves ∧ moves ≠ [] ∧
        ∀ m ∈ moves, ∃ s', makeMove s m.1 m.2.1 m.2.2 = .ok (some s') ∧
          ReachableIn w h (k + 1) s') ∧
    (isGameOver s = true → getValidMoves s = .ok []) ∧
    (∃ sE, ReachableIn w h (edgeTotal w h).toNat sE ∧ isGameOver sE = true ∧
      getValidMoves sE = .ok []) := by
  have hover : ∀ {j : Nat} {x : GameState}, ReachableIn w h j x →
      (isGameOver x = true ↔ (j : Int) = edgeTotal w h) := by
    intro j x hx
    have hinv := reachable_playInvariant hw hh (reachableIn_reachable hx)
    have hlen := reachableIn_moves hw hh hx
    rw [← validList_eq_nil_iff hinv.wf, ← List.length_eq_zero]
    constructor
    · intro h0; rw [h0] at hlen; simpa using hlen
    · intro hj; rw [hj] at hlen; exact_mod_cast (by linarith : ((validList x).length : Int) = 0)
  have hnone : ∀ {j : Nat} {x : GameState}, ReachableIn w h j x → isGameOver x = true →
      getValidMoves x = .ok [] := by
    intro j x hx hx2
    have hinv := reachable_playInvariant hw hh (reachableIn_reachable hx)
    rw [getValidMoves_eq (wellFormed_shaped hinv.wf), (validList_eq_nil_iff hinv.wf).2 hx2]
  have hinv := reachable_playInvariant hw hh (reachableIn_reachable hr)
  have hs := wellFormed_shaped hinv.wf
  have hlen := reachableIn_moves hw hh hr
  refine ⟨by omega, reachableIn_drawnEdges hw hh hr, hover hr, ?_, hnone hr, ?_⟩
  · intro hnot
    refine ⟨validList s, getValidMoves_eq hs, ?_, fun m hm => reachableIn_accepts hw hh hr hm⟩
    intro hnil
    rw [(validList_eq_nil_iff hinv.wf).1 hnil] at hnot
    cases hnot
  · have hE := edgeTotal_nonneg hw hh
    obtain ⟨s0, hc⟩ := reachableIn_created hr
    obtain ⟨sE, hsE⟩ := reachableIn_exists hw hh hc (edgeTotal w h).toNat (by omega)
    have hov : isGameOver sE = true := (hover hsE).2 (by omega)
    exact ⟨sE, hsE, hov, hnone hsE hov⟩

theorem fourMoves_closed (a b c d : Move)
    (h : FourMovesPlay a b c d (emptyGame 2 2) (afterMove (emptyGame 2 2) a)
      (afterMove (afterMove (emptyGame 2 2) a) b)
      (afterMove (afterMove (afterMove (emptyGame 2 2) a) b) c)
      (afterMove (afterMove (afterMove (afterMove (emptyGame 2 2) a) b) c) d)) :
    ∃ s0 s1 s2 s3 s4, FourMovesPlay a b c d s0 s1 s2 s3 s4 :=
  ⟨_, _, _, _, _, h⟩

/-- C17: on `createGame(2, 2)`, for every ordering of its four edges all four
`makeMove` calls succeed; after each of the first three no box is claimed, both
scores are 0, `isGameOver` is false and the turn has passed to the other
player; the fourth move claims box (0,0) for the player who makes it, whose
score becomes 1 while the other stays 0, `extraTurn` is true, `isGameOver` is
true and `getWinner` returns that player. -/
theorem two_by_two_every_ordering :
    ∀ a ∈ fourEdges, ∀ b ∈ fourEdges, ∀ c ∈ fourEdges, ∀ d ∈ fourEdges, [a, b, c, d].Nodup →
      ∃ s0 s1 s2 s3 s4, FourMovesPlay a b c d s0 s1 s2 s3 s4 := by
  intro a ha b hb c hc d hd hnd
  simp only [fourEdges, List.mem_cons, List.mem_singleton, List.not_mem_nil, or_false]
    at ha hb hc hd
  rcases ha with rfl | rfl | rfl | rfl <;> rcases hb with rfl | rfl | rfl | rfl <;>
    rcases hc with rfl | rfl | rfl | rfl <;> rcases hd with rfl | rfl | rfl | rfl <;>
    first
    | exact absurd hnd (by decide)
    | exact fourMoves_closed _ _ _ _ (by decide)

/-- C18: for every state, `getWinner` returns 1 iff `player1Score` is greater
than `player2Score`, 2 iff `player2Score` is greater than `player1Score`, and 0
iff the two scores are equal. -/
theorem getWinner_iff (s : GameState) :
    (getWinner s = 1 ↔ s.player1Score > s.player2Score) ∧
    (getWinner s = 2 ↔ s.player2Score > s.player1Score) ∧
    (getWinner s = 0 ↔ s.player1Score = s.player2Score) := by
  unfold getWinner
  refine ⟨?_, ?_, ?_⟩
  · split_ifs with h1 h2
    · simp [h1]
    · constructor
      · intro h; cases h
      · intro h; exact absurd h h1
    · constructor
      · intro h; cases h
      · intro h; exact absurd h h1
  · split_ifs with h1 h2
    · constructor
      · intro h; cases h
      · intro h; omega
    · simp [h2]
    · constructor
      · intro h; cases h
      · intro h; exact absurd h h2
  · split_ifs with h1 h2
    · constructor
      · intro h; cases h
      · intro h; omega
    · constructor
      · intro h; cases h
      · intro h; omega
    · constructor
      · intro _; omega
      · intro _; rfl

theorem isGameOver_emptyGame {w h : Int} (hw : 2 ≤ w) (hh : 2 ≤ h) :
    isGameOver (emptyGame w h) = false := by
  have hwf := emptyGame_wellFormed hw hh
  have hs := wellFormed_shaped hwf
  cases hover : isGameOver (emptyGame w h) with
  | false => rfl
  | true =>
    have hin : InRange (emptyGame w h) .HORIZONTAL 0 0 := by
      simp only [InRange, emptyGame]; omega
    have h1 := (isGameOver_iff hs).1 hover .HORIZONTAL 0 0 hin
    have hv : GridValues (emptyGame w h).horizontalLines [0] :=
      gridValues_replicate _ _ (by simp)
    have h0 := gridValues_cellAt_mem hv hs.hShape hin.1 hin.2.1 hin.2.2.1 hin.2.2.2
    simp only [List.mem_singleton] at h0
    simp only [linesOf] at h1
    rw [h0] at h1
    cases h1

theorem claimedBoxes_emptyGame (w h : Int) : claimedBoxes (emptyGame w h) = 0 := by
  unfold claimedBoxes
  apply countCells_eq_zero
  intro line hl v hv
  have := gridValues_replicate _ _ (A := [0]) (by simp) line hl v hv
  simp only [List.mem_singleton] at this
  simp [this]

/-- C19, as stated, fails: `createGame(2, 4294967296)` has `w, h ≥ 2` but
returns no state, because `Array(4294967296)` throws a `RangeError`. -/
theorem createGame_fails_above_array_length :
    (2 : Int) ≤ 2 ∧ (2 : Int) ≤ 4294967296 ∧
      createGame 2 4294967296 = .error Fault.invalidLength ∧
      ¬ ∃ s, createGame 2 4294967296 = .ok s := by
  have h := createGame_error (w := 2) (h := 4294967296) (by decide) (by decide)
    (Or.inr (by decide))
  refine ⟨by decide, by decide, h, ?_⟩
  rintro ⟨s, hs⟩
  rw [h] at hs
  cases hs

/-- C19, amended: for all integers `w, h` with `2 ≤ w, h ≤ 4294967295` (the
largest array length), `createGame(w, h)` returns a state with `width = w`,
`height = h`, `horizontalLines` of `h` rows of `w-1` zeros, `verticalLines` of
`h-1` rows of `w` zeros, `boxes` of `h-1` rows of `w-1` zeros,
`currentPlayer = 1`, both scores 0 and `extraTurn = false`; no edge is drawn,
no box is claimed and `isGameOver` is false; called with no arguments it
equals `createGame(5, 5)`. -/
theorem createGame_empty (w h : Int) (hw : 2 ≤ w) (hh : 2 ≤ h) (hw2 : w ≤ 4294967295)
    (hh2 : h ≤ 4294967295) :
    ∃ s, createGame w h = .ok s ∧ s.width = w ∧ s.height = h ∧
      s.horizontalLines = List.replicate h.toNat (List.replicate (w - 1).toNat 0) ∧
      s.verticalLines = List.replicate (h - 1).toNat (List.replicate w.toNat 0) ∧
      s.boxes = List.replicate (h - 1).toNat (List.replicate (w - 1).toNat 0) ∧
      s.currentPlayer = 1 ∧ s.player1Score = 0 ∧ s.player2Score = 0 ∧
      s.extraTurn = false ∧
      drawnEdges s = 0 ∧ claimedBoxes s = 0 ∧ isGameOver s = false ∧
      createGameCall none none = createGame 5 5 :=
  ⟨emptyGame w h, createGame_eq (by omega) (by omega) (by omega) (by omega), rfl, rfl, rfl, rfl,
    rfl, rfl, rfl, rfl, rfl, drawnEdges_emptyGame w h, claimedBoxes_emptyGame w h,
    isGameOver_emptyGame hw hh, rfl⟩

/-- C20, as stated, fails: `createGame(3, 4294967296)` has `w, h ≥ 2` but
returns no state at all, hence no well-formed one. -/
theorem createGame_not_wellFormed_above_array_length :
    (2 : Int) ≤ 3 ∧ (2 : Int) ≤ 4294967296 ∧
      ¬ ∃ s0, createGame 3 4294967296 = .ok s0 ∧ WellFormed s0 := by
  have h := createGame_error (w := 3) (h := 4294967296) (by decide) (by decide)
    (Or.inr (by decide))
  refine ⟨by decide, by decide, ?_⟩
  rintro ⟨s0, hs, _⟩
  rw [h] at hs
  cases hs

/-- C20, amended: well-formedness is an invariant: `createGame(w, h)` with
`2 ≤ w, h ≤ 4294967295` (the largest array length) is well-formed with width
`w` and height `h`, and when `makeMove` returns `s'` from a well-formed `s`,
`s'` is well-formed (grids sized by `width` and `height`, edge values in
{0,1}, box values in {0,1,2}, non-negative scores, `currentPlayer` in {1,2})
with the same width and height. -/
theorem wellFormed_invariant (w h : Int) (hw : 2 ≤ w) (hh : 2 ≤ h) (hw2 : w ≤ 4294967295)
    (hh2 : h ≤ 4294967295) (s : GameState)
    (hwf : WellFormed s) (t : LineType) (row col : Int) (s' : GameState)
    (hm : makeMove s t row col = .ok (some s')) :
    (∃ s0, createGame w h = .ok s0 ∧ WellFormed s0 ∧ s0.width = w ∧ s0.height = h) ∧
    WellFormed s' ∧ s'.width = s.width ∧ s'.height = s.height ∧
    GridShape s'.horizontalLines s'.height (s'.width - 1) ∧
    GridShape s'.verticalLines (s'.height - 1) s'.width ∧
    GridShape s'.boxes (s'.height - 1) (s'.width - 1) ∧
    GridValues s'.horizontalLines [0, 1] ∧ GridValues s'.verticalLines [0, 1] ∧
    GridValues s'.boxes [0, 1, 2] ∧ 0 ≤ s'.player1Score ∧ 0 ≤ s'.player2Score ∧
    (s'.currentPlayer = 1 ∨ s'.currentPlayer = 2) := by
  obtain ⟨hin, _, rfl⟩ := makeMove_some (wellFormed_shaped hwf) hm
  have h' := applyMove_wellFormed hwf hin
  exact ⟨⟨emptyGame w h, createGame_eq (by omega) (by omega) (by omega) (by omega),
    emptyGame_wellFormed hw hh, rfl, rfl⟩, h', applyMove_width s t row col, applyMove_height s t row col, h'.hShape, h'.vShape,
    h'.bShape, h'.hValues, h'.vValues, h'.bValues, h'.score1_nonneg, h'.score2_nonneg,
    h'.player⟩

/-! ## Further properties at sample positions -/

theorem oneSide_reachable : Reachable 2 2 oneSide :=
  @Reachable.step 2 2 (emptyGame 2 2) oneSide .HORIZONTAL 0 0 (Reachable.init (by decide))
    (by decide)

theorem oneSide_later_playedGame : Later oneSide playedGame :=
  @Later.step oneSide threeSides playedGame .VERTICAL 0 1
    (@Later.step oneSide twoSides threeSides .VERTICAL 0 0
      (@Later.step oneSide oneSide twoSides .HORIZONTAL 1 0 (Later.refl oneSide) (by decide))
      (by decide))
    (by decide)

theorem playedGame_reachableIn : ReachableIn 2 2 4 playedGame :=
  @ReachableIn.step 2 2 3 threeSides playedGame .VERTICAL 0 1
    (@ReachableIn.step 2 2 2 twoSides threeSides .VERTICAL 0 0
      (@ReachableIn.step 2 2 1 oneSide twoSides .HORIZONTAL 1 0
        (@ReachableIn.step 2 2 0 (emptyGame 2 2) oneSide .HORIZONTAL 0 0
          (ReachableIn.init (by decide)) (by decide))
        (by decide))
      (by decide))
    (by decide)

/-- C11 between the first and the last state of the 2 x 2 game. -/
theorem edges_and_boxes_persist_witness :
    (Reachable 2 2 oneSide ∧ Later oneSide playedGame) ∧
      (∀ t r c, readCell (linesOf oneSide t) r c = .ok 1 →
        readCell (linesOf playedGame t) r c = .ok 1) ∧
      (∀ r c v, readCell oneSide.boxes r c = .ok v → v ≠ 0 →
        readCell playedGame.boxes r c = .ok v) :=
  ⟨⟨oneSide_reachable, oneSide_later_playedGame⟩,
    edges_and_boxes_persist 2 2 (by decide) (by decide) oneSide playedGame oneSide_reachable
      oneSide_later_playedGame⟩

/-- C12 at the last edge of the 2 x 2 game. -/
theorem drawn_edge_rejected_witness :
    WellFormed threeSides ∧
      (InRange threeSides .VERTICAL 0 1 →
        readCell (linesOf threeSides .VERTICAL) 0 1 = .ok 1 →
        makeMove threeSides .VERTICAL 0 1 = .ok none) ∧
      (∀ s', makeMove threeSides .VERTICAL 0 1 = .ok (some s') →
        makeMove s' .VERTICAL 0 1 = .ok none ∧
        ∀ n : Nat, stateAfterClicks .VERTICAL 0 1 n s' = .ok s') :=
  ⟨by decide, drawn_edge_rejected threeSides (by decide) .VERTICAL 0 1⟩

/-- C13 at the finished 2 x 2 game. -/
theorem gameOver_iff_no_moves_witness :
    WellFormed playedGame ∧
      (isGameOver playedGame = true ↔
        ∀ t row col, InRange playedGame t row col →
          readCell (linesOf playedGame t) row col = .ok 1) ∧
      (isGameOver playedGame = true ↔ getValidMoves playedGame = .ok []) ∧
      (isGameOver playedGame = true →
        ∀ t row col, makeMove playedGame t row col = .ok none) :=
  ⟨by decide, gameOver_iff_no_moves playedGame (by decide)⟩

/-- C14 at the finished 2 x 2 game. -/
theorem gameOver_iff_all_boxes_claimed_witness :
    Reachable 2 2 playedGame ∧
      (isGameOver playedGame = true ↔
        ∀ r c, (0 : Int) ≤ r → r < 2 - 1 → (0 : Int) ≤ c → c < 2 - 1 →
          ∃ v, readCell playedGame.boxes r c = .ok v ∧ v ≠ 0) ∧
      (isGameOver playedGame = true →
        playedGame.player1Score + playedGame.player2Score = (2 - 1) * (2 - 1)) :=
  ⟨playedGame_reachable,
    gameOver_iff_all_boxes_claimed 2 2 (by decide) (by decide) playedGame playedGame_reachable⟩

/-- C15 at the 3 x 2 position with one undrawn edge. -/
theorem getValidMoves_exact_witness :
    WellFormed twoBoxesOpen ∧
      ∃ moves, getValidMoves twoBoxesOpen = .ok moves ∧
        moves = (edgesRowMajor twoBoxesOpen .HORIZONTAL).filter (edgeIsZero twoBoxesOpen) ++
          (edgesRowMajor twoBoxesOpen .VERTICAL).filter (edgeIsZero twoBoxesOpen) ∧
        (∀ m : Move, m ∈ edgesRowMajor twoBoxesOpen m.1 ↔
          InRange twoBoxesOpen m.1 m.2.1 m.2.2) ∧
        (edgesRowMajor twoBoxesOpen .HORIZONTAL ++
          edgesRowMajor twoBoxesOpen .VERTICAL).Pairwise MoveBefore ∧
        moves.Pairwise MoveBefore ∧ moves.Nodup ∧
        (moves.length : Int) =
          edgeTotal twoBoxesOpen.width twoBoxesOpen.height - (drawnEdges twoBoxesOpen : Int) ∧
        ∀ m : Move, m ∈ moves ↔ isValidMove twoBoxesOpen m.1 m.2.1 m.2.2 = .ok true :=
  ⟨by decide, getValidMoves_exact twoBoxesOpen (by decide)⟩

/-- C16 at the finished 2 x 2 game, reached by 4 moves. -/
theorem play_ends_after_all_edges_witness :
    ReachableIn 2 2 4 playedGame ∧
      ((4 : Nat) : Int) ≤ edgeTotal 2 2 ∧ drawnEdges playedGame = 4 ∧
      (isGameOver playedGame = true ↔ ((4 : Nat) : Int) = edgeTotal 2 2) ∧
      (isGameOver playedGame = false →
        ∃ moves, getValidMoves playedGame = .ok moves ∧ moves ≠ [] ∧
          ∀ m ∈ moves, ∃ s', makeMove playedGame m.1 m.2.1 m.2.2 = .ok (some s') ∧
            ReachableIn 2 2 (4 + 1) s') ∧
      (isGameOver playedGame = true → getValidMoves playedGame = .ok []) ∧
      (∃ sE, ReachableIn 2 2 (edgeTotal 2 2).toNat sE ∧ isGameOver sE = true ∧
        getValidMoves sE = .ok []) :=
  ⟨playedGame_reachableIn,
    play_ends_after_all_edges 2 2 (by decide) (by decide) 4 playedGame playedGame_reachableIn⟩

/-- C17 at the ordering top, bottom, left, right. -/
theorem two_by_two_every_ordering_witness :
    ∃ s0 s1 s2 s3 s4,
      FourMovesPlay (.HORIZONTAL, 0, 0) (.HORIZONTAL, 1, 0) (.VERTICAL, 0, 0) (.VERTICAL, 0, 1)
        s0 s1 s2 s3 s4 :=
  two_by_two_every_ordering (.HORIZONTAL, 0, 0) (by decide) (.HORIZONTAL, 1, 0) (by decide)
    (.VERTICAL, 0, 0) (by decide) (.VERTICAL, 0, 1) (by decide) (by decide)

/-- C19 at a 3 x 2 dot grid. -/
theorem createGame_empty_witness :
    ∃ s, createGame 3 2 = .ok s ∧ s.width = 3 ∧ s.height = 2 ∧
      s.horizontalLines = List.replicate (2 : Int).toNat (List.replicate ((3 : Int) - 1).toNat 0) ∧
      s.verticalLines = List.replicate ((2 : Int) - 1).toNat (List.replicate (3 : Int).toNat 0) ∧
      s.boxes = List.replicate ((2 : Int) - 1).toNat (List.replicate ((3 : Int) - 1).toNat 0) ∧
      s.currentPlayer = 1 ∧ s.player1Score = 0 ∧ s.player2Score = 0 ∧
      s.extraTurn = false ∧
      drawnEdges s = 0 ∧ claimedBoxes s = 0 ∧ isGameOver s = false ∧
      createGameCall none none = createGame 5 5 :=
  createGame_empty 3 2 (by decide) (by decide) (by decide) (by decide)

/-- C20 at the second move of the 2 x 2 game. -/
theorem wellFormed_invariant_witness :
    (WellFormed oneSide ∧ makeMove oneSide .HORIZONTAL 1 0 = .ok (some twoSides)) ∧
      (∃ s0, createGame 2 2 = .ok s0 ∧ WellFormed s0 ∧ s0.width = 2 ∧ s0.height = 2) ∧
      WellFormed twoSides ∧ twoSides.width = oneSide.width ∧
      twoSides.height = oneSide.height ∧
      GridShape twoSides.horizontalLines twoSides.height (twoSides.width - 1) ∧
      GridShape twoSides.verticalLines (twoSides.height - 1) twoSides.width ∧
      GridShape twoSides.boxes (twoSides.height - 1) (twoSides.width - 1) ∧
      GridValues twoSides.horizontalLines [0, 1] ∧ GridValues twoSides.verticalLines [0, 1] ∧
      GridValues twoSides.boxes [0, 1, 2] ∧ 0 ≤ twoSides.player1Score ∧
      0 ≤ twoSides.player2Score ∧
      (twoSides.currentPlayer = 1 ∨ twoSides.currentPlayer = 2) :=
  ⟨⟨by decide, by decide⟩,
    wellFormed_invariant 2 2 (by decide) (by decide) (by decide) (by decide) oneSide
      (by decide) .HORIZONTAL 1 0 twoSides (by decide)⟩

/-! ## The text diagram, the last edge and an unreachable state -/

theorem string_append_mk (a : String) (x y : List Char) :
    a ++ String.mk x ++ String.mk y = a ++ String.mk (x ++ y) := by
  apply String.ext
  simp [String.data_append]

theorem dotRowLoop_eq {s : GameState} (hs : Shaped s) {row : Int} (hr0 : 0 ≤ row)
    (hr1 : row < s.height) :
    ∀ (cols : List Int) (acc : String), (∀ c ∈ cols, 0 ≤ c ∧ c < s.width) →
      dotRowLoop s row cols acc = .ok (acc ++ String.mk (cols.flatMap (dotPiece s row))) := by
  intro cols
  induction cols with
  | nil => intro acc _; apply congrArg; apply String.ext; simp
  | cons c rest ih =>
    intro acc hc
    obtain ⟨c0, c1⟩ := hc c (List.mem_cons_self _ _)
    have hrest : ∀ x ∈ rest, 0 ≤ x ∧ x < s.width := fun x hx => hc x (List.mem_cons_of_mem _ hx)
    unfold dotRowLoop
    by_cases hlast : c < s.width - 1
    · simp only [hlast, if_true]
      rw [readCell_eq_cellAt hs.hShape hr0 hr1 c0 hlast]
      simp only [bind, Except.bind]
      rw [ih _ hrest]
      apply congrArg
      apply String.ext
      by_cases h1 : cellAt s.horizontalLines row c = 1
      · simp [dotPiece, hlast, h1]
      · simp [dotPiece, hlast, h1]
    · simp only [hlast, if_false]
      rw [ih _ hrest]
      apply congrArg
      apply String.ext
      simp [dotPiece, hlast]

theorem boxRowLoop_eq {s : GameState} (hs : Shaped s) {row : Int} (hr0 : 0 ≤ row)
    (hr1 : row < s.height - 1) :
    ∀ (cols : List Int) (acc : String), (∀ c ∈ cols, 0 ≤ c ∧ c < s.width) →
      boxRowLoop s row cols acc = .ok (acc ++ String.mk (cols.flatMap (boxPiece s row))) := by
  intro cols
  induction cols with
  | nil => intro acc _; apply congrArg; apply String.ext; simp
  | cons c rest ih =>
    intro acc hc
    obtain ⟨c0, c1⟩ := hc c (List.mem_cons_self _ _)
    have hrest : ∀ x ∈ rest, 0 ≤ x ∧ x < s.width := fun x hx => hc x (List.mem_cons_of_mem _ hx)
    unfold boxRowLoop
    rw [readCell_eq_cellAt hs.vShape hr0 hr1 c0 c1]
    simp only [bind, Except.bind]
    by_cases hlast : c < s.width - 1
    · simp only [hlast, if_true]
      rw [readCell_eq_cellAt hs.bShape hr0 hr1 c0 hlast]
      simp only
      rw [ih _ hrest]
      apply congrArg
      apply String.ext
      by_cases hv : cellAt s.verticalLines row c = 1 <;>
        by_cases h0 : cellAt s.boxes row c = 0 <;>
        by_cases h1 : cellAt s.boxes row c = 1 <;>
        simp [boxPiece, hlast, hv, h0, h1]
    · simp only [hlast, if_false]
      rw [ih _ hrest]
      apply congrArg
      apply String.ext
      by_cases hv : cellAt s.verticalLines row c = 1 <;> simp [boxPiece, hlast, hv]

theorem rowsLoop_eq {s : GameState} (hs : Shaped s) :
    ∀ (rows : List Int) (acc : String), (∀ r ∈ rows, 0 ≤ r ∧ r < s.height) →
      rowsLoop s rows acc = .ok (acc ++ String.mk (rows.flatMap (rowChunk s))) := by
  intro rows
  induction rows with
  | nil => intro acc _; apply congrArg; apply String.ext; simp
  | cons r rest ih =>
    intro acc hr
    obtain ⟨r0, r1⟩ := hr r (List.mem_cons_self _ _)
    have hrest : ∀ x ∈ rest, 0 ≤ x ∧ x < s.height := fun x hx => hr x (List.mem_cons_of_mem _ hx)
    have hcols : ∀ c ∈ loopIndices s.width, 0 ≤ c ∧ c < s.width := fun c hc => mem_loopIndices.1 hc
    unfold rowsLoop
    rw [dotRowLoop_eq hs r0 r1 _ _ hcols]
    simp only [bind, Except.bind]
    by_cases hlast : r < s.height - 1
    · simp only [hlast, if_true]
      rw [boxRowLoop_eq hs r0 hlast _ _ hcols]
      simp only
      rw [ih _ hrest]
      apply congrArg
      apply String.ext
      simp [rowChunk, dotRowChars, boxRowChars, hlast]
    · simp only [hlast, if_false]
      rw [ih _ hrest]
      apply congrArg
      apply String.ext
      simp [rowChunk, dotRowChars, hlast]

theorem flatMap_rowChunk (s : GameState) :
    ∀ rows : List Int,
      (rows.flatMap (fun row => [dotRowChars s row] ++
        (if row < s.height - 1 then [boxRowChars s row] else []))).flatMap
          (fun l => l ++ ['\n']) = rows.flatMap (rowChunk s) := by
  intro rows
  induction rows with
  | nil => rfl
  | cons r rest ih =>
    rw [List.flatMap_cons, List.flatMap_cons, List.flatMap_append, ih]
    congr 1
    by_cases hlast : r < s.height - 1 <;> simp [rowChunk, hlast]

theorem toString_eq {s : GameState} (hs : Shaped s) :
    DotsAndBoxes.toString s =
      .ok (String.mk ((textLines s).flatMap (fun l => l ++ ['\n']))) := by
  unfold DotsAndBoxes.toString textLines
  rw [rowsLoop_eq hs _ _ (fun r hr => mem_loopIndices.1 hr), flatMap_rowChunk]
  apply congrArg
  apply String.ext
  simp

theorem length_flatMap_chunks {α : Type} (g : Nat → List α) (k : Nat) :
    ∀ n : Nat, (∀ j, j < n → (g j).length = k) → ((List.range n).flatMap g).length = k * n := by
  intro n
  induction n with
  | zero => intro _; simp
  | succ m ih =>
    intro h
    rw [List.range_succ, List.flatMap_append, List.length_append,
      ih (fun j hj => h j (by omega)), List.flatMap_singleton, h m (by omega)]
    ring

theorem getElem_flatMap_chunks {α : Type} (g : Nat → List α) (k : Nat) :
    ∀ n : Nat, (∀ j, j + 1 < n → (g j).length = k) →
      ∀ c i, c < n → i < (g c).length → i < k →
        ((List.range n).flatMap g)[k * c + i]? = (g c)[i]? := by
  intro n
  induction n with
  | zero => intro _ c i hc; omega
  | succ m ih =>
    intro h c i hc hi hik
    have hlen : ((List.range m).flatMap g).length = k * m :=
      length_flatMap_chunks g k m (fun j hj => h j (by omega))
    rw [List.range_succ, List.flatMap_append, List.flatMap_singleton]
    by_cases hcm : c < m
    · have hlt : k * c + i < ((List.range m).flatMap g).length := by
        rw [hlen]
        have : k * (c + 1) ≤ k * m := Nat.mul_le_mul_left k (by omega)
        have e : k * (c + 1) = k * c + k := by ring
        omega
      rw [List.getElem?_append_left hlt]
      exact ih (fun j hj => h j (by omega)) c i hcm hi hik
    · have hceq : c = m := by omega
      subst hceq
      rw [List.getElem?_append_right (by rw [hlen]; omega), hlen]
      congr 1
      omega

theorem flatMap_loopIndices {α : Type} (f : Int → List α) (n : Int) :
    (loopIndices n).flatMap f = (List.range n.toNat).flatMap (fun j => f (Int.ofNat j)) := by
  unfold loopIndices
  rw [List.flatMap_map]

theorem dotPiece_no_newline (s : GameState) (row col : Int) :
    ∀ ch ∈ dotPiece s row col, ch ≠ '\n' := by
  have h1 : ∀ ch ∈ "â€¢".data, ch ≠ '\n' := by decide
  have h2 : ∀ ch ∈ "â”€â”€â”€".data, ch ≠ '\n' := by decide
  have h3 : ∀ ch ∈ "   ".data, ch ≠ '\n' := by decide
  intro ch hch
  unfold dotPiece at hch
  rcases List.mem_append.1 hch with h | h
  · exact h1 ch h
  · split_ifs at h
    · exact h2 ch h
    · exact h3 ch h
    · cases h

theorem boxPiece_no_newline (s : GameState) (row col : Int) :
    ∀ ch ∈ boxPiece s row col, ch ≠ '\n' := by
  intro ch hch
  unfold boxPiece at hch
  rcases List.mem_append.1 hch with h | h
  · simp only [List.mem_singleton] at h
    subst h
    split_ifs <;> decide
  · split_ifs at h <;> simp at h <;> rcases h with rfl | rfl | rfl <;> decide

theorem textLines_no_newline (s : GameState) : ∀ l ∈ textLines s, '\n' ∉ l := by
  intro l hl hmem
  unfold textLines at hl
  obtain ⟨row, _, hrow⟩ := List.mem_flatMap.1 hl
  rcases List.mem_append.1 hrow with h | h
  · simp only [List.mem_singleton] at h
    subst h
    obtain ⟨col, _, hcol⟩ := List.mem_flatMap.1 hmem
    exact dotPiece_no_newline s row col _ hcol rfl
  · split_ifs at h
    · simp only [List.mem_singleton] at h
      subst h
      obtain ⟨col, _, hcol⟩ := List.mem_flatMap.1 hmem
      exact boxPiece_no_newline s row col _ hcol rfl
    · cases h

theorem length_textLines {s : GameState} (hs : Shaped s) :
    ((textLines s).length : Int) = 2 * s.height - 1 := by
  have hh := hs.height_ge
  obtain ⟨m, hm⟩ : ∃ m : Nat, s.height.toNat = m + 1 := ⟨s.height.toNat - 1, by omega⟩
  unfold textLines
  rw [flatMap_loopIndices, hm, List.range_succ, List.flatMap_append, List.length_append,
    length_flatMap_chunks _ 2 m (by
      intro j hj
      have : (j : Int) < s.height - 1 := by omega
      simp [this]),
    List.flatMap_singleton]
  have hlast : ¬ (Int.ofNat m < s.height - 1) := by simp only [Int.ofNat_eq_coe]; omega
  simp only [hlast, if_false, List.append_nil, List.length_singleton]
  push_cast
  omega

theorem textLines_get {s : GameState} {r : Int} (hr0 : 0 ≤ r)
    (hr1 : r < s.height) :
    (textLines s)[(2 * r).toNat]? = some (dotRowChars s r) ∧
      (r < s.height - 1 → (textLines s)[(2 * r + 1).toNat]? = some (boxRowChars s r)) := by
  have hsize : ∀ j, j + 1 < s.height.toNat →
      ([dotRowChars s (Int.ofNat j)] ++
        (if Int.ofNat j < s.height - 1 then [boxRowChars s (Int.ofNat j)] else [])).length = 2 := by
    intro j hj
    have : (j : Int) < s.height - 1 := by omega
    simp [this]
  have hcast : Int.ofNat r.toNat = r := by simp only [Int.ofNat_eq_coe]; omega
  unfold textLines
  rw [flatMap_loopIndices]
  constructor
  · have e : (2 * r).toNat = 2 * r.toNat + 0 := by omega
    rw [e, getElem_flatMap_chunks _ 2 _ hsize r.toNat 0 (by omega) (by simp) (by omega), hcast]
    simp
  · intro hlast
    have e : (2 * r + 1).toNat = 2 * r.toNat + 1 := by omega
    rw [e, getElem_flatMap_chunks _ 2 _ hsize r.toNat 1 (by omega)
      (by rw [hcast]; simp [hlast]) (by omega), hcast]
    simp [hlast]

theorem boxPiece_length {s : GameState} {row col : Int} (h : col < s.width - 1) :
    (boxPiece s row col).length = 4 := by
  simp [boxPiece, h]

theorem length_boxRowChars {s : GameState} (hs : Shaped s) (row : Int) :
    ((boxRowChars s row).length : Int) = 4 * (s.width - 1) + 1 := by
  have hw := hs.width_ge
  obtain ⟨m, hm⟩ : ∃ m : Nat, s.width.toNat = m + 1 := ⟨s.width.toNat - 1, by omega⟩
  unfold boxRowChars
  rw [flatMap_loopIndices, hm, List.range_succ, List.flatMap_append, List.length_append,
    length_flatMap_chunks _ 4 m (by
      intro j hj
      exact boxPiece_length (by simp only [Int.ofNat_eq_coe]; omega)),
    List.flatMap_singleton]
  have hlast : ¬ (Int.ofNat m < s.width - 1) := by simp only [Int.ofNat_eq_coe]; omega
  simp only [boxPiece, hlast, if_false, List.append_nil, List.length_singleton]
  push_cast
  omega

theorem boxRowChars_get {s : GameState} (row : Int) {c : Int} (hc0 : 0 ≤ c)
    (hc1 : c < s.width) (i : Nat) (hi : i < (boxPiece s row c).length) (hi4 : i < 4) :
    (boxRowChars s row)[(4 * c).toNat + i]? = (boxPiece s row c)[i]? := by
  have hcast : Int.ofNat c.toNat = c := by simp only [Int.ofNat_eq_coe]; omega
  have e : (4 * c).toNat = 4 * c.toNat := by omega
  unfold boxRowChars
  rw [flatMap_loopIndices, e,
    getElem_flatMap_chunks (fun j => boxPiece s row (Int.ofNat j)) 4 _
      (fun j hj => boxPiece_length (by simp only [Int.ofNat_eq_coe]; omega))
      c.toNat i (by omega)
      (by show i < (boxPiece s row (Int.ofNat c.toNat)).length; rw [hcast]; exact hi) hi4]
  simp only [hcast]

theorem dotRowChars_take {s : GameState} (hs : Shaped s) (row : Int) :
    (dotRowChars s row).take 3 = "â€¢".data := by
  have hw := hs.width_ge
  obtain ⟨m, hm⟩ : ∃ m : Nat, s.width.toNat = m + 1 := ⟨s.width.toNat - 1, by omega⟩
  unfold dotRowChars
  rw [flatMap_loopIndices, hm, List.range_succ_eq_map, List.flatMap_cons]
  unfold dotPiece
  rw [List.append_assoc]
  exact List.take_left' rfl

theorem dotRowChars_eq_dotRowText {s : GameState} (hs : Shaped s) {r : Int} (hr0 : 0 ≤ r)
    (hr1 : r < s.height) : dotRowChars s r = dotRowText s r := by
  unfold dotRowChars dotRowText
  rw [flatMap_loopIndices]
  congr 1
  funext c
  unfold dotPiece
  simp only [Int.ofNat_eq_coe]
  by_cases hc : (c : Int) < s.width - 1
  · rw [if_pos hc, if_pos hc,
      readCell_eq_cellAt hs.hShape hr0 hr1 (Int.ofNat_nonneg c) hc]
    by_cases h1 : cellAt s.horizontalLines r c = 1
    · rw [if_pos h1, if_pos (by rw [h1])]
    · rw [if_neg h1, if_neg (by intro e; injection e with e; exact h1 e)]
  · rw [if_neg hc, if_neg hc]

/-- C21: on a well-formed state `toString` returns a text of exactly
`2*height - 1` lines, each terminated by a newline and holding none; the lines
alternate dot rows and box rows.  The dot row of grid row `r` (index `2r`) is
exactly `dotRowText s r`: for each of the `width` columns the dot glyph,
followed, except after the last column, by the line glyph if
`horizontalLines[r][c]` is 1 and by three spaces otherwise; in particular it
starts with the dot glyph.  The box row of grid row `r` (index `2r+1`) has
exactly `4*(width-1) + 1` characters, its character at position `4c` is `|` if
`verticalLines[r][c]` is 1 and a space otherwise, and its characters at
positions `4c+1`, `4c+2`, `4c+3` are a space, then `1`, `2` or a space as
`boxes[r][c]` is 1, 2 or 0, then a space. -/
theorem toString_layout (s : GameState) (hwf : WellFormed s) :
    ∃ (text : String) (lines : List (List Char)),
      DotsAndBoxes.toString s = .ok text ∧
      text.data = lines.flatMap (fun l => l ++ ['\n']) ∧
      (∀ l ∈ lines, '\n' ∉ l) ∧
      (lines.length : Int) = 2 * s.height - 1 ∧
      (∀ r, 0 ≤ r → r < s.height →
        ∃ l, lines[(2 * r).toNat]? = some l ∧ l.take 3 = "â€¢".data ∧
          l = dotRowText s r) ∧
      (∀ r, 0 ≤ r → r < s.height - 1 →
        ∃ l, lines[(2 * r + 1).toNat]? = some l ∧
          (l.length : Int) = 4 * (s.width - 1) + 1 ∧
          (∀ c, 0 ≤ c → c < s.width →
            ∃ v, readCell s.verticalLines r c = .ok v ∧
              l[(4 * c).toNat]? = some (if v = 1 then '|' else ' ')) ∧
          (∀ c, 0 ≤ c → c < s.width - 1 →
            ∃ b, readCell s.boxes r c = .ok b ∧ (b = 0 ∨ b = 1 ∨ b = 2) ∧
              l[(4 * c).toNat + 1]? = some ' ' ∧
              l[(4 * c).toNat + 2]? = some (if b = 1 then '1' else if b = 2 then '2' else ' ') ∧
              l[(4 * c).toNat + 3]? = some ' ')) := by
  have hs := wellFormed_shaped hwf
  refine ⟨_, textLines s, toString_eq hs, rfl, textLines_no_newline s, length_textLines hs,
    ?_, ?_⟩
  · intro r r0 r1
    exact ⟨_, (textLines_get r0 r1).1, dotRowChars_take hs r,
      dotRowChars_eq_dotRowText hs r0 r1⟩
  · intro r r0 r1
    refine ⟨_, (textLines_get r0 (by omega)).2 r1, length_boxRowChars hs r, ?_, ?_⟩
    · intro c c0 c1
      refine ⟨_, readCell_eq_cellAt hs.vShape r0 r1 c0 c1, ?_⟩
      have := boxRowChars_get (s := s) r c0 c1 0 (by simp [boxPiece]) (by omega)
      rw [Nat.add_zero] at this
      rw [this]
      simp [boxPiece]
    · intro c c0 c1
      have hb := gridValues_cellAt_mem hwf.bValues hs.bShape r0 r1 c0 c1
      simp only [List.mem_cons, List.mem_singleton, List.not_mem_nil, or_false] at hb
      refine ⟨_, readCell_eq_cellAt hs.bShape r0 r1 c0 c1, hb, ?_, ?_, ?_⟩
      · rw [boxRowChars_get (s := s) r c0 (by omega) 1 (by simp [boxPiece, c1]) (by omega)]
        simp [boxPiece, c1]
      · rw [boxRowChars_get (s := s) r c0 (by omega) 2 (by simp [boxPiece, c1]) (by omega)]
        rcases hb with h | h | h <;> simp [boxPiece, c1, h]
      · rw [boxRowChars_get (s := s) r c0 (by omega) 3 (by simp [boxPiece, c1]) (by omega)]
        simp [boxPiece, c1]

theorem inRange_of_drawn {s : GameState} {t t' : LineType} {row col r c : Int}
    (h : InRange (drawn s t row col) t' r c) : InRange s t' r c := by
  cases t <;> cases t' <;> exact h

theorem last_edge_completes {s : GameState} (hs : Shaped s) {t : LineType} {row col : Int}
    (hin : InRange s t row col)
    (hrest : ∀ t' r c, InRange s t' r c → (t', r, c) ≠ (t, row, col) →
      cellAt (linesOf s t') r c = 1) :
    completedList (drawn s t row col) t row col ≠ [] := by
  have hw := hs.width_ge
  have hh := hs.height_ge
  have hd := drawn_shaped hs t row col
  have hin' : InRange (drawn s t row col) t row col := drawn_inRange hin t row col
  have hover : isGameOver (drawn s t row col) = true := by
    rw [isGameOver_iff hd]
    intro t' r c hin2
    have hin3 := inRange_of_drawn hin2
    have hr : 0 ≤ r := by cases t' <;> exact hin3.1
    have hc : 0 ≤ c := by cases t' <;> exact hin3.2.2.1
    rw [cellAt_linesOf_drawn hs hin hr hc]
    by_cases htarget : t = t' ∧ r = row ∧ c = col
    · rw [if_pos htarget]
    · rw [if_neg htarget]
      apply hrest t' r c hin3
      intro e
      apply htarget
      injection e with e1 e2
      injection e2 with e2 e3
      exact ⟨e1.symm, e2, e3⟩
  have hmem : ∀ r c, Touches t row col r c → BoxIndex (drawn s t row col) r c →
      (r, c) ∈ completedList (drawn s t row col) t row col := fun r c ht hb =>
    (mem_completedList_iff hin' (cellAt_drawn_target hs hin) r c).2
      ⟨ht, hb, boxSides_of_gameOver hd hover hb⟩
  have hdw := drawn_width s t row col
  have hdh := drawn_height s t row col
  cases t with
  | HORIZONTAL =>
    obtain ⟨h0, h1, h2, h3⟩ := hin
    by_cases hlast : row < s.height - 1
    · exact List.ne_nil_of_mem (hmem row col ⟨rfl, Or.inr rfl⟩
        ⟨h0, by rw [hdh]; exact hlast, h2, by rw [hdw]; exact h3⟩)
    · exact List.ne_nil_of_mem (hmem (row - 1) col ⟨rfl, Or.inl rfl⟩
        ⟨by omega, by rw [hdh]; omega, h2, by rw [hdw]; exact h3⟩)
  | VERTICAL =>
    obtain ⟨h0, h1, h2, h3⟩ := hin
    by_cases hlast : col < s.width - 1
    · exact List.ne_nil_of_mem (hmem row col ⟨rfl, Or.inr rfl⟩
        ⟨h0, by rw [hdh]; exact h1, h2, by rw [hdw]; exact hlast⟩)
    · exact List.ne_nil_of_mem (hmem row (col - 1) ⟨rfl, Or.inl rfl⟩
        ⟨h0, by rw [hdh]; exact h1, by omega, by rw [hdw]; omega⟩)

theorem gameOver_applyMove_completes {s : GameState} (hs : Shaped s) {t : LineType}
    {row col : Int} (hin : InRange s t row col)
    (hover : isGameOver (applyMove s t row col) = true) :
    completedList (drawn s t row col) t row col ≠ [] := by
  apply last_edge_completes hs hin
  intro t' r c hin2 hne
  have hd := drawn_shaped hs t row col
  have hover' : isGameOver (drawn s t row col) = true := by
    unfold isGameOver at hover ⊢
    rw [applyMove_horizontalLines, applyMove_verticalLines] at hover
    exact hover
  have h1 := (isGameOver_iff hd).1 hover' t' r c (drawn_inRange hin2 t row col)
  have hr : 0 ≤ r := by cases t' <;> exact hin2.1
  have hc : 0 ≤ c := by cases t' <;> exact hin2.2.2.1
  rw [cellAt_linesOf_drawn hs hin hr hc, if_neg] at h1
  · exact h1
  · rintro ⟨e1, e2, e3⟩
    apply hne
    rw [e1, e2, e3]

theorem isGameOver_applyMove_of_rest {s : GameState} (hs : Shaped s) {t : LineType}
    {row col : Int} (hin : InRange s t row col)
    (hrest : ∀ t' r c, InRange s t' r c → (t', r, c) ≠ (t, row, col) →
      cellAt (linesOf s t') r c = 1) :
    isGameOver (applyMove s t row col) = true := by
  have hd := drawn_shaped hs t row col
  have e : isGameOver (applyMove s t row col) = isGameOver (drawn s t row col) := by
    unfold isGameOver
    rw [applyMove_horizontalLines, applyMove_verticalLines]
  rw [e, isGameOver_iff hd]
  intro t' r c hin2
  have hin3 := inRange_of_drawn hin2
  have hr : 0 ≤ r := by cases t' <;> exact hin3.1
  have hc : 0 ≤ c := by cases t' <;> exact hin3.2.2.1
  rw [cellAt_linesOf_drawn hs hin hr hc]
  by_cases htarget : t = t' ∧ r = row ∧ c = col
  · rw [if_pos htarget]
  · rw [if_neg htarget]
    apply hrest t' r c hin3
    intro e
    apply htarget
    injection e with e1 e2
    injection e2 with e2 e3
    exact ⟨e1.symm, e2, e3⟩

/-- C22: in a game from `createGame(w, h)` with `w, h ≥ 2`, drawing the last
remaining edge always completes a box: from a reachable state with exactly one
undrawn edge, `makeMove` on that edge succeeds, completes one or two boxes and
gives them to the mover, who keeps the turn with `extraTurn` true, and the game
is over.  So every reachable state with `isGameOver` true has `extraTurn` true,
was produced by a move, and its `currentPlayer` is the player who made that
move. -/
theorem last_edge_claims_box (w h : Int) (hw : 2 ≤ w) (hh : 2 ≤ h) (s : GameState)
    (hreach : Reachable w h s) :
    (∀ t row col, InRange s t row col → readCell (linesOf s t) row col = .ok 0 →
      (∀ t' r c, InRange s t' r c → (t', r, c) ≠ (t, row, col) →
        readCell (linesOf s t') r c = .ok 1) →
      ∃ s' d completedBoxes, makeMove s t row col = .ok (some s') ∧
        drawLine s t row col = .ok d ∧
        checkBoxCompletion d t row col = .ok completedBoxes ∧
        (completedBoxes.length = 1 ∨ completedBoxes.length = 2) ∧
        (∀ b ∈ completedBoxes, readCell s'.boxes b.1 b.2 = .ok s.currentPlayer) ∧
        s'.currentPlayer = s.currentPlayer ∧ s'.extraTurn = true ∧
        isGameOver s' = true) ∧
    (isGameOver s = true →
      s.extraTurn = true ∧
      (∃ prev t row col, Reachable w h prev ∧ makeMove prev t row col = .ok (some s)) ∧
      ∀ prev t row col, Reachable w h prev → makeMove prev t row col = .ok (some s) →
        s.currentPlayer = prev.currentPlayer) := by
  have hlast : ∀ prev t row col, Reachable w h prev →
      makeMove prev t row col = .ok (some s) → isGameOver s = true →
      s.extraTurn = true ∧ s.currentPlayer = prev.currentPlayer := by
    intro prev t row col hprev hm hover
    have hps := wellFormed_shaped (reachable_playInvariant hw hh hprev).wf
    obtain ⟨hin, _, rfl⟩ := makeMove_some hps hm
    have hne := gameOver_applyMove_completes hps hin hover
    have hpos : (completedList (drawn prev t row col) t row col).length > 0 :=
      List.length_pos.2 hne
    constructor
    · rw [applyMove_extraTurn]; simp [hpos]
    · rw [applyMove_currentPlayer]; simp [hpos]
  constructor
  · intro t row col hin hzero hrest
    have hinv := reachable_playInvariant hw hh hreach
    have hs := wellFormed_shaped hinv.wf
    have hd := drawn_shaped hs t row col
    have hin' : InRange (drawn s t row col) t row col := drawn_inRange hin t row col
    have hrange := completedList_inRange hin'
    simp only [drawn_width, drawn_height] at hrange
    rw [linesOf_read hs hin] at hzero
    have h0 : cellAt (linesOf s t) row col = 0 := by injection hzero
    have hfree : cellAt (linesOf s t) row col ≠ 1 := by rw [h0]; decide
    have hrest' : ∀ t' r c, InRange s t' r c → (t', r, c) ≠ (t, row, col) →
        cellAt (linesOf s t') r c = 1 := by
      intro t' r c hin2 hne
      have := hrest t' r c hin2 hne
      rw [linesOf_read hs hin2] at this
      injection this
    have hne := last_edge_completes hs hin hrest'
    have hpos : (completedList (drawn s t row col) t row col).length > 0 :=
      List.length_pos.2 hne
    have hle := completedList_length_le (drawn s t row col) t row col
    have hshape' : GridShape (applyMove s t row col).boxes (s.height - 1) (s.width - 1) := by
      rw [applyMove_boxes]; exact claimAll_shape _ _ hs.bShape
    refine ⟨_, _, _, makeMove_valid hs hin hfree, drawLine_eq hs hin,
      checkBoxCompletion_eq hd hin', by omega, ?_, ?_, ?_,
      isGameOver_applyMove_of_rest hs hin hrest'⟩
    · intro b hb
      obtain ⟨b0, b1, b2, b3⟩ := hrange b hb
      rw [readCell_eq_cellAt hshape' b0 b1 b2 b3, applyMove_boxes,
        cellAt_claimAll _ _ hs.bShape hrange b0 b2, if_pos hb]
    · rw [applyMove_currentPlayer]; simp [hpos]
    · rw [applyMove_extraTurn]; simp [hpos]
  · intro hover
    have hex : ∃ prev t row col, Reachable w h prev ∧
        makeMove prev t row col = .ok (some s) := by
      cases hreach with
      | init hc =>
        have hc := (createGame_ok hw hh hc).1
        subst hc
        rw [isGameOver_emptyGame hw hh] at hover
        cases hover
      | step hprev hm => exact ⟨_, _, _, _, hprev, hm⟩
    obtain ⟨prev, t, row, col, hprev, hm⟩ := hex
    exact ⟨(hlast prev t row col hprev hm hover).1, ⟨prev, t, row, col, hprev, hm⟩,
      fun p t' r c hp hm' => (hlast p t' r c hp hm' hover).2⟩

/-- C23: `makeMove` does not check that a completed box is unclaimed.  The
2 x 2 state with three edges drawn, `boxes[0][0] = 1`, scores 1 and 0 and
player 2 to move is well-formed and not reachable from any `createGame(w, h)`
with `w, h ≥ 2`; `makeMove` on its remaining edge succeeds, changes the owner
of the box from 1 to 2 and yields `player1Score + player2Score = 2`, more than
the single claimed box. -/
theorem claimed_box_reassigned :
    WellFormed claimedButOpen ∧
    (∀ w h : Int, 2 ≤ w → 2 ≤ h → ¬ Reachable w h claimedButOpen) ∧
    ∃ s', makeMove claimedButOpen .VERTICAL 0 1 = .ok (some s') ∧
      readCell claimedButOpen.boxes 0 0 = .ok 1 ∧
      readCell s'.boxes 0 0 = .ok 2 ∧
      s'.player1Score = 1 ∧ s'.player2Score = 1 ∧
      s'.player1Score + s'.player2Score = 2 ∧
      claimedBoxes s' = 1 ∧
      (claimedBoxes s' : Int) < s'.player1Score + s'.player2Score := by
  refine ⟨by decide, ?_, applyMove claimedButOpen .VERTICAL 0 1, by decide, by decide,
    by decide, by decide, by decide, by decide, by decide, by decide⟩
  intro w h hw hh hreach
  have hinv := reachable_playInvariant hw hh hreach
  have hb : BoxIndex claimedButOpen 0 0 := ⟨by decide, by decide, by decide, by decide⟩
  have hsides : ¬ boxSides claimedButOpen 0 0 := by decide
  exact hsides ((hinv.boxes_iff 0 0 hb).1 (by decide))

theorem threeSides_reachable : Reachable 2 2 threeSides :=
  @Reachable.step 2 2 twoSides threeSides .VERTICAL 0 0
    (@Reachable.step 2 2 oneSide twoSides .HORIZONTAL 1 0 oneSide_reachable (by decide))
    (by decide)

/-- C21 at the 3 x 2 position with both boxes claimed. -/
theorem toString_layout_witness :
    WellFormed twoBoxesClaimed ∧
      ∃ (text : String) (lines : List (List Char)),
        DotsAndBoxes.toString twoBoxesClaimed = .ok text ∧
        text.data = lines.flatMap (fun l => l ++ ['\n']) ∧
        (∀ l ∈ lines, '\n' ∉ l) ∧
        (lines.length : Int) = 2 * twoBoxesClaimed.height - 1 ∧
        (∀ r, 0 ≤ r → r < twoBoxesClaimed.height →
          ∃ l, lines[(2 * r).toNat]? = some l ∧ l.take 3 = "â€¢".data ∧
            l = dotRowText twoBoxesClaimed r) ∧
        (∀ r, 0 ≤ r → r < twoBoxesClaimed.height - 1 →
          ∃ l, lines[(2 * r + 1).toNat]? = some l ∧
            (l.length : Int) = 4 * (twoBoxesClaimed.width - 1) + 1 ∧
            (∀ c, 0 ≤ c → c < twoBoxesClaimed.width →
              ∃ v, readCell twoBoxesClaimed.verticalLines r c = .ok v ∧
                l[(4 * c).toNat]? = some (if v = 1 then '|' else ' ')) ∧
            (∀ c, 0 ≤ c → c < twoBoxesClaimed.width - 1 →
              ∃ b, readCell twoBoxesClaimed.boxes r c = .ok b ∧ (b = 0 ∨ b = 1 ∨ b = 2) ∧
                l[(4 * c).toNat + 1]? = some ' ' ∧
                l[(4 * c).toNat + 2]? =
                  some (if b = 1 then '1' else if b = 2 then '2' else ' ') ∧
                l[(4 * c).toNat + 3]? = some ' ')) :=
  ⟨by decide, toString_layout twoBoxesClaimed (by decide)⟩

/-- C22 at the 2 x 2 game with three edges drawn. -/
theorem last_edge_claims_box_witness :
    Reachable 2 2 threeSides ∧
      (∀ t row col, InRange threeSides t row col →
        readCell (linesOf threeSides t) row col = .ok 0 →
        (∀ t' r c, InRange threeSides t' r c → (t', r, c) ≠ (t, row, col) →
          readCell (linesOf threeSides t') r c = .ok 1) →
        ∃ s' d completedBoxes, makeMove threeSides t row col = .ok (some s') ∧
          drawLine threeSides t row col = .ok d ∧
          checkBoxCompletion d t row col = .ok completedBoxes ∧
          (completedBoxes.length = 1 ∨ completedBoxes.length = 2) ∧
          (∀ b ∈ completedBoxes, readCell s'.boxes b.1 b.2 = .ok threeSides.currentPlayer) ∧
          s'.currentPlayer = threeSides.currentPlayer ∧ s'.extraTurn = true ∧
          isGameOver s' = true) ∧
      (isGameOver threeSides = true →
        threeSides.extraTurn = true ∧
        (∃ prev t row col, Reachable 2 2 prev ∧
          makeMove prev t row col = .ok (some threeSides)) ∧
        ∀ prev t row col, Reachable 2 2 prev →
          makeMove prev t row col = .ok (some threeSides) →
          threeSides.currentPlayer = prev.currentPlayer) :=
  ⟨threeSides_reachable,
    last_edge_claims_box 2 2 (by decide) (by decide) threeSides threeSides_reachable⟩

end DotsAndBoxes
